import Mathlib

/-!
# NTCP session layer (`NTCPSession.cpp`)

A shallow embedding of the NTCP session of the router: the four-phase
handshake, the framed record layer and the session teardown.

* Byte buffers are lists of natural numbers (one number per byte).
* The collaborators living outside `NTCPSession.cpp` (Crypto++, the router
  context, the I2NP layer, the clock) are fields of `Env`.
* Calls to the socket, to the transport registry and to the I2NP handler are
  recorded, in order, in the `trace` of the session; the completion handlers
  bound to asynchronous operations that have not fired yet are its `pending`
  list.

All definitions come first; the theorems follow.
-/

namespace ntcp

/-- A byte buffer. -/
abbrev Bytes := List Nat

/-- Modelled from the spec: the constant of `NTCPSession.h` (16 KiB). -/
def NTCP_MAX_MESSAGE_SIZE : Nat := 16384

/-- The effect of `memcpy (buf + off, data, |data|)` on a buffer that is large enough. -/
def writeAt (buf : Bytes) (off : Nat) (data : Bytes) : Bytes :=
  buf.take off ++ data ++ buf.drop (off + data.length)

/-- The bytes a read operation left in a buffer: the received bytes, then the old tail. -/
def recvInto (received old : Bytes) : Bytes :=
  received ++ old.drop received.length

/-- Memory image of `htobe16 (n)` stored in a `uint16_t`. -/
def htobe16 (n : Nat) : Bytes := [n / 256 % 256, n % 256]

/-- The value `be16toh (*(uint16_t *)buf)`. -/
def be16toh (buf : Bytes) : Nat := buf.getD 0 0 * 256 + buf.getD 1 0

/-- Memory image of `htobe32 (n)` stored in a `uint32_t`. -/
def htobe32 (n : Nat) : Bytes :=
  [n / 16777216 % 256, n / 65536 % 256, n / 256 % 256, n % 256]

/-- Bytewise exclusive or. -/
def xorBytes (a b : Bytes) : Bytes := List.zipWith (fun x y => x ^^^ y) a b

/-- Modelled from the spec: `round_up_16`, the least multiple of 16 that is not below `n`. -/
def round_up_16 (n : Nat) : Nat := (n + 15) / 16 * 16

/-- Modelled from the spec: `aes_key_from_secret`, the 32-byte AES key made from the
256-byte DH secret. -/
def aes_key_from_secret (secret : Bytes) : Bytes :=
  if secret.getD 0 0 &&& 0x80 ≠ 0 then 0 :: secret.take 31 else secret.take 32

/-! ## Collaborators -/

/-- The 387-byte router identity record. Modelled from the spec: the layout of
`i2p::data::RouterIdentity`, which `NTCPSession.cpp` only uses. -/
structure RouterIdentity where
  publicKey : Bytes
  signingKey : Bytes
  certificate : Bytes
deriving DecidableEq, Repr

/-- Memory image of a router identity. -/
def RouterIdentity.toBytes (i : RouterIdentity) : Bytes :=
  i.publicKey ++ i.signingKey ++ i.certificate

/-- The router identity stored in the first 387 bytes of a buffer. -/
def RouterIdentity.ofBytes (b : Bytes) : RouterIdentity :=
  { publicKey := b.take 256, signingKey := (b.drop 256).take 128,
    certificate := (b.drop 384).take 3 }

/-- Everything `NTCPSession.cpp` consumes from outside: Crypto++, `i2p::context`,
the I2NP message factory. -/
structure Env where
  /-- `CryptoPP::DH (elgp, elgg).Agree (secret, priv, pub)`: the agreed value, or `none` on failure. -/
  dhAgree : Bytes → Bytes → Option Bytes
  /-- `CryptoPP::SHA256 ().CalculateDigest`. -/
  sha256 : Bytes → Bytes
  /-- AES encryption of one 16-byte block under a key. -/
  aesEncryptBlock : Bytes → Bytes → Bytes
  /-- AES decryption of one 16-byte block under a key. -/
  aesDecryptBlock : Bytes → Bytes → Bytes
  /-- `CryptoPP::DSA::Verifier (signingKey).VerifyMessage (msg, sig)`. -/
  dsaVerify : Bytes → Bytes → Bytes → Bool
  /-- `i2p::context.GetPrivateKey ()`. -/
  privateKey : Bytes
  /-- `i2p::context.GetRouterIdentity ()`. -/
  routerIdentity : RouterIdentity
  /-- `i2p::context.GetRouterInfo ().GetIdentHash ()`. -/
  identHash : Bytes
  /-- `i2p::context.Sign (msg, len, signature)`: the 40-byte signature. -/
  sign : Bytes → Bytes
  /-- The message `CreateDatabaseStoreMsg (buf, 1000)` leaves in `buf`. -/
  databaseStoreMsg : Bytes
  /-- The message `CreateDeliveryStatusMsg (buf, 1000)` leaves in `buf`. -/
  deliveryStatusMsg : Bytes
  /-- The indeterminate contents of the local array `uint8_t aesKey[32]` before
  `CreateAESKey` is called on it. -/
  stackAesKey : Bytes

/-- Modelled from the spec: `CryptoPP::Adler32`, the rolling checksum with modulus
65521 and seed 1, as the pair of its two sums. -/
def adlerSums (data : Bytes) : Nat × Nat :=
  data.foldl (fun st x => ((st.1 + x) % 65521, (st.2 + (st.1 + x) % 65521) % 65521)) (1, 0)

/-- Modelled from the spec: the 4-byte big-endian Adler-32 digest. -/
def adler32 (data : Bytes) : Bytes :=
  let st := adlerSums data
  [st.2 / 256 % 256, st.2 % 256, st.1 / 256 % 256, st.1 % 256]

/-- A keyed `CryptoPP::CBC_Mode<AES>` object: its key and the running IV. -/
structure CBC where
  key : Bytes
  iv : Bytes
deriving DecidableEq, Repr

/-- The first `n` whole 16-byte blocks of a buffer. -/
def fullBlocks : Nat → Bytes → List Bytes
  | 0, _ => []
  | n + 1, data => data.take 16 :: fullBlocks n (data.drop 16)

/-- CBC encryption of a list of blocks under the block function `E`, from IV `iv`:
the final IV and the ciphertext. -/
def cbcEncryptBlocks (E : Bytes → Bytes) : Bytes → List Bytes → Bytes × Bytes
  | iv, [] => (iv, [])
  | iv, p :: ps =>
    let c := E (xorBytes p iv)
    let r := cbcEncryptBlocks E c ps
    (r.1, c ++ r.2)

/-- CBC decryption of a list of blocks under the block function `D`, from IV `iv`:
the final IV and the plaintext. -/
def cbcDecryptBlocks (D : Bytes → Bytes) : Bytes → List Bytes → Bytes × Bytes
  | iv, [] => (iv, [])
  | iv, c :: cs =>
    let p := xorBytes (D c) iv
    let r := cbcDecryptBlocks D c cs
    (r.1, p ++ r.2)

/-- The object after `SetKeyWithIV (key, 32, iv)`. -/
def SetKeyWithIV (key iv : Bytes) : Option CBC :=
  some { key := key.take 32, iv := iv.take 16 }

/-- The call `m_Encryption.ProcessData (out, in, len)`: the whole blocks of the input are
encrypted in CBC mode and the IV chains on. Every call of the source passes a
multiple of 16 bytes. An object that was never keyed (`none`) leaves the data as it is. -/
def encryptData (e : Env) (st : Option CBC) (data : Bytes) : Option CBC × Bytes :=
  match st with
  | none => (none, data)
  | some k =>
    let r := cbcEncryptBlocks (e.aesEncryptBlock k.key) k.iv (fullBlocks (data.length / 16) data)
    (some { key := k.key, iv := r.1 }, r.2)

/-- The call `m_Decryption.ProcessData (out, in, len)`, as `encryptData`. -/
def decryptData (e : Env) (st : Option CBC) (data : Bytes) : Option CBC × Bytes :=
  match st with
  | none => (none, data)
  | some k =>
    let r := cbcDecryptBlocks (e.aesDecryptBlock k.key) k.iv (fullBlocks (data.length / 16) data)
    (some { key := k.key, iv := r.1 }, r.2)

/-! ## Data model -/

/-- The router info the session keeps about its peer (`m_RemoteRouterInfo`): only the
identity and its hash are used. -/
structure RouterInfo where
  routerIdentity : RouterIdentity
  identHash : Bytes
deriving DecidableEq, Repr

/-- Modelled from the spec: `RouterInfo::SetRouterIdentity`, which stores the identity
and recomputes the ident hash as the SHA-256 of the identity record. -/
def RouterInfo.SetRouterIdentity (e : Env) (_r : RouterInfo) (ident : RouterIdentity) :
    RouterInfo :=
  { routerIdentity := ident, identHash := e.sha256 ident.toBytes }

/-- Phase 1 message: `pubKey[256]`, `HXxorHI[32]`. Modelled from the spec: the layout
of the phase records of `NTCPSession.h`. -/
structure NTCPPhase1 where
  pubKey : Bytes
  HXxorHI : Bytes
deriving DecidableEq, Repr

/-- The encrypted part of phase 2: `hxy[32]`, `timestamp` (4 bytes), `filler[12]`. -/
structure NTCPPhase2Encrypted where
  hxy : Bytes
  timestamp : Bytes
  filler : Bytes
deriving DecidableEq, Repr

/-- Phase 2 message: `pubKey[256]` and the encrypted part. -/
structure NTCPPhase2 where
  pubKey : Bytes
  encrypted : NTCPPhase2Encrypted
deriving DecidableEq, Repr

/-- Phase 3 message: `size` (2 bytes), `ident` (387 bytes), `timestamp` (4 bytes),
`signature[40]`, `padding[15]`. -/
structure NTCPPhase3 where
  size : Bytes
  ident : RouterIdentity
  timestamp : Bytes
  signature : Bytes
  padding : Bytes
deriving DecidableEq, Repr

/-- Phase 4 message: `signature[40]`, `padding[8]`. -/
structure NTCPPhase4 where
  signature : Bytes
  padding : Bytes
deriving DecidableEq, Repr

/-- The blob both sides sign: `x[256]`, `y[256]`, `ident[32]`, `tsA`, `tsB`. -/
structure SignedData where
  x : Bytes
  y : Bytes
  ident : Bytes
  tsA : Bytes
  tsB : Bytes
deriving DecidableEq, Repr

/-- Memory image `(uint8_t *)&m_Phase1`. -/
def NTCPPhase1.toBytes (p : NTCPPhase1) : Bytes := p.pubKey ++ p.HXxorHI

/-- The record held by the first 288 bytes of a buffer. -/
def NTCPPhase1.ofBytes (b : Bytes) : NTCPPhase1 :=
  { pubKey := b.take 256, HXxorHI := (b.drop 256).take 32 }

/-- Memory image `(uint8_t *)&m_Phase2.encrypted`. -/
def NTCPPhase2Encrypted.toBytes (p : NTCPPhase2Encrypted) : Bytes :=
  p.hxy ++ p.timestamp ++ p.filler

/-- The record held by the first 48 bytes of a buffer. -/
def NTCPPhase2Encrypted.ofBytes (b : Bytes) : NTCPPhase2Encrypted :=
  { hxy := b.take 32, timestamp := (b.drop 32).take 4, filler := (b.drop 36).take 12 }

/-- Memory image `(uint8_t *)&m_Phase2`. -/
def NTCPPhase2.toBytes (p : NTCPPhase2) : Bytes := p.pubKey ++ p.encrypted.toBytes

/-- The record held by the first 304 bytes of a buffer. -/
def NTCPPhase2.ofBytes (b : Bytes) : NTCPPhase2 :=
  { pubKey := b.take 256, encrypted := NTCPPhase2Encrypted.ofBytes (b.drop 256) }

/-- Memory image `(uint8_t *)&m_Phase3`. -/
def NTCPPhase3.toBytes (p : NTCPPhase3) : Bytes :=
  p.size ++ p.ident.toBytes ++ p.timestamp ++ p.signature ++ p.padding

/-- The record held by the first 448 bytes of a buffer. -/
def NTCPPhase3.ofBytes (b : Bytes) : NTCPPhase3 :=
  { size := b.take 2, ident := RouterIdentity.ofBytes (b.drop 2),
    timestamp := (b.drop 389).take 4, signature := (b.drop 393).take 40,
    padding := (b.drop 433).take 15 }

/-- Memory image `(uint8_t *)&m_Phase4`. -/
def NTCPPhase4.toBytes (p : NTCPPhase4) : Bytes := p.signature ++ p.padding

/-- The record held by the first 48 bytes of a buffer. -/
def NTCPPhase4.ofBytes (b : Bytes) : NTCPPhase4 :=
  { signature := b.take 40, padding := (b.drop 40).take 8 }

/-- Memory image `(uint8_t *)&s` of the signed blob. -/
def SignedData.toBytes (d : SignedData) : Bytes := d.x ++ d.y ++ d.ident ++ d.tsA ++ d.tsB

/-- The completion handlers of the session, with the arguments `boost::bind` fixes. -/
inductive Handler where
  | HandleConnect
  | HandlePhase1Sent
  | HandlePhase1Received
  | HandlePhase2Sent (tsB : Bytes)
  | HandlePhase2Received
  | HandlePhase3Sent (tsA : Bytes)
  | HandlePhase3Received (tsB : Bytes)
  | HandlePhase4Sent
  | HandlePhase4Received (tsA : Bytes)
  | HandleReceived
  | HandleSent
deriving DecidableEq, Repr

/-- The calls the session makes to its collaborators. -/
inductive Effect where
  /-- `m_Socket.close ()`. -/
  | socketClose
  /-- `i2p::transports.RemoveNTCPSession (this)`. -/
  | removeNTCPSession
  /-- `m_Socket.async_connect`. -/
  | asyncConnect
  /-- `boost::asio::async_write` of the given bytes. -/
  | asyncWrite (data : Bytes) (h : Handler)
  /-- `boost::asio::async_read` of exactly `size` bytes. -/
  | asyncRead (size : Nat) (h : Handler)
  /-- `m_Socket.async_read_some` of at most `capacity` bytes. -/
  | asyncReadSome (capacity : Nat) (h : Handler)
  /-- `i2p::HandleI2NPMessage (*this, payload, size)`. -/
  | handleI2NPMessage (payload : Bytes) (size : Nat)
  /-- `LogPrint ("Timestamp")`, the only trace a time-sync frame leaves. -/
  | logTimestamp
deriving DecidableEq, Repr

/-- The session object. `m_ReceiveBuffer` and `m_DecryptedBuffer` hold the bytes of the
arrays below their offsets (`m_ReceiveBufferOffset`, `m_DecryptedBufferOffset`), which
are the only ones the code reads; `m_SendBuffer` is the whole array. A cipher object
is `none` until `SetKeyWithIV` is called on it. -/
structure NTCPSession where
  m_IsEstablished : Bool
  m_Decryption : Option CBC
  m_Encryption : Option CBC
  m_RemoteRouterInfo : RouterInfo
  m_Phase1 : NTCPPhase1
  m_Phase2 : NTCPPhase2
  m_Phase3 : NTCPPhase3
  m_Phase4 : NTCPPhase4
  m_ReceiveBuffer : Bytes
  m_DecryptedBuffer : Bytes
  m_SendBuffer : Bytes
  trace : List Effect
  pending : List Handler
deriving DecidableEq, Repr

namespace NTCPSession

/-- The offset `m_ReceiveBufferOffset`. -/
def m_ReceiveBufferOffset (s : NTCPSession) : Nat := s.m_ReceiveBuffer.length

/-- The offset `m_DecryptedBufferOffset`. -/
def m_DecryptedBufferOffset (s : NTCPSession) : Nat := s.m_DecryptedBuffer.length

/-- Records a call to a collaborator. -/
def emit (s : NTCPSession) (ev : Effect) : NTCPSession :=
  { s with trace := s.trace ++ [ev] }

/-- Starts an `async_write` of `data` whose completion runs `h`. -/
def async_write (s : NTCPSession) (data : Bytes) (h : Handler) : NTCPSession :=
  { s with trace := s.trace ++ [Effect.asyncWrite data h], pending := s.pending ++ [h] }

/-- Starts an `async_read` of `size` bytes whose completion runs `h`. -/
def async_read (s : NTCPSession) (size : Nat) (h : Handler) : NTCPSession :=
  { s with trace := s.trace ++ [Effect.asyncRead size h], pending := s.pending ++ [h] }

/-- `NTCPSession::Terminate`. -/
def Terminate (s : NTCPSession) : NTCPSession :=
  (s.emit Effect.socketClose).emit Effect.removeNTCPSession

end NTCPSession

/-! ## Key derivation and the handshake -/

namespace NTCPSession

/-- `NTCPSession::CreateAESKey (pubKey, aesKey)`: the session and the array `aesKey`
afterwards. -/
def CreateAESKey (e : Env) (s : NTCPSession) (pubKey aesKey : Bytes) : NTCPSession × Bytes :=
  match e.dhAgree e.privateKey pubKey with
  | none => (s.Terminate, aesKey)
  | some secretKey =>
    if secretKey.getD 0 0 &&& 0x80 ≠ 0 then
      (s, writeAt (writeAt aesKey 0 [0]) 1 (secretKey.take 31))
    else
      (s, writeAt aesKey 0 (secretKey.take 32))

/-- What `CreateAESKey (pubKey, _)` adds to the trace: the calls of `Terminate` when DH
agreement fails, nothing otherwise. -/
def dhFailureTrace (e : Env) (pubKey : Bytes) : List Effect :=
  match e.dhAgree e.privateKey pubKey with
  | none => [Effect.socketClose, Effect.removeNTCPSession]
  | some _ => []

/-- `NTCPSession::Receive`. -/
def Receive (s : NTCPSession) : NTCPSession :=
  { s with
    trace := s.trace ++ [Effect.asyncReadSome
      (NTCP_MAX_MESSAGE_SIZE * 2 - s.m_ReceiveBufferOffset) Handler.HandleReceived],
    pending := s.pending ++ [Handler.HandleReceived] }

/-- The send buffer of `Send (buf, len, zeroSize)` when the frame is complete, before it
is encrypted: the size field, the payload and the Adler-32 digest written over the old
contents `sb` of `m_SendBuffer` (the padding bytes are not filled). -/
def frameBuffer (sb buf : Bytes) (len : Nat) (zeroSize : Bool) : Bytes :=
  let sb := writeAt sb 0 (if zeroSize then [0, 0] else htobe16 len)
  let rem := (len + 6) % 16
  let padding := if rem > 0 then 16 - rem else 0
  let sb := writeAt sb 2 (buf.take len)
  writeAt sb (len + 2 + padding) (adler32 (sb.take (len + 2 + padding)))

/-- The plaintext frame `Send` hands to the cipher: the first `len + padding + 6` bytes of
the send buffer. -/
def plainFrame (sb buf : Bytes) (len : Nat) (zeroSize : Bool) : Bytes :=
  let rem := (len + 6) % 16
  let padding := if rem > 0 then 16 - rem else 0
  (frameBuffer sb buf len zeroSize).take (len + padding + 6)

/-- `NTCPSession::Send (buf, len, zeroSize)`. -/
def Send (e : Env) (s : NTCPSession) (buf : Bytes) (len : Nat) (zeroSize : Bool) :
    NTCPSession :=
  let sb := frameBuffer s.m_SendBuffer buf len zeroSize
  let rem := (len + 6) % 16
  let padding := if rem > 0 then 16 - rem else 0
  let l := len + padding + 6
  let r := encryptData e s.m_Encryption (sb.take l)
  let sb := writeAt sb 0 r.2
  { s with m_SendBuffer := sb, m_Encryption := r.1,
           trace := s.trace ++ [Effect.asyncWrite (sb.take l) Handler.HandleSent],
           pending := s.pending ++ [Handler.HandleSent] }

/-- `NTCPSession::HandleSent`. -/
def HandleSent (s : NTCPSession) (ecode : Bool) : NTCPSession :=
  if ecode then s.Terminate else s

/-- `NTCPSession::SendTimeSyncMessage`, at clock reading `now`. -/
def SendTimeSyncMessage (e : Env) (now : Nat) (s : NTCPSession) : NTCPSession :=
  Send e s (htobe32 now) 4 true

/-- `NTCPSession::SendMessage (buf, len)`. -/
def SendMessage (e : Env) (s : NTCPSession) (buf : Bytes) (len : Nat) : NTCPSession :=
  Send e s buf len false

/-- `NTCPSession::ClientLogin`: builds and writes Phase 1. -/
def ClientLogin (e : Env) (s : NTCPSession) : NTCPSession :=
  let x := e.routerIdentity.publicKey
  let digest := e.sha256 x
  let ident := s.m_RemoteRouterInfo.identHash
  let s := { s with m_Phase1 :=
    { pubKey := x,
      HXxorHI := (List.range 32).map (fun i => digest.getD i 0 ^^^ ident.getD i 0) } }
  s.async_write s.m_Phase1.toBytes Handler.HandlePhase1Sent

/-- `NTCPSession::ServerLogin`: waits for Phase 1 (288 bytes). -/
def ServerLogin (s : NTCPSession) : NTCPSession :=
  s.async_read 288 Handler.HandlePhase1Received

/-- `NTCPSession::HandlePhase1Sent`: waits for Phase 2 (`sizeof (m_Phase2)`, 304 bytes by layout). -/
def HandlePhase1Sent (s : NTCPSession) (ecode : Bool) : NTCPSession :=
  if ecode then s.Terminate
  else s.async_read 304 Handler.HandlePhase2Received

/-- `NTCPSession::SendPhase2`, at clock reading `now`. -/
def SendPhase2 (e : Env) (now : Nat) (s : NTCPSession) : NTCPSession :=
  let y := e.routerIdentity.publicKey
  let xy := s.m_Phase1.pubKey ++ y
  let tsB := htobe32 now
  let s := { s with m_Phase2 :=
    { pubKey := y,
      encrypted := { hxy := e.sha256 xy, timestamp := tsB,
                     filler := s.m_Phase2.encrypted.filler } } }
  let k := CreateAESKey e s s.m_Phase1.pubKey e.stackAesKey
  let s := k.1
  let aesKey := k.2
  let s := { s with m_Encryption := SetKeyWithIV aesKey (y.drop 240) }
  let s := { s with m_Decryption := SetKeyWithIV aesKey (s.m_Phase1.HXxorHI.drop 16) }
  let r := encryptData e s.m_Encryption s.m_Phase2.encrypted.toBytes
  let s := { s with m_Encryption := r.1,
                    m_Phase2 := { pubKey := s.m_Phase2.pubKey,
                                  encrypted := NTCPPhase2Encrypted.ofBytes r.2 } }
  s.async_write s.m_Phase2.toBytes (Handler.HandlePhase2Sent tsB)

/-- `NTCPSession::HandlePhase1Received`; `received` are the bytes the read left in
`m_Phase1`. -/
def HandlePhase1Received (e : Env) (now : Nat) (s : NTCPSession) (ecode : Bool)
    (received : Bytes) : NTCPSession :=
  let s := { s with m_Phase1 := NTCPPhase1.ofBytes (recvInto received s.m_Phase1.toBytes) }
  if ecode then s.Terminate
  else
    let digest := e.sha256 s.m_Phase1.pubKey
    let ident := e.identHash
    if (List.range 32).all
        (fun i => (s.m_Phase1.HXxorHI.getD i 0 ^^^ ident.getD i 0) == digest.getD i 0) then
      SendPhase2 e now s
    else s.Terminate

/-- `NTCPSession::HandlePhase2Sent`: waits for Phase 3 (448 bytes). -/
def HandlePhase2Sent (s : NTCPSession) (ecode : Bool) (tsB : Bytes) : NTCPSession :=
  if ecode then s.Terminate
  else s.async_read 448 (Handler.HandlePhase3Received tsB)

/-- `NTCPSession::SendPhase3`, at clock reading `now`. -/
def SendPhase3 (e : Env) (now : Nat) (s : NTCPSession) : NTCPSession :=
  let tsA := htobe32 now
  let sd : SignedData :=
    { x := s.m_Phase1.pubKey, y := s.m_Phase2.pubKey,
      ident := s.m_RemoteRouterInfo.identHash,
      tsA := tsA, tsB := s.m_Phase2.encrypted.timestamp }
  let s := { s with m_Phase3 :=
    { size := htobe16 387, ident := e.routerIdentity, timestamp := tsA,
      signature := e.sign sd.toBytes, padding := s.m_Phase3.padding } }
  let r := encryptData e s.m_Encryption s.m_Phase3.toBytes
  let s := { s with m_Encryption := r.1, m_Phase3 := NTCPPhase3.ofBytes r.2 }
  s.async_write s.m_Phase3.toBytes (Handler.HandlePhase3Sent tsA)

/-- `NTCPSession::HandlePhase2Received`; `received` are the bytes the read left in
`m_Phase2`. -/
def HandlePhase2Received (e : Env) (now : Nat) (s : NTCPSession) (ecode : Bool)
    (received : Bytes) : NTCPSession :=
  let s := { s with m_Phase2 := NTCPPhase2.ofBytes (recvInto received s.m_Phase2.toBytes) }
  if ecode then s.Terminate
  else
    let k := CreateAESKey e s s.m_Phase2.pubKey e.stackAesKey
    let s := k.1
    let aesKey := k.2
    let s := { s with m_Decryption := SetKeyWithIV aesKey (s.m_Phase2.pubKey.drop 240) }
    let s := { s with m_Encryption := SetKeyWithIV aesKey (s.m_Phase1.HXxorHI.drop 16) }
    let r := decryptData e s.m_Decryption s.m_Phase2.encrypted.toBytes
    let s := { s with m_Decryption := r.1,
                      m_Phase2 := { pubKey := s.m_Phase2.pubKey,
                                    encrypted := NTCPPhase2Encrypted.ofBytes r.2 } }
    let hxy := e.sha256 (e.routerIdentity.publicKey ++ s.m_Phase2.pubKey)
    if hxy.take 32 ≠ s.m_Phase2.encrypted.hxy.take 32 then s.Terminate
    else SendPhase3 e now s

/-- `NTCPSession::HandlePhase3Sent`: waits for Phase 4 (48 bytes). -/
def HandlePhase3Sent (s : NTCPSession) (ecode : Bool) (tsA : Bytes) : NTCPSession :=
  if ecode then s.Terminate
  else s.async_read 48 (Handler.HandlePhase4Received tsA)

/-- `NTCPSession::SendPhase4 (tsB)`. -/
def SendPhase4 (e : Env) (s : NTCPSession) (tsB : Bytes) : NTCPSession :=
  let sd : SignedData :=
    { x := s.m_Phase1.pubKey, y := s.m_Phase2.pubKey,
      ident := s.m_RemoteRouterInfo.identHash,
      tsA := s.m_Phase3.timestamp, tsB := tsB }
  let s := { s with m_Phase4 :=
    { signature := e.sign sd.toBytes, padding := s.m_Phase4.padding } }
  let r := encryptData e s.m_Encryption s.m_Phase4.toBytes
  let s := { s with m_Encryption := r.1, m_Phase4 := NTCPPhase4.ofBytes r.2 }
  s.async_write s.m_Phase4.toBytes Handler.HandlePhase4Sent

/-- `NTCPSession::HandlePhase3Received`; `received` are the bytes the read left in
`m_Phase3`. -/
def HandlePhase3Received (e : Env) (s : NTCPSession) (ecode : Bool) (received : Bytes)
    (tsB : Bytes) : NTCPSession :=
  let s := { s with m_Phase3 := NTCPPhase3.ofBytes (recvInto received s.m_Phase3.toBytes) }
  if ecode then s.Terminate
  else
    let r := decryptData e s.m_Decryption s.m_Phase3.toBytes
    let s := { s with m_Decryption := r.1, m_Phase3 := NTCPPhase3.ofBytes r.2 }
    let s := { s with m_RemoteRouterInfo :=
      s.m_RemoteRouterInfo.SetRouterIdentity e s.m_Phase3.ident }
    let sd : SignedData :=
      { x := s.m_Phase1.pubKey, y := s.m_Phase2.pubKey, ident := e.identHash,
        tsA := s.m_Phase3.timestamp, tsB := tsB }
    if !e.dsaVerify s.m_RemoteRouterInfo.routerIdentity.signingKey sd.toBytes
        s.m_Phase3.signature then
      s.Terminate
    else SendPhase4 e s tsB

/-- `NTCPSession::HandlePhase4Sent`. -/
def HandlePhase4Sent (s : NTCPSession) (ecode : Bool) : NTCPSession :=
  if ecode then s.Terminate
  else
    let s := { s with m_IsEstablished := true }
    let s := { s with m_ReceiveBuffer := [] }
    let s := { s with m_DecryptedBuffer := [] }
    s.Receive

/-- `NTCPSession::HandlePhase4Received`, at clock reading `now`; `received` are the
bytes the read left in `m_Phase4`. -/
def HandlePhase4Received (e : Env) (now : Nat) (s : NTCPSession) (ecode : Bool)
    (received : Bytes) (tsA : Bytes) : NTCPSession :=
  let s := { s with m_Phase4 := NTCPPhase4.ofBytes (recvInto received s.m_Phase4.toBytes) }
  if ecode then s.Terminate
  else
    let r := decryptData e s.m_Decryption s.m_Phase4.toBytes
    let s := { s with m_Decryption := r.1, m_Phase4 := NTCPPhase4.ofBytes r.2 }
    let sd : SignedData :=
      { x := s.m_Phase1.pubKey, y := s.m_Phase2.pubKey, ident := e.identHash,
        tsA := tsA, tsB := s.m_Phase2.encrypted.timestamp }
    if !e.dsaVerify s.m_RemoteRouterInfo.routerIdentity.signingKey sd.toBytes
        s.m_Phase4.signature then
      s.Terminate
    else
      let s := { s with m_IsEstablished := true }
      let s := SendTimeSyncMessage e now s
      let s := SendMessage e s e.databaseStoreMsg e.databaseStoreMsg.length
      let s := SendMessage e s e.deliveryStatusMsg e.deliveryStatusMsg.length
      let s := { s with m_ReceiveBuffer := [] }
      let s := { s with m_DecryptedBuffer := [] }
      s.Receive

end NTCPSession

/-! ## The record layer: receive path -/

/-- The padding `Send` computes for a payload of `len` bytes. -/
def sendPadding (len : Nat) : Nat :=
  let rem := (len + 6) % 16
  if rem > 0 then 16 - rem else 0

/-- The frame length the parse loop of `DecryptReceived` computes from the size field. -/
def frameLength (dataSize : Nat) : Nat :=
  let len := if dataSize ≠ 0 then dataSize + 6 else 16
  if dataSize ≠ 0 then
    let rem := len % 16
    if rem > 0 then len + (16 - rem) else len
  else len

namespace NTCPSession

/-- `NTCPSession::HandleNextMessage (buf, len, dataSize)`; `buf` holds the `len` bytes
of the frame. -/
def HandleNextMessage (s : NTCPSession) (buf : Bytes) (_len : Nat) (dataSize : Nat) :
    NTCPSession :=
  if dataSize ≠ 0 then
    s.emit (Effect.handleI2NPMessage ((buf.drop 2).take dataSize) dataSize)
  else s.emit Effect.logTimestamp

/-- The `while (size > 2)` loop of `DecryptReceived` over the region `buf` (of `size`
bytes): the session and the unparsed bytes at the exit of the loop. The first
argument bounds the number of iterations; each iteration consumes at least 16 bytes,
so the length of the region is always enough (`parseLoop_fuel`). -/
def parseLoop : Nat → NTCPSession → Bytes → NTCPSession × Bytes
  | 0, s, buf => (s, buf)
  | fuel + 1, s, buf =>
    if buf.length > 2 then
      let dataSize := be16toh buf
      let len := frameLength dataSize
      if len > buf.length then (s, buf)
      else parseLoop fuel (s.HandleNextMessage (buf.take len) len dataSize) (buf.drop len)
    else (s, buf)

/-- `NTCPSession::DecryptReceived (encrypted, len)`; `encrypted` holds the `len` bytes. -/
def DecryptReceived (e : Env) (s : NTCPSession) (encrypted : Bytes) : NTCPSession :=
  let r := decryptData e s.m_Decryption encrypted
  let s := { s with m_Decryption := r.1, m_DecryptedBuffer := s.m_DecryptedBuffer ++ r.2 }
  let q := parseLoop s.m_DecryptedBuffer.length s s.m_DecryptedBuffer
  { q.1 with m_DecryptedBuffer := q.2 }

/-- `NTCPSession::HandleReceived`; `received` are the `bytes_transferred` bytes the read
stored at `m_ReceiveBuffer + m_ReceiveBufferOffset`. -/
def HandleReceived (e : Env) (s : NTCPSession) (ecode : Bool) (received : Bytes) :
    NTCPSession :=
  if ecode then s.Terminate
  else
    let s := { s with m_ReceiveBuffer := s.m_ReceiveBuffer ++ received }
    let quot := s.m_ReceiveBufferOffset / 16
    let rem := s.m_ReceiveBufferOffset % 16
    let s :=
      if quot ≠ 0 then
        let decryptedLen := quot * 16
        let t := DecryptReceived e s (s.m_ReceiveBuffer.take decryptedLen)
        if rem ≠ 0 then
          { t with m_ReceiveBuffer := (t.m_ReceiveBuffer.drop decryptedLen).take rem }
        else { t with m_ReceiveBuffer := [] }
      else s
    s.Receive

/-- `NTCPClient::Connect`. -/
def Connect (s : NTCPSession) : NTCPSession :=
  { s with trace := s.trace ++ [Effect.asyncConnect],
           pending := s.pending ++ [Handler.HandleConnect] }

/-- `NTCPClient::HandleConnect`. -/
def HandleConnect (e : Env) (s : NTCPSession) (ecode : Bool) : NTCPSession :=
  if ecode then s.Terminate else ClientLogin e s

/-- Runs a completion handler with the error code and the bytes of the completed
operation, at clock reading `now`. -/
def dispatch (e : Env) (now : Nat) (h : Handler) (ecode : Bool) (data : Bytes)
    (s : NTCPSession) : NTCPSession :=
  match h with
  | Handler.HandleConnect => HandleConnect e s ecode
  | Handler.HandlePhase1Sent => HandlePhase1Sent s ecode
  | Handler.HandlePhase1Received => HandlePhase1Received e now s ecode data
  | Handler.HandlePhase2Sent tsB => HandlePhase2Sent s ecode tsB
  | Handler.HandlePhase2Received => HandlePhase2Received e now s ecode data
  | Handler.HandlePhase3Sent tsA => HandlePhase3Sent s ecode tsA
  | Handler.HandlePhase3Received tsB => HandlePhase3Received e s ecode data tsB
  | Handler.HandlePhase4Sent => HandlePhase4Sent s ecode
  | Handler.HandlePhase4Received tsA => HandlePhase4Received e now s ecode data tsA
  | Handler.HandleReceived => HandleReceived e s ecode data
  | Handler.HandleSent => HandleSent s ecode

/-- Calls `Terminate` `n` times in a row. -/
def terminateTimes : Nat → NTCPSession → NTCPSession
  | 0, s => s
  | n + 1, s => terminateTimes n s.Terminate

/-- The handler invocations of `i2p::HandleI2NPMessage` recorded in a trace, in order. -/
def handled : List Effect → List (Bytes × Nat)
  | [] => []
  | Effect.handleI2NPMessage p n :: rest => (p, n) :: handled rest
  | _ :: rest => handled rest

/-- The frames `HandleNextMessage` was called on, as recorded in a trace: the I2NP
deliveries and the time-sync samples, in order. -/
def delivered : List Effect → List Effect
  | [] => []
  | Effect.handleI2NPMessage p n :: rest => Effect.handleI2NPMessage p n :: delivered rest
  | Effect.logTimestamp :: rest => Effect.logTimestamp :: delivered rest
  | _ :: rest => delivered rest

/-- The number of `m_Socket.close ()` calls recorded in a trace. -/
def socketCloses (t : List Effect) : Nat := t.count Effect.socketClose

/-- The number of `RemoveNTCPSession` calls recorded in a trace. -/
def registryRemovals (t : List Effect) : Nat := t.count Effect.removeNTCPSession

/-- The events the parse loop of `DecryptReceived` emits on a region and the bytes it
leaves unparsed (`parseLoop_eq`); the session plays no part in them. -/
def parseEvents : Nat → Bytes → List Effect × Bytes
  | 0, buf => ([], buf)
  | fuel + 1, buf =>
    if buf.length > 2 then
      let dataSize := be16toh buf
      let len := frameLength dataSize
      if len > buf.length then ([], buf)
      else
        let r := parseEvents fuel (buf.drop len)
        ((if dataSize ≠ 0 then
            [Effect.handleI2NPMessage (((buf.take len).drop 2).take dataSize) dataSize]
          else [Effect.logTimestamp]) ++ r.1, r.2)
    else ([], buf)

/-- The parse loop run to its exit on a region. -/
def parseAll (buf : Bytes) : List Effect × Bytes := parseEvents buf.length buf

/-- The part of a session the receive path reads and writes: the decryption state, the
two buffers and the frames delivered so far. -/
def recvView (s : NTCPSession) : Option CBC × Bytes × Bytes × List Effect :=
  (s.m_Decryption, s.m_ReceiveBuffer, s.m_DecryptedBuffer, delivered s.trace)

/-- What one successful read of the bytes `c` does to the receive view
(`recvView_HandleReceived`). -/
def recvStep (e : Env) (v : Option CBC × Bytes × Bytes × List Effect) (c : Bytes) :
    Option CBC × Bytes × Bytes × List Effect :=
  let b := v.2.1 ++ c
  if b.length / 16 ≠ 0 then
    let r := decryptData e v.1 (b.take (b.length / 16 * 16))
    let pe := parseAll (v.2.2.1 ++ r.2)
    (r.1, b.drop (b.length / 16 * 16), pe.2, v.2.2.2 ++ pe.1)
  else (v.1, b, v.2.2.1, v.2.2.2)

/-- The bytes handed to `async_write`, one entry per call, in order. -/
def written : List Effect → List Bytes
  | [] => []
  | Effect.asyncWrite d _ :: rest => d :: written rest
  | _ :: rest => written rest

/-- Calls `SendMessage (p, |p|)` for each payload of a list, in order. -/
def sendAll (e : Env) (s : NTCPSession) : List Bytes → NTCPSession
  | [] => s
  | p :: ps => sendAll e (SendMessage e s p p.length) ps

/-- Feeds the chunks of a byte stream to `HandleReceived`, one successful read each. -/
def receiveChunks (e : Env) (s : NTCPSession) : List Bytes → NTCPSession
  | [] => s
  | c :: cs => receiveChunks e (HandleReceived e s false c) cs

/-- The frame lengths `len` the `while (size > 2)` loop of `DecryptReceived` consumes on
the region `buf`, in order (one per call of `HandleNextMessage`); the first argument
bounds the number of iterations as in `parseLoop`. -/
def frameLengths : Nat → Bytes → List Nat
  | 0, _ => []
  | fuel + 1, buf =>
    if buf.length > 2 then
      let dataSize := be16toh buf
      let len := frameLength dataSize
      if len > buf.length then []
      else len :: frameLengths fuel (buf.drop len)
    else []

/-- The frame lengths the parse loop consumes when run to its exit on a region. -/
def consumedFrames (buf : Bytes) : List Nat := frameLengths buf.length buf

end NTCPSession

end ntcp

/-! ## Sessions as transition systems -/

namespace ntcp

namespace NTCPSession

/-- The last bytes handed to `async_write`, if any. -/
def lastWritten (s : NTCPSession) : Bytes := ((written s.trace).getLast?).getD []

/-- Completes the oldest pending operation of the session: its handler runs with the
given error code and bytes, at clock reading `now`. -/
def fire (e : Env) (now : Nat) (s : NTCPSession) (ecode : Bool) (data : Bytes) : NTCPSession :=
  match s.pending with
  | [] => s
  | h :: rest => dispatch e now h ecode data { s with pending := rest }

/-- The handshake between a client session `c0` (environment `ec`) and a server session
`s0` (environment `es`) over sockets that never fail and deliver every message
unmodified: each side completes its pending operation in turn, a read receiving the
bytes the peer wrote last. `tA`, `tB`, `tC` are the clock readings of the client when it
sends Phase 3, of the server when it sends Phase 2 and of the client when it handles
Phase 4. The result is the pair of final sessions, client first. -/
def honestRun (ec es : Env) (tA tB tC : Nat) (c0 s0 : NTCPSession) :
    NTCPSession × NTCPSession :=
  let c1 := fire ec 0 (Connect c0) false []
  let s1 := ServerLogin s0
  let c2 := fire ec 0 c1 false []
  let s2 := fire es tB s1 false (lastWritten c1)
  let s3 := fire es 0 s2 false []
  let c3 := fire ec tA c2 false (lastWritten s2)
  let c4 := fire ec 0 c3 false []
  let s4 := fire es 0 s3 false (lastWritten c3)
  let s5 := fire es 0 s4 false []
  let c5 := fire ec tC c4 false (lastWritten s4)
  (c5, s5)

/-- The number of bytes a handshake read has transferred when it completes without
error: the size of the phase record it fills. -/
def readSize : Handler → Option Nat
  | Handler.HandlePhase1Received => some 288
  | Handler.HandlePhase2Received => some 304
  | Handler.HandlePhase3Received _ => some 448
  | Handler.HandlePhase4Received _ => some 48
  | _ => none

/-- The handlers of the handshake (all but `HandleReceived` and `HandleSent`). -/
def isHandshake : Handler → Bool
  | Handler.HandleReceived => false
  | Handler.HandleSent => false
  | _ => true

/-- A session as its constructor leaves it: not established, ciphers not keyed, no
operation started. -/
def Initial (s : NTCPSession) : Prop :=
  s.m_IsEstablished = false ∧ s.m_Encryption = none ∧ s.m_Decryption = none
    ∧ s.m_ReceiveBuffer = [] ∧ s.trace = [] ∧ s.pending = []

/-- One step of a session: a pending operation completes and its handler runs (a
handshake read that completes without error has filled its record), or the upper
layer calls `SendMessage` or `SendTimeSyncMessage`. -/
inductive Step (e : Env) : NTCPSession → NTCPSession → Prop where
  | complete (s : NTCPSession) (pre post : List Handler) (h : Handler) (now : Nat)
      (ecode : Bool) (data : Bytes) :
      s.pending = pre ++ h :: post →
      (ecode = false → ∀ n, readSize h = some n → data.length = n) →
      Step e s (dispatch e now h ecode data { s with pending := pre ++ post })
  | sendMessage (s : NTCPSession) (buf : Bytes) (len : Nat) :
      Step e s (SendMessage e s buf len)
  | sendTimeSync (s : NTCPSession) (now : Nat) :
      Step e s (SendTimeSyncMessage e now s)

/-- The states a session can reach: a client starts with `Connect`, a server with
`ServerLogin`. -/
inductive Reachable (e : Env) : NTCPSession → Prop where
  | client (s : NTCPSession) : Initial s → Reachable e (Connect s)
  | server (s : NTCPSession) : Initial s → Reachable e (ServerLogin s)
  | step (s t : NTCPSession) : Reachable e s → Step e s t → Reachable e t

/-- The handlers that use a cipher or follow a step that does. -/
def needsKey : Handler → Bool
  | Handler.HandlePhase2Sent _ => true
  | Handler.HandlePhase3Received _ => true
  | Handler.HandlePhase3Sent _ => true
  | Handler.HandlePhase4Received _ => true
  | Handler.HandlePhase4Sent => true
  | _ => false

/-- Both cipher objects have been keyed by `SetKeyWithIV`. -/
def Keyed (s : NTCPSession) : Prop :=
  s.m_Encryption ≠ none ∧ s.m_Decryption ≠ none

/-- The timestamp an `async_write` binds into `HandlePhase2Sent`: the `tsB` of the
`boost::bind` in `SendPhase2`. -/
def boundB : Effect → Option Bytes
  | Effect.asyncWrite _ (Handler.HandlePhase2Sent tsB) => some tsB
  | _ => none

/-- The timestamp an `async_write` binds into `HandlePhase3Sent`: the `tsA` of the
`boost::bind` in `SendPhase3`. -/
def boundA : Effect → Option Bytes
  | Effect.asyncWrite _ (Handler.HandlePhase3Sent tsA) => some tsA
  | _ => none

/-- The timestamps `tsB` bound by the writes of Phase 2 in a trace, oldest first. -/
def boundTsB (t : List Effect) : List Bytes := t.filterMap boundB

/-- The timestamps `tsA` bound by the writes of Phase 3 in a trace, oldest first. -/
def boundTsA (t : List Effect) : List Bytes := t.filterMap boundA

/-- Server side: the session has written Phase 2 exactly once, and the signature of
Phase 3 it holds verifies, against the signing key of the stored peer identity, over
`X ‖ Y ‖ own ident hash ‖ tsA ‖ tsB`, where `tsA` is the timestamp of the Phase 3
record and `tsB` is the timestamp that write of Phase 2 bound into its completion
handler. -/
def ServerVerified (e : Env) (s : NTCPSession) : Prop :=
  ∃ tsB : Bytes, boundTsB s.trace = [tsB] ∧
    e.dsaVerify s.m_RemoteRouterInfo.routerIdentity.signingKey
      (SignedData.toBytes
        { x := s.m_Phase1.pubKey, y := s.m_Phase2.pubKey, ident := e.identHash,
          tsA := s.m_Phase3.timestamp, tsB := tsB })
      s.m_Phase3.signature = true

/-- Client side: the session has written Phase 3 exactly once, and the signature of
Phase 4 it holds verifies, against the signing key of the stored peer identity, over
`X ‖ Y ‖ own ident hash ‖ tsA ‖ tsB`, where `tsA` is the timestamp that write of
Phase 3 bound into its completion handler and `tsB` is the timestamp of the decrypted
Phase 2 record. -/
def ClientVerified (e : Env) (s : NTCPSession) : Prop :=
  ∃ tsA : Bytes, boundTsA s.trace = [tsA] ∧
    e.dsaVerify s.m_RemoteRouterInfo.routerIdentity.signingKey
      (SignedData.toBytes
        { x := s.m_Phase1.pubKey, y := s.m_Phase2.pubKey, ident := e.identHash,
          tsA := tsA, tsB := s.m_Phase2.encrypted.timestamp })
      s.m_Phase4.signature = true

/-- `Receive ()` has been called: an `async_read_some` is recorded in the trace. -/
def ReceiveStarted (s : NTCPSession) : Prop :=
  ∃ (cap : Nat) (h : Handler), Effect.asyncReadSome cap h ∈ s.trace

/-- What a pending handshake handler tells about the timestamps bound so far, `tB` by
the writes of Phase 2 and `tA` by the writes of Phase 3: before a side writes its
phase nothing is bound; afterwards the one timestamp bound is the one its handlers
carry. -/
def tsBound (tB tA : List Bytes) : Handler → Prop
  | Handler.HandleConnect => tA = []
  | Handler.HandlePhase1Sent => tA = []
  | Handler.HandlePhase2Received => tA = []
  | Handler.HandlePhase3Sent tsA => tA = [tsA]
  | Handler.HandlePhase4Received tsA => tA = [tsA]
  | Handler.HandlePhase1Received => tB = []
  | Handler.HandlePhase2Sent tsB => tB = [tsB]
  | Handler.HandlePhase3Received tsB => tB = [tsB]
  | _ => True

/-- The invariant of the reachable states: an established session is keyed and has
verified its peer; data reads start only on an established session; at most one
handshake handler is pending, none once established; the later handshake handlers
are only pending on a keyed session (after a successful verification for
`HandlePhase4Sent`); and the timestamp a pending handshake handler carries is the one
bound by the write of its phase. -/
def Inv (e : Env) (s : NTCPSession) : Prop :=
  (s.m_IsEstablished = true → Keyed s ∧ (ServerVerified e s ∨ ClientVerified e s))
  ∧ (ReceiveStarted s → s.m_IsEstablished = true)
  ∧ (Handler.HandleReceived ∈ s.pending → s.m_IsEstablished = true)
  ∧ (s.m_IsEstablished = true → ∀ h ∈ s.pending, isHandshake h = false)
  ∧ (s.pending.filter isHandshake).length ≤ 1
  ∧ (Handler.HandlePhase4Sent ∈ s.pending → ServerVerified e s)
  ∧ (∀ h ∈ s.pending, needsKey h = true → Keyed s)
  ∧ (∀ h ∈ s.pending, tsBound (boundTsB s.trace) (boundTsA s.trace) h)

/-! ### CBC chaining of the messages a session sends -/

/-- The last 16 bytes of a buffer. -/
def last16 (b : Bytes) : Bytes := b.drop (b.length - 16)

/-- The outputs of `m_Encryption.ProcessData` among the messages handed to `async_write`,
in order: the 48-byte encrypted part of a Phase 2 message (after the 256 bytes of `Y`),
the Phase 3 and Phase 4 messages and the frames of `Send`. A Phase 1 message carries no
ciphertext. -/
def sentCiphertexts : List Effect → List Bytes
  | [] => []
  | Effect.asyncWrite d (Handler.HandlePhase2Sent _) :: rest =>
    d.drop 256 :: sentCiphertexts rest
  | Effect.asyncWrite d (Handler.HandlePhase3Sent _) :: rest => d :: sentCiphertexts rest
  | Effect.asyncWrite d Handler.HandlePhase4Sent :: rest => d :: sentCiphertexts rest
  | Effect.asyncWrite d Handler.HandleSent :: rest => d :: sentCiphertexts rest
  | _ :: rest => sentCiphertexts rest

/-- The running IV of `m_Encryption` is the last 16 bytes of the last ciphertext the
session has sent. -/
def Chained (s : NTCPSession) : Prop :=
  ∃ k : CBC, s.m_Encryption = some k ∧ k.iv.length = 16
    ∧ ((sentCiphertexts s.trace).getLast?).map last16 = some k.iv

/-- The Phase 3 record `SendPhase3` builds, before `ProcessData` encrypts it. -/
def phase3Plain (e : Env) (now : Nat) (s : NTCPSession) : Bytes :=
  NTCPPhase3.toBytes
    { size := htobe16 387, ident := e.routerIdentity, timestamp := htobe32 now,
      signature := e.sign (SignedData.toBytes
        { x := s.m_Phase1.pubKey, y := s.m_Phase2.pubKey,
          ident := s.m_RemoteRouterInfo.identHash,
          tsA := htobe32 now, tsB := s.m_Phase2.encrypted.timestamp }),
      padding := s.m_Phase3.padding }

/-- The Phase 4 record `SendPhase4 (tsB)` builds, before `ProcessData` encrypts it. -/
def phase4Plain (e : Env) (s : NTCPSession) (tsB : Bytes) : Bytes :=
  NTCPPhase4.toBytes
    { signature := e.sign (SignedData.toBytes
        { x := s.m_Phase1.pubKey, y := s.m_Phase2.pubKey,
          ident := s.m_RemoteRouterInfo.identHash,
          tsA := s.m_Phase3.timestamp, tsB := tsB }),
      padding := s.m_Phase4.padding }

/-- The session of `HandlePhase2Received` when it compares the hashes: Phase 2 has been
read, the ciphers keyed and the encrypted part decrypted (lines 173 to 178). -/
def phase2Decrypted (e : Env) (s : NTCPSession) (received : Bytes) : NTCPSession :=
  let s := { s with m_Phase2 := NTCPPhase2.ofBytes (recvInto received s.m_Phase2.toBytes) }
  let k := CreateAESKey e s s.m_Phase2.pubKey e.stackAesKey
  let s := k.1
  let aesKey := k.2
  let s := { s with m_Decryption := SetKeyWithIV aesKey (s.m_Phase2.pubKey.drop 240) }
  let s := { s with m_Encryption := SetKeyWithIV aesKey (s.m_Phase1.HXxorHI.drop 16) }
  let r := decryptData e s.m_Decryption s.m_Phase2.encrypted.toBytes
  { s with m_Decryption := r.1,
           m_Phase2 := { pubKey := s.m_Phase2.pubKey,
                         encrypted := NTCPPhase2Encrypted.ofBytes r.2 } }

/-- The session of `HandlePhase3Received` when it verifies the signature: Phase 3 has
been read and decrypted and the peer identity installed (lines 241 and 242). -/
def phase3Decrypted (e : Env) (s : NTCPSession) (received : Bytes) : NTCPSession :=
  let s := { s with m_Phase3 := NTCPPhase3.ofBytes (recvInto received s.m_Phase3.toBytes) }
  let r := decryptData e s.m_Decryption s.m_Phase3.toBytes
  let s := { s with m_Decryption := r.1, m_Phase3 := NTCPPhase3.ofBytes r.2 }
  { s with m_RemoteRouterInfo :=
      s.m_RemoteRouterInfo.SetRouterIdentity e s.m_Phase3.ident }

end NTCPSession

end ntcp

/-! ## Concrete instances

A small environment with a self-inverse block cipher, used to evaluate the
definitions on concrete inputs. -/

namespace ntcp

/-- A 32-byte key and a 16-byte IV. -/
def demoKey : CBC := { key := List.replicate 32 5, iv := List.replicate 16 9 }

/-- A digest standing in for SHA-256: 32 bytes derived from the sum of the input. -/
def demoDigest (d : Bytes) : Bytes := (List.range 32).map (fun i => (d.sum + i) % 256)

/-- A signature standing in for DSA: 40 bytes derived from the sum of the message. -/
def demoSignature (msg : Bytes) : Bytes := (List.range 40).map (fun i => (msg.sum + i) % 256)

/-- The identity of the demo router. -/
def demoIdentity : RouterIdentity :=
  { publicKey := List.replicate 256 2, signingKey := List.replicate 128 3,
    certificate := [0, 0, 0] }

/-- The demo environment: DH agreement always yields the same secret (top bit set), the
block cipher is the exclusive or with a byte derived from the key. -/
def demoEnv : Env :=
  { dhAgree := fun _ _ => some (List.replicate 256 200)
    sha256 := demoDigest
    aesEncryptBlock := fun k b => xorBytes b (List.replicate 16 (k.sum % 256))
    aesDecryptBlock := fun k b => xorBytes b (List.replicate 16 (k.sum % 256))
    dsaVerify := fun _ msg sig => sig == demoSignature msg
    privateKey := List.replicate 256 4
    routerIdentity := demoIdentity
    identHash := demoDigest demoIdentity.toBytes
    sign := demoSignature
    databaseStoreMsg := [1, 2, 3]
    deliveryStatusMsg := [4, 5]
    stackAesKey := List.replicate 32 0 }

/-- The identity of the demo client router. -/
def demoClientIdentity : RouterIdentity :=
  { publicKey := List.replicate 256 6, signingKey := List.replicate 128 7,
    certificate := [0, 0, 0] }

/-- The environment of the demo client router; `demoEnv` is the server's. -/
def demoClientEnv : Env :=
  { demoEnv with
    privateKey := List.replicate 256 8
    routerIdentity := demoClientIdentity
    identHash := demoDigest demoClientIdentity.toBytes }

/-- A fresh session: not established, ciphers not keyed, nothing pending. -/
def demoSession : NTCPSession :=
  { m_IsEstablished := false
    m_Decryption := none
    m_Encryption := none
    m_RemoteRouterInfo :=
      { routerIdentity := demoIdentity, identHash := demoDigest demoIdentity.toBytes }
    m_Phase1 := { pubKey := List.replicate 256 0, HXxorHI := List.replicate 32 0 }
    m_Phase2 :=
      { pubKey := List.replicate 256 0,
        encrypted := { hxy := List.replicate 32 0, timestamp := [0, 0, 0, 0],
                       filler := List.replicate 12 0 } }
    m_Phase3 :=
      { size := [0, 0], ident := demoIdentity, timestamp := [0, 0, 0, 0],
        signature := List.replicate 40 0, padding := List.replicate 15 0 }
    m_Phase4 := { signature := List.replicate 40 0, padding := List.replicate 8 0 }
    m_ReceiveBuffer := []
    m_DecryptedBuffer := []
    m_SendBuffer := List.replicate 2048 0
    trace := []
    pending := [] }

/-- A session whose two ciphers hold `demoKey`. -/
def demoKeyed : NTCPSession :=
  { demoSession with m_Encryption := some demoKey, m_Decryption := some demoKey }

/-- A plaintext frame whose size field is 17000: 17008 bytes in all. -/
def oversizePlain : Bytes := htobe16 17000 ++ List.replicate 17006 0

/-- The frame `oversizePlain` as it travels: encrypted under `demoKey`. -/
def oversizeCipher : Bytes := (encryptData demoEnv (some demoKey) oversizePlain).2

/-- A 16-byte plaintext frame carrying the one-byte payload `65`, whose last four bytes
are zero and not the Adler-32 digest `2, 161, 0, 67` of the twelve bytes before them. -/
def badChecksumPlain : Bytes := [0, 1, 65, 0, 0, 0, 0, 0, 0, 0, 0, 0, 0, 0, 0, 0]

/-- The frame `badChecksumPlain` as it travels: encrypted under `demoKey`. -/
def badChecksumCipher : Bytes :=
  [169, 168, 232, 169, 169, 169, 169, 169, 169, 169, 169, 169, 169, 169, 169, 169]

/-- The demo client after its connect completed: Phase 1 is written. -/
def demoClient1 : NTCPSession :=
  NTCPSession.fire demoClientEnv 0 (NTCPSession.Connect demoSession) false []

/-- The demo server waiting for Phase 1. -/
def demoServer1 : NTCPSession := NTCPSession.ServerLogin demoSession

/-- The demo client after its write of Phase 1 completed. -/
def demoClient2 : NTCPSession := NTCPSession.fire demoClientEnv 0 demoClient1 false []

/-- The demo server after it read the Phase 1 of the demo client, at clock reading 2000. -/
def demoServer2 : NTCPSession :=
  NTCPSession.fire demoEnv 2000 demoServer1 false (NTCPSession.lastWritten demoClient1)

/-- The demo server after its write of Phase 2 completed. -/
def demoServer3 : NTCPSession := NTCPSession.fire demoEnv 0 demoServer2 false []

/-- The demo client after it read the Phase 2 of the demo server, at clock reading 1000. -/
def demoClient3 : NTCPSession :=
  NTCPSession.fire demoClientEnv 1000 demoClient2 false (NTCPSession.lastWritten demoServer2)

/-- The demo server after it read the Phase 3 of the demo client. -/
def demoServer4 : NTCPSession :=
  NTCPSession.fire demoEnv 0 demoServer3 false (NTCPSession.lastWritten demoClient3)

/-- The demo server after its write of Phase 4 completed. -/
def demoServer5 : NTCPSession := NTCPSession.fire demoEnv 0 demoServer4 false []

end ntcp

/-! # Theorems -/

namespace ntcp

/-! ## Buffers -/

theorem length_writeAt (buf : Bytes) (off : Nat) (data : Bytes)
    (h : off + data.length ≤ buf.length) : (writeAt buf off data).length = buf.length := by
  simp only [writeAt, List.length_append, List.length_take, List.length_drop]
  omega

theorem length_writeAt_ge (buf : Bytes) (off : Nat) (data : Bytes) :
    buf.length ≤ (writeAt buf off data).length := by
  simp only [writeAt, List.length_append, List.length_take, List.length_drop]
  omega

theorem take_writeAt_le (buf : Bytes) (off n : Nat) (data : Bytes) (h : n ≤ off)
    (hoff : off ≤ buf.length) : (writeAt buf off data).take n = buf.take n := by
  simp only [writeAt, List.append_assoc]
  rw [List.take_append_of_le_length (by simp; omega), List.take_take]
  congr 1
  omega

theorem writeAt_zero_full (buf data : Bytes) :
    (writeAt buf 0 data).take data.length = data := by
  simp [writeAt]

open NTCPSession

/-! ## Arithmetic of frame lengths, CBC chaining, the parse loop -/

theorem sendPadding_le (len : Nat) : sendPadding len ≤ 15 := by
  unfold sendPadding
  simp only
  split_ifs <;> omega

theorem sendPadding_round (len : Nat) : len + sendPadding len + 6 = round_up_16 (len + 6) := by
  unfold sendPadding round_up_16
  simp only
  split_ifs <;> omega

theorem frameLength_round (n : Nat) (h : n ≠ 0) : frameLength n = round_up_16 (n + 6) := by
  unfold frameLength round_up_16
  simp only [h, ne_eq, not_false_eq_true, if_true]
  split_ifs <;> omega

theorem round_up_16_mod (n : Nat) : round_up_16 n % 16 = 0 := by
  unfold round_up_16; omega


theorem xorBytes_length (a b : Bytes) (h : a.length = b.length) :
    (xorBytes a b).length = a.length := by
  simp [xorBytes, h]

theorem xorBytes_cancel (a b : Bytes) (h : a.length = b.length) :
    xorBytes (xorBytes a b) b = a := by
  induction a generalizing b with
  | nil => simp [xorBytes]
  | cons x xs ih =>
    cases b with
    | nil => simp at h
    | cons y ys =>
      simp only [List.length_cons, add_left_inj] at h
      have := ih ys h
      simp only [xorBytes, List.zipWith_cons_cons] at this ⊢
      rw [this, Nat.xor_assoc, Nat.xor_self, Nat.xor_zero]

theorem fullBlocks_append (n m : Nat) (a b : Bytes) (ha : a.length = 16 * n) :
    fullBlocks (n + m) (a ++ b) = fullBlocks n a ++ fullBlocks m b := by
  induction n generalizing a with
  | zero =>
    have : a = [] := List.length_eq_zero.mp (by omega)
    simp [this, fullBlocks]
  | succ k ih =>
    have h1 : k + 1 + m = (k + m) + 1 := by omega
    rw [h1]
    simp only [fullBlocks]
    rw [List.take_append_of_le_length (by omega), List.drop_append_of_le_length (by omega)]
    rw [ih (a.drop 16) (by simp; omega)]
    simp

theorem fullBlocks_length (n : Nat) (a : Bytes) : (fullBlocks n a).length = n := by
  induction n generalizing a with
  | zero => simp [fullBlocks]
  | succ k ih => simp [fullBlocks, ih]

theorem cbcDecryptBlocks_append (D : Bytes → Bytes) (iv : Bytes) (xs ys : List Bytes) :
    cbcDecryptBlocks D iv (xs ++ ys) =
      ((cbcDecryptBlocks D (cbcDecryptBlocks D iv xs).1 ys).1,
       (cbcDecryptBlocks D iv xs).2 ++ (cbcDecryptBlocks D (cbcDecryptBlocks D iv xs).1 ys).2) := by
  induction xs generalizing iv with
  | nil => simp [cbcDecryptBlocks]
  | cons c cs ih => simp [cbcDecryptBlocks, ih]

theorem cbcEncryptBlocks_append (E : Bytes → Bytes) (iv : Bytes) (xs ys : List Bytes) :
    cbcEncryptBlocks E iv (xs ++ ys) =
      ((cbcEncryptBlocks E (cbcEncryptBlocks E iv xs).1 ys).1,
       (cbcEncryptBlocks E iv xs).2 ++ (cbcEncryptBlocks E (cbcEncryptBlocks E iv xs).1 ys).2) := by
  induction xs generalizing iv with
  | nil => simp [cbcEncryptBlocks]
  | cons c cs ih => simp [cbcEncryptBlocks, ih]

/-- CBC decryption undoes CBC encryption of whole blocks when the block functions are
inverse to each other on 16-byte blocks. -/
theorem cbc_roundtrip (E D : Bytes → Bytes)
    (hinv : ∀ b : Bytes, b.length = 16 → D (E b) = b)
    (hlen : ∀ b : Bytes, b.length = 16 → (E b).length = 16)
    (n : Nat) (iv data : Bytes) (hiv : iv.length = 16) (hdata : data.length = 16 * n) :
    (cbcEncryptBlocks E iv (fullBlocks n data)).2.length = 16 * n
    ∧ (cbcEncryptBlocks E iv (fullBlocks n data)).1.length = 16
    ∧ cbcDecryptBlocks D iv (fullBlocks n (cbcEncryptBlocks E iv (fullBlocks n data)).2)
        = ((cbcEncryptBlocks E iv (fullBlocks n data)).1, data) := by
  induction n generalizing iv data with
  | zero =>
    have : data = [] := List.length_eq_zero.mp (by omega)
    simp [fullBlocks, cbcEncryptBlocks, cbcDecryptBlocks, this, hiv]
  | succ k ih =>
    have hb : (data.take 16).length = 16 := by simp; omega
    have hx : (xorBytes (data.take 16) iv).length = 16 := by
      rw [xorBytes_length _ _ (by rw [hb, hiv]), hb]
    have hc := hlen _ hx
    obtain ⟨h1, h2, h3⟩ := ih (E (xorBytes (data.take 16) iv)) (data.drop 16) hc (by simp; omega)
    simp only [fullBlocks, cbcEncryptBlocks]
    refine ⟨by simp [h1, hc]; omega, h2, ?_⟩
    rw [List.take_append_of_le_length (by omega), List.drop_append_of_le_length (by omega)]
    rw [List.take_of_length_le (by omega), List.drop_of_length_le (by omega)]
    simp only [List.nil_append, cbcDecryptBlocks]
    rw [h3, hinv _ hx, xorBytes_cancel _ _ (by rw [hb, hiv])]
    simp

theorem frameLength_ge (n : Nat) : 16 ≤ frameLength n := by
  unfold frameLength
  simp only
  split_ifs <;> omega

theorem parseLoop_eq (fuel : Nat) (s : NTCPSession) (buf : Bytes) :
    parseLoop fuel s buf =
      ({ s with trace := s.trace ++ (parseEvents fuel buf).1 }, (parseEvents fuel buf).2) := by
  induction fuel generalizing s buf with
  | zero => simp [parseLoop, parseEvents]
  | succ k ih =>
    simp only [parseLoop, parseEvents]
    by_cases h2 : buf.length > 2
    · simp only [h2, if_true]
      by_cases hl : frameLength (be16toh buf) > buf.length
      · simp [hl]
      · simp only [hl, if_false]
        rw [ih]
        by_cases hd : be16toh buf ≠ 0
        · simp [HandleNextMessage, emit, hd]
        · simp [HandleNextMessage, emit, hd]
    · simp [h2]

theorem parseEvents_fuel (f g : Nat) (buf : Bytes) (hf : buf.length ≤ f) (hg : buf.length ≤ g) :
    parseEvents f buf = parseEvents g buf := by
  induction f generalizing g buf with
  | zero =>
    have hb : buf = [] := List.length_eq_zero.mp (by omega)
    subst hb
    cases g <;> simp [parseEvents]
  | succ k ih =>
    cases g with
    | zero =>
      have hb : buf = [] := List.length_eq_zero.mp (by omega)
      subst hb
      simp [parseEvents]
    | succ j =>
      simp only [parseEvents]
      by_cases h2 : buf.length > 2
      · simp only [h2, if_true]
        by_cases hl : frameLength (be16toh buf) > buf.length
        · simp [hl]
        · simp only [hl, if_false]
          have := frameLength_ge (be16toh buf)
          rw [ih j (buf.drop (frameLength (be16toh buf))) (by simp; omega) (by simp; omega)]
      · simp [h2]

theorem parseAll_step (buf : Bytes) :
    parseAll buf =
      if buf.length > 2 then
        if frameLength (be16toh buf) > buf.length then ([], buf)
        else
          ((if be16toh buf ≠ 0 then
              [Effect.handleI2NPMessage
                (((buf.take (frameLength (be16toh buf))).drop 2).take (be16toh buf))
                (be16toh buf)]
            else [Effect.logTimestamp]) ++ (parseAll (buf.drop (frameLength (be16toh buf)))).1,
           (parseAll (buf.drop (frameLength (be16toh buf)))).2)
      else ([], buf) := by
  unfold parseAll
  cases hn : buf.length with
  | zero => simp [parseEvents]
  | succ k =>
    simp only [parseEvents]
    by_cases h2 : k + 1 > 2
    · simp only [h2, if_true, hn]
      by_cases hl : frameLength (be16toh buf) > k + 1
      · simp [hl]
      · simp only [hl, if_false]
        have := frameLength_ge (be16toh buf)
        rw [parseEvents_fuel k _ (buf.drop (frameLength (be16toh buf))) (by simp; omega) le_rfl]
    · simp [h2, hn]

theorem be16toh_append (a b : Bytes) (h : 2 ≤ a.length) : be16toh (a ++ b) = be16toh a := by
  unfold be16toh
  rw [List.getD_append _ _ _ _ (by omega), List.getD_append _ _ _ _ (by omega)]

theorem parseAll_append (n : Nat) (x y : Bytes) (hx : x.length ≤ n) :
    parseAll (x ++ y) =
      ((parseAll x).1 ++ (parseAll ((parseAll x).2 ++ y)).1, (parseAll ((parseAll x).2 ++ y)).2) := by
  induction n generalizing x with
  | zero =>
    have hb : x = [] := List.length_eq_zero.mp (by omega)
    subst hb
    simp [parseAll, parseEvents]
  | succ k ih =>
    by_cases h2 : x.length > 2
    · by_cases hl : frameLength (be16toh x) > x.length
      · have hx0 : parseAll x = ([], x) := by rw [parseAll_step x]; simp [h2, hl]
        simp [hx0]
      · have hge := frameLength_ge (be16toh x)
        have hstep := parseAll_step x
        simp only [h2, if_true, hl, if_false] at hstep
        have hstep2 := parseAll_step (x ++ y)
        have h2y : (x ++ y).length > 2 := by simp; omega
        have hly : ¬ frameLength (be16toh x) > (x ++ y).length := by simp; omega
        rw [be16toh_append x y (by omega)] at hstep2
        simp only [h2y, if_true, hly, if_false] at hstep2
        rw [List.take_append_of_le_length (by omega), List.drop_append_of_le_length (by omega)]
          at hstep2
        rw [ih (x.drop (frameLength (be16toh x))) (by simp; omega)] at hstep2
        rw [hstep2, hstep]
        simp
    · have hx0 : parseAll x = ([], x) := by rw [parseAll_step x]; simp [h2]
      simp [hx0]

theorem delivered_append (a b : List Effect) : delivered (a ++ b) = delivered a ++ delivered b := by
  induction a with
  | nil => simp [delivered]
  | cons x xs ih => cases x <;> simp [delivered, ih]

theorem handled_append (a b : List Effect) : handled (a ++ b) = handled a ++ handled b := by
  induction a with
  | nil => simp [handled]
  | cons x xs ih => cases x <;> simp [handled, ih]

theorem written_append (a b : List Effect) : written (a ++ b) = written a ++ written b := by
  induction a with
  | nil => simp [written]
  | cons x xs ih => cases x <;> simp [written, ih]

theorem handled_delivered (t : List Effect) : handled (delivered t) = handled t := by
  induction t with
  | nil => simp [delivered]
  | cons x xs ih => cases x <;> simp [handled, delivered, ih]

theorem delivered_parseEvents (n : Nat) (buf : Bytes) :
    delivered (parseEvents n buf).1 = (parseEvents n buf).1 := by
  induction n generalizing buf with
  | zero => simp [parseEvents, delivered]
  | succ k ih =>
    simp only [parseEvents]
    by_cases h2 : buf.length > 2
    · simp only [h2, if_true]
      by_cases hl : frameLength (be16toh buf) > buf.length
      · simp [hl, delivered]
      · simp only [hl, if_false]
        by_cases hd : be16toh buf ≠ 0
        · simp [hd, delivered, ih]
        · simp [hd, delivered, ih]
    · simp [h2, delivered]

theorem DecryptReceived_eq (e : Env) (s : NTCPSession) (enc : Bytes) :
    DecryptReceived e s enc =
      { s with
        m_Decryption := (decryptData e s.m_Decryption enc).1,
        m_DecryptedBuffer :=
          (parseAll (s.m_DecryptedBuffer ++ (decryptData e s.m_Decryption enc).2)).2,
        trace := s.trace ++
          (parseAll (s.m_DecryptedBuffer ++ (decryptData e s.m_Decryption enc).2)).1 } := by
  simp only [DecryptReceived, parseLoop_eq, parseAll]

theorem recvView_HandleReceived (e : Env) (s : NTCPSession) (c : Bytes) :
    recvView (HandleReceived e s false c) = recvStep e (recvView s) c := by
  simp only [HandleReceived, recvStep, recvView, m_ReceiveBufferOffset, Receive,
    DecryptReceived_eq, Bool.false_eq_true, if_false]
  by_cases hq : (s.m_ReceiveBuffer ++ c).length / 16 ≠ 0
  · simp only [if_pos hq]
    have hdrop : ((s.m_ReceiveBuffer ++ c).drop ((s.m_ReceiveBuffer ++ c).length / 16 * 16)).take
        ((s.m_ReceiveBuffer ++ c).length % 16)
          = (s.m_ReceiveBuffer ++ c).drop ((s.m_ReceiveBuffer ++ c).length / 16 * 16) := by
      apply List.take_of_length_le
      simp only [List.length_drop]
      omega
    by_cases hr : (s.m_ReceiveBuffer ++ c).length % 16 ≠ 0
    · simp only [if_pos hr, hdrop, delivered_append, delivered]
      simp [parseAll, delivered_parseEvents]
    · have hnil : (s.m_ReceiveBuffer ++ c).drop ((s.m_ReceiveBuffer ++ c).length / 16 * 16) = [] := by
        apply List.drop_eq_nil_of_le
        omega
      simp only [if_neg hr, delivered_append, delivered, hnil]
      simp [parseAll, delivered_parseEvents]
  · simp only [if_neg hq, delivered_append, delivered]
    simp

/-! ## The receive path as a function of the byte stream -/

theorem decryptData_append (e : Env) (st : Option CBC) (a c : Bytes) (ha : a.length % 16 = 0) :
    decryptData e st (a ++ c) =
      ((decryptData e (decryptData e st a).1 c).1,
       (decryptData e st a).2 ++ (decryptData e (decryptData e st a).1 c).2) := by
  cases st with
  | none => simp [decryptData]
  | some k =>
    simp only [decryptData, List.length_append]
    have h1 : (a.length + c.length) / 16 = a.length / 16 + c.length / 16 := by omega
    rw [h1, fullBlocks_append _ _ a c (by omega), cbcDecryptBlocks_append]

theorem decryptData_nil (e : Env) (st : Option CBC) : decryptData e st [] = (st, []) := by
  cases st with
  | none => simp [decryptData]
  | some k => simp [decryptData, fullBlocks, cbcDecryptBlocks]

theorem recvStep_recvStep (e : Env) (v : Option CBC × Bytes × Bytes × List Effect)
    (a b : Bytes) : recvStep e (recvStep e v a) b = recvStep e v (a ++ b) := by
  obtain ⟨dec, R, P, T⟩ := v
  by_cases hq1 : (R ++ a).length / 16 ≠ 0
  · have hstep1 : recvStep e (dec, R, P, T) a =
        ((decryptData e dec ((R ++ a).take ((R ++ a).length / 16 * 16))).1,
         (R ++ a).drop ((R ++ a).length / 16 * 16),
         (parseAll (P ++ (decryptData e dec ((R ++ a).take ((R ++ a).length / 16 * 16))).2)).2,
         T ++ (parseAll (P ++ (decryptData e dec ((R ++ a).take ((R ++ a).length / 16 * 16))).2)).1) := by
      simp only [recvStep, if_pos hq1]
    rw [hstep1]
    generalize hB : R ++ a = B at *
    have hBb : R ++ (a ++ b) = B ++ b := by rw [← List.append_assoc, hB]
    have hsplit : B ++ b = B.take (B.length / 16 * 16) ++ (B.drop (B.length / 16 * 16) ++ b) := by
      rw [← List.append_assoc, List.take_append_drop]
    have hlenT : (B.take (B.length / 16 * 16)).length = B.length / 16 * 16 := by
      simp; omega
    by_cases hq2 : (B.drop (B.length / 16 * 16) ++ b).length / 16 ≠ 0
    · simp only [recvStep, if_pos hq2, hBb]
      have hq : (B ++ b).length / 16 ≠ 0 := by
        simp only [List.length_append] at hq1 hq2 ⊢; omega
      simp only [if_pos hq]
      have hlen : (B ++ b).length / 16 * 16 =
          (B.take (B.length / 16 * 16)).length
            + (B.drop (B.length / 16 * 16) ++ b).length / 16 * 16 := by
        rw [hlenT]
        simp only [List.length_append, List.length_drop]
        omega
      have htake : (B ++ b).take ((B ++ b).length / 16 * 16) =
          B.take (B.length / 16 * 16) ++
            (B.drop (B.length / 16 * 16) ++ b).take
              ((B.drop (B.length / 16 * 16) ++ b).length / 16 * 16) := by
        rw [hlen]
        conv_lhs => rw [hsplit]
        rw [List.take_append]
      have hdrop : (B ++ b).drop ((B ++ b).length / 16 * 16) =
            (B.drop (B.length / 16 * 16) ++ b).drop
              ((B.drop (B.length / 16 * 16) ++ b).length / 16 * 16) := by
        rw [hlen]
        conv_lhs => rw [hsplit]
        rw [List.drop_append]
      rw [htake, hdrop, decryptData_append e dec _ _ (by rw [hlenT]; omega)]
      simp only
      generalize decryptData e dec (B.take (B.length / 16 * 16)) = r1
      generalize decryptData e r1.1 ((B.drop (B.length / 16 * 16) ++ b).take
              ((B.drop (B.length / 16 * 16) ++ b).length / 16 * 16)) = r2
      have hpa := parseAll_append (P ++ r1.2).length (P ++ r1.2) r2.2 le_rfl
      rw [List.append_assoc] at hpa
      rw [hpa, List.append_assoc]
    · simp only [recvStep, if_neg hq2, hBb]
      have hqe : (B ++ b).length / 16 = B.length / 16 := by
        simp only [List.length_append, List.length_drop] at hq1 hq2 ⊢; omega
      have hq : (B ++ b).length / 16 ≠ 0 := by rw [hqe]; exact hq1
      simp only [hqe]
      rw [List.take_append_of_le_length (by omega), List.drop_append_of_le_length (by omega),
        if_pos hq1]
  · have hstep1 : recvStep e (dec, R, P, T) a = (dec, R ++ a, P, T) := by
      simp only [recvStep, if_neg hq1]
    rw [hstep1]
    simp only [recvStep, List.append_assoc]

theorem recvView_receiveChunks (e : Env) (s : NTCPSession) (chunks : List Bytes) :
    recvView (receiveChunks e s chunks) = chunks.foldl (recvStep e) (recvView s) := by
  induction chunks generalizing s with
  | nil => simp [receiveChunks]
  | cons c cs ih => simp [receiveChunks, ih, recvView_HandleReceived]

theorem recvStep_length_lt (e : Env) (v : Option CBC × Bytes × Bytes × List Effect)
    (a : Bytes) : (recvStep e v a).2.1.length < 16 := by
  unfold recvStep
  simp only
  split_ifs with h
  · simp only [List.length_drop]; omega
  · simp only; omega

theorem recvStep_nil (e : Env) (v : Option CBC × Bytes × Bytes × List Effect)
    (h : v.2.1.length < 16) : recvStep e v [] = v := by
  unfold recvStep
  have : ¬ (v.2.1 ++ []).length / 16 ≠ 0 := by simp; omega
  simp only [if_neg this]
  simp

theorem foldl_recvStep (e : Env) (chunks : List Bytes)
    (v : Option CBC × Bytes × Bytes × List Effect) (h : v.2.1.length < 16) :
    chunks.foldl (recvStep e) v = recvStep e v chunks.flatten := by
  induction chunks generalizing v with
  | nil => simp [recvStep_nil e v h]
  | cons c cs ih =>
    simp only [List.foldl_cons, List.flatten_cons]
    rw [ih _ (recvStep_length_lt e v c), recvStep_recvStep]

/-! ## The send path -/

theorem adler32_length (d : Bytes) : (adler32 d).length = 4 := by simp [adler32]

theorem plainFrame_eq (sb buf : Bytes) (len : Nat) (z : Bool)
    (hcap : len + sendPadding len + 6 ≤ sb.length) (hbuf : len ≤ buf.length) :
    plainFrame sb buf len z =
      (if z then [0, 0] else htobe16 len) ++ buf.take len
        ++ (sb.drop (len + 2)).take (sendPadding len)
        ++ adler32 ((if z then [0, 0] else htobe16 len) ++ buf.take len
              ++ (sb.drop (len + 2)).take (sendPadding len)) := by
  have hpad : sendPadding len = (if (len + 6) % 16 > 0 then 16 - (len + 6) % 16 else 0) := rfl
  simp only [plainFrame, frameBuffer, ← hpad]
  generalize hh : (if z then [0, 0] else htobe16 len) = hdr
  have hhdr : hdr.length = 2 := by
    rw [← hh]; cases z <;> simp [htobe16]
  have hp : (buf.take len).length = len := by simp; omega
  generalize buf.take len = p at hp ⊢
  have h1 : writeAt sb 0 hdr = hdr ++ sb.drop 2 := by simp [writeAt, hhdr]
  have h2 : writeAt (hdr ++ sb.drop 2) 2 p = hdr ++ p ++ sb.drop (len + 2) := by
    simp only [writeAt]
    rw [List.take_append_of_le_length (by omega), List.take_of_length_le (by omega),
      List.drop_append_eq_append_drop, List.drop_of_length_le (by omega)]
    simp [hhdr, hp, add_comm]
  rw [h1, h2]
  have h3 : (hdr ++ p ++ sb.drop (len + 2)).take (len + 2 + sendPadding len)
      = hdr ++ p ++ (sb.drop (len + 2)).take (sendPadding len) := by
    have : len + 2 + sendPadding len = (hdr ++ p).length + sendPadding len := by
      simp [hhdr, hp]; omega
    rw [this, List.take_append]
  have hbody : (hdr ++ p ++ (sb.drop (len + 2)).take (sendPadding len)).length
      = len + 2 + sendPadding len := by
    simp [hhdr, hp]; omega
  simp only [writeAt, h3]
  generalize hdr ++ p ++ (sb.drop (len + 2)).take (sendPadding len) = body at hbody ⊢
  have : len + sendPadding len + 6 = (body ++ adler32 body).length := by
    simp only [List.length_append, adler32_length]
    omega
  rw [this, List.take_left]

/-! ## Send on a keyed session -/

theorem plainFrame_length (sb buf : Bytes) (len : Nat) (z : Bool)
    (hcap : len + sendPadding len + 6 ≤ sb.length) (hbuf : len ≤ buf.length) :
    (plainFrame sb buf len z).length = len + sendPadding len + 6 := by
  rw [plainFrame_eq sb buf len z hcap hbuf]
  have hhdr : (if z then [0, 0] else htobe16 len).length = 2 := by
    cases z <;> simp [htobe16]
  simp only [List.length_append, adler32_length, hhdr, List.length_take, List.length_drop]
  omega

theorem cbcEncryptBlocks_length (E : Bytes → Bytes)
    (hlen : ∀ b : Bytes, b.length = 16 → (E b).length = 16)
    (n : Nat) (iv data : Bytes) (hiv : iv.length = 16) (hdata : data.length = 16 * n) :
    (cbcEncryptBlocks E iv (fullBlocks n data)).2.length = 16 * n
    ∧ (cbcEncryptBlocks E iv (fullBlocks n data)).1.length = 16 := by
  induction n generalizing iv data with
  | zero => simp [fullBlocks, cbcEncryptBlocks, hiv]
  | succ k ih =>
    have hb : (data.take 16).length = 16 := by simp; omega
    have hx : (xorBytes (data.take 16) iv).length = 16 := by
      rw [xorBytes_length _ _ (by rw [hb, hiv]), hb]
    have hc := hlen _ hx
    obtain ⟨h1, h2⟩ := ih (E (xorBytes (data.take 16) iv)) (data.drop 16) hc (by simp; omega)
    simp only [fullBlocks, cbcEncryptBlocks]
    exact ⟨by simp [h1, hc]; omega, h2⟩

/-- What `Send` does on a keyed session whose send buffer can hold the frame: the
plaintext frame is encrypted in CBC mode from the running IV, the ciphertext is
written to the socket and the IV chains on. -/
theorem Send_keyed (e : Env) (s : NTCPSession) (buf : Bytes) (len : Nat) (z : Bool) (k : CBC)
    (henc : s.m_Encryption = some k) (hiv : k.iv.length = 16)
    (hlen : ∀ b : Bytes, b.length = 16 → (e.aesEncryptBlock k.key b).length = 16)
    (hcap : len + sendPadding len + 6 ≤ s.m_SendBuffer.length) (hbuf : len ≤ buf.length) :
    (Send e s buf len z).trace = s.trace ++
        [Effect.asyncWrite (cbcEncryptBlocks (e.aesEncryptBlock k.key) k.iv
          (fullBlocks ((len + sendPadding len + 6) / 16)
            (plainFrame s.m_SendBuffer buf len z))).2 Handler.HandleSent]
    ∧ (Send e s buf len z).m_Encryption = some
        { key := k.key,
          iv := (cbcEncryptBlocks (e.aesEncryptBlock k.key) k.iv
            (fullBlocks ((len + sendPadding len + 6) / 16)
              (plainFrame s.m_SendBuffer buf len z))).1 }
    ∧ (Send e s buf len z).m_SendBuffer.length = s.m_SendBuffer.length := by
  have hpad : sendPadding len = (if (len + 6) % 16 > 0 then 16 - (len + 6) % 16 else 0) := rfl
  have hF := plainFrame_length s.m_SendBuffer buf len z hcap hbuf
  have hmod : (len + sendPadding len + 6) % 16 = 0 := by
    rw [sendPadding_round]; exact round_up_16_mod _
  obtain ⟨hc1, hc2⟩ := cbcEncryptBlocks_length (e.aesEncryptBlock k.key) hlen
    ((len + sendPadding len + 6) / 16) k.iv (plainFrame s.m_SendBuffer buf len z) hiv
    (by rw [hF]; omega)
  have hfb : s.m_SendBuffer.length ≤ (frameBuffer s.m_SendBuffer buf len z).length := by
    simp only [frameBuffer]
    exact le_trans (le_trans (length_writeAt_ge _ _ _) (length_writeAt_ge _ _ _))
      (length_writeAt_ge _ _ _)
  have hfold : (frameBuffer s.m_SendBuffer buf len z).take (len + sendPadding len + 6)
      = plainFrame s.m_SendBuffer buf len z := by
    simp only [plainFrame, ← hpad]
  simp only [Send, ← hpad, henc, encryptData, hfold, hF]
  have hcl : (cbcEncryptBlocks (e.aesEncryptBlock k.key) k.iv
          (fullBlocks ((len + sendPadding len + 6) / 16)
            (plainFrame s.m_SendBuffer buf len z))).2.length = len + sendPadding len + 6 := by
    rw [hc1]; omega
  refine ⟨?_, trivial, ?_⟩
  · have := writeAt_zero_full (frameBuffer s.m_SendBuffer buf len z) (cbcEncryptBlocks (e.aesEncryptBlock k.key) k.iv
          (fullBlocks ((len + sendPadding len + 6) / 16)
            (plainFrame s.m_SendBuffer buf len z))).2
    rw [hcl] at this
    rw [this]
  · have hhdr : (if z then [0, 0] else htobe16 len).length = 2 := by
      cases z <;> simp [htobe16]
    have hp : (buf.take len).length = len := by simp; omega
    have hfl : (frameBuffer s.m_SendBuffer buf len z).length = s.m_SendBuffer.length := by
      simp only [frameBuffer, ← hpad]
      have e1 := length_writeAt s.m_SendBuffer 0 (if z then [0, 0] else htobe16 len)
        (by rw [hhdr]; omega)
      have e2 := length_writeAt (writeAt s.m_SendBuffer 0 (if z then [0, 0] else htobe16 len))
        2 (buf.take len) (by rw [hp, e1]; omega)
      rw [length_writeAt _ _ _ (by rw [adler32_length, e2, e1]; omega), e2, e1]
    rw [length_writeAt _ _ _ (by rw [hcl, hfl]; omega), hfl]

/-! ## Parsing a frame built by Send -/

theorem be16toh_htobe16 (len : Nat) (h : len < 65536) (rest : Bytes) :
    be16toh (htobe16 len ++ rest) = len := by
  simp only [be16toh, htobe16, List.cons_append, List.nil_append, List.getD_cons_zero,
    List.getD_cons_succ]
  omega

/-- The parse loop on a frame built by `Send` for a non-empty payload, followed by any
further bytes: the payload is delivered once and the loop goes on after the frame. -/
theorem parseAll_plainFrame (sb p y : Bytes) (hp0 : 0 < p.length) (hp1 : p.length < 65536)
    (hcap : p.length + sendPadding p.length + 6 ≤ sb.length) :
    parseAll (plainFrame sb p p.length false ++ y) =
      (Effect.handleI2NPMessage p p.length :: (parseAll y).1, (parseAll y).2) := by
  have hlenF := plainFrame_length sb p p.length false hcap le_rfl
  have hF := plainFrame_eq sb p p.length false hcap le_rfl
  simp only [Bool.false_eq_true, if_false, List.take_length] at hF
  generalize plainFrame sb p p.length false = F at hlenF hF
  have hbe : be16toh (F ++ y) = p.length := by
    rw [hF]; simp only [List.append_assoc]; exact be16toh_htobe16 _ hp1 _
  have hfl : frameLength p.length = F.length := by
    rw [frameLength_round _ (by omega), ← sendPadding_round, hlenF]
  rw [parseAll_step (F ++ y), hbe, hfl]
  have h2 : (F ++ y).length > 2 := by simp; omega
  have hl : ¬ F.length > (F ++ y).length := by simp
  have hne : p.length ≠ 0 := by omega
  simp only [if_pos h2, if_neg hl, if_pos hne, List.take_left, List.drop_left]
  have hpay : (F.drop 2).take p.length = p := by
    rw [hF]
    simp only [List.append_assoc, htobe16, List.cons_append, List.nil_append, List.drop_succ_cons,
      List.drop_zero, List.take_left]
  rw [hpay]
  simp

theorem parseAll_nil : parseAll [] = ([], []) := by
  simp [parseAll, parseEvents]

/-! ## A run of sends seen from the receiver -/

theorem decryptData_some (e : Env) (k : CBC) (data : Bytes) :
    decryptData e (some k) data =
      (some { key := k.key,
              iv := (cbcDecryptBlocks (e.aesDecryptBlock k.key) k.iv
                      (fullBlocks (data.length / 16) data)).1 },
       (cbcDecryptBlocks (e.aesDecryptBlock k.key) k.iv
          (fullBlocks (data.length / 16) data)).2) := rfl

/-- A run of `SendMessage` calls on a keyed session, seen from the receiver: the bytes
written form a stream whose CBC decryption under the same initial state parses into
exactly the payloads sent, in order. -/
theorem sendAll_stream (e : Env) (ps : List Bytes) (s : NTCPSession) (k : CBC)
    (henc : s.m_Encryption = some k) (hiv : k.iv.length = 16)
    (hinv : ∀ b : Bytes, b.length = 16 →
      e.aesDecryptBlock k.key (e.aesEncryptBlock k.key b) = b)
    (hlen : ∀ b : Bytes, b.length = 16 → (e.aesEncryptBlock k.key b).length = 16)
    (hps : ∀ p ∈ ps, 0 < p.length ∧ p.length < 65536
      ∧ round_up_16 (p.length + 6) ≤ s.m_SendBuffer.length) :
    ∃ frames : List Bytes, ∃ st : Option CBC, ∃ plain : Bytes,
      written (sendAll e s ps).trace = written s.trace ++ frames
      ∧ frames.flatten.length = (ps.map (fun p => round_up_16 (p.length + 6))).sum
      ∧ decryptData e (some k) frames.flatten = (st, plain)
      ∧ ∀ y : Bytes, parseAll (plain ++ y) =
          (ps.map (fun p => Effect.handleI2NPMessage p p.length) ++ (parseAll y).1,
           (parseAll y).2) := by
  induction ps generalizing s k with
  | nil =>
    refine ⟨[], some k, [], by simp [sendAll], by simp, ?_, by simp⟩
    simp [decryptData_nil]
  | cons p ps ih =>
    obtain ⟨hp0, hp1, hcapr⟩ := hps p (List.mem_cons_self _ _)
    have hcap2 : p.length + sendPadding p.length + 6 ≤ s.m_SendBuffer.length := by
      rw [sendPadding_round]; exact hcapr
    obtain ⟨ht, hk, hsb⟩ := Send_keyed e s p p.length false k henc hiv hlen hcap2 le_rfl
    have hF := plainFrame_length s.m_SendBuffer p p.length false hcap2 le_rfl
    have hmod : (p.length + sendPadding p.length + 6) % 16 = 0 := by
      rw [sendPadding_round]; exact round_up_16_mod _
    obtain ⟨hc1, hc2, hc3⟩ := cbc_roundtrip (e.aesEncryptBlock k.key) (e.aesDecryptBlock k.key)
      hinv hlen ((p.length + sendPadding p.length + 6) / 16) k.iv
      (plainFrame s.m_SendBuffer p p.length false) hiv (by rw [hF]; omega)
    generalize hC : cbcEncryptBlocks (e.aesEncryptBlock k.key) k.iv
        (fullBlocks ((p.length + sendPadding p.length + 6) / 16)
          (plainFrame s.m_SendBuffer p p.length false)) = r at *
    obtain ⟨frames, st, plain, h1, h2, h3, h4⟩ := ih (SendMessage e s p p.length)
      { key := k.key, iv := r.1 } hk hc2 hinv hlen
      (fun q hq => by
        obtain ⟨a, b, c⟩ := hps q (List.mem_cons_of_mem _ hq)
        exact ⟨a, b, by rw [SendMessage, hsb]; exact c⟩)
    have hcl : r.2.length = p.length + sendPadding p.length + 6 := by rw [hc1]; omega
    have hdecC : decryptData e (some k) r.2
        = (some { key := k.key, iv := r.1 }, plainFrame s.m_SendBuffer p p.length false) := by
      rw [decryptData_some, hcl, hc3]
    refine ⟨r.2 :: frames, st, plainFrame s.m_SendBuffer p p.length false ++ plain, ?_, ?_, ?_, ?_⟩
    · simp only [sendAll]
      rw [h1]
      simp only [SendMessage, ht, written_append, written]
      simp
    · simp only [List.flatten_cons, List.length_append, h2, List.map_cons, List.sum_cons, hcl,
        sendPadding_round]
    · rw [List.flatten_cons, decryptData_append e _ _ _ (by rw [hcl]; exact hmod), hdecC]
      simp only [h3]
    · intro y
      rw [List.append_assoc, parseAll_plainFrame _ _ _ hp0 hp1 hcap2, h4]
      simp

/-! ## The receive path never terminates the session -/

theorem demo_inverse_all (k b : Bytes) (hb : b.length = 16) :
    demoEnv.aesDecryptBlock k (demoEnv.aesEncryptBlock k b) = b := by
  simp only [demoEnv]
  exact xorBytes_cancel b _ (by rw [List.length_replicate, hb])

theorem demo_length_all (k b : Bytes) (hb : b.length = 16) :
    (demoEnv.aesEncryptBlock k b).length = 16 := by
  simp only [demoEnv]
  rw [xorBytes_length b _ (by rw [List.length_replicate, hb]), hb]

theorem demo_inverse (b : Bytes) (hb : b.length = 16) :
    demoEnv.aesDecryptBlock demoKey.key (demoEnv.aesEncryptBlock demoKey.key b) = b :=
  demo_inverse_all demoKey.key b hb

theorem demo_length (b : Bytes) (hb : b.length = 16) :
    (demoEnv.aesEncryptBlock demoKey.key b).length = 16 :=
  demo_length_all demoKey.key b hb

theorem socketCloses_parseEvents (n : Nat) (buf : Bytes) :
    socketCloses (parseEvents n buf).1 = 0 ∧ registryRemovals (parseEvents n buf).1 = 0 := by
  induction n generalizing buf with
  | zero => simp [parseEvents, socketCloses, registryRemovals]
  | succ k ih =>
    simp only [parseEvents]
    by_cases h2 : buf.length > 2
    · simp only [if_pos h2]
      by_cases hl : frameLength (be16toh buf) > buf.length
      · simp [if_pos hl, socketCloses, registryRemovals]
      · simp only [if_neg hl]
        have := ih (buf.drop (frameLength (be16toh buf)))
        simp only [socketCloses, registryRemovals] at this ⊢
        by_cases hd : be16toh buf ≠ 0
        · simp [if_pos hd, List.count_cons, this]
        · simp [if_neg hd, List.count_cons, this]
    · simp [if_neg h2, socketCloses, registryRemovals]

/-- `DecryptReceived` never closes the socket and never touches the registry. -/
theorem DecryptReceived_no_close (e : Env) (s : NTCPSession) (enc : Bytes) :
    socketCloses (DecryptReceived e s enc).trace = socketCloses s.trace
    ∧ registryRemovals (DecryptReceived e s enc).trace = registryRemovals s.trace := by
  rw [DecryptReceived_eq]
  have := socketCloses_parseEvents
    (s.m_DecryptedBuffer ++ (decryptData e s.m_Decryption enc).2).length
    (s.m_DecryptedBuffer ++ (decryptData e s.m_Decryption enc).2)
  simp only [socketCloses, registryRemovals, parseAll, List.count_append] at this ⊢
  omega

/-- `DecryptReceived` when the buffer starts with a complete frame carrying a payload:
the payload goes to the I2NP handler, then the loop goes on behind the frame. -/
theorem DecryptReceived_first_frame (e : Env) (s : NTCPSession) (enc : Bytes)
    (h2 : 2 < (s.m_DecryptedBuffer ++ (decryptData e s.m_Decryption enc).2).length)
    (hn : be16toh (s.m_DecryptedBuffer ++ (decryptData e s.m_Decryption enc).2) ≠ 0)
    (hl : frameLength (be16toh (s.m_DecryptedBuffer ++ (decryptData e s.m_Decryption enc).2))
      ≤ (s.m_DecryptedBuffer ++ (decryptData e s.m_Decryption enc).2).length) :
    (DecryptReceived e s enc).trace = s.trace ++
      Effect.handleI2NPMessage
        (((s.m_DecryptedBuffer ++ (decryptData e s.m_Decryption enc).2).drop 2).take
          (be16toh (s.m_DecryptedBuffer ++ (decryptData e s.m_Decryption enc).2)))
        (be16toh (s.m_DecryptedBuffer ++ (decryptData e s.m_Decryption enc).2))
      :: (parseAll ((s.m_DecryptedBuffer ++ (decryptData e s.m_Decryption enc).2).drop
            (frameLength
              (be16toh (s.m_DecryptedBuffer ++ (decryptData e s.m_Decryption enc).2))))).1 := by
  rw [DecryptReceived_eq]
  generalize s.m_DecryptedBuffer ++ (decryptData e s.m_Decryption enc).2 = plain at *
  simp only
  rw [parseAll_step plain, if_pos h2, if_neg (by omega), if_pos hn]
  have hf : frameLength (be16toh plain) = round_up_16 (be16toh plain + 6) :=
    frameLength_round _ hn
  have hr : be16toh plain + 6 ≤ round_up_16 (be16toh plain + 6) := by
    unfold round_up_16; omega
  rw [List.drop_take, List.take_take, min_eq_left (by omega)]
  simp

/-- `DecryptReceived` when the frame at the start of the buffer is not complete yet:
nothing is delivered and the bytes stay in the decrypted buffer. -/
theorem DecryptReceived_waits (e : Env) (s : NTCPSession) (enc : Bytes)
    (hl : (s.m_DecryptedBuffer ++ (decryptData e s.m_Decryption enc).2).length
      < frameLength (be16toh (s.m_DecryptedBuffer ++ (decryptData e s.m_Decryption enc).2))) :
    (DecryptReceived e s enc).trace = s.trace
    ∧ (DecryptReceived e s enc).m_DecryptedBuffer
        = s.m_DecryptedBuffer ++ (decryptData e s.m_Decryption enc).2 := by
  rw [DecryptReceived_eq]
  generalize s.m_DecryptedBuffer ++ (decryptData e s.m_Decryption enc).2 = plain at *
  simp only
  rw [parseAll_step plain]
  by_cases h2 : plain.length > 2
  · simp [if_pos h2, if_pos hl]
  · simp [if_neg h2]

/-! ## C1: key derivation -/

/-- C1: when DH agreement succeeds with a 256-byte secret `secret`, the 32-byte array
`aesKey` holds, after `CreateAESKey`, a zero byte followed by the first 31 bytes of
the secret if `secret[0] & 0x80` is set, and the first 32 bytes of the secret
otherwise; the session is left as it was. -/
theorem CreateAESKey_key (e : Env) (s : NTCPSession) (pubKey aesKey secret : Bytes)
    (hagree : e.dhAgree e.privateKey pubKey = some secret)
    (hsecret : secret.length = 256) (hkey : aesKey.length = 32) :
    (CreateAESKey e s pubKey aesKey).2 =
        (if secret.getD 0 0 &&& 0x80 ≠ 0 then 0 :: secret.take 31 else secret.take 32)
      ∧ (CreateAESKey e s pubKey aesKey).2.length = 32
      ∧ (CreateAESKey e s pubKey aesKey).1 = s := by
  unfold CreateAESKey
  rw [hagree]
  have hd : List.drop 32 aesKey = [] := by
    apply List.drop_eq_nil_of_le; omega
  by_cases hb : secret.getD 0 0 &&& 0x80 ≠ 0
  · simp only [if_pos hb]
    have h31 : (secret.take 31).length = 31 := by simp [hsecret]
    refine ⟨?_, ?_, trivial⟩
    · simp [writeAt, hd, hsecret]
    · simp [writeAt, hd, hsecret]
  · simp only [if_neg hb]
    have h32 : (secret.take 32).length = 32 := by simp [hsecret]
    refine ⟨?_, ?_, trivial⟩
    · simp [writeAt, hd, hsecret]
    · simp [writeAt, hd, hsecret]

/-! ## C2: frame round trip -/

/-- C2: frame round trip. For a payload `p` with `0 < |p| ≤ 16384`, let `frame` be what
`Send (p, |p|, false)` writes to the socket on a session keyed with CBC state `k`
(the send buffer being large enough for the frame). `DecryptReceived` on a session
whose decryption holds the same state `k` and whose decrypted buffer is empty calls
the I2NP handler exactly once, with payload `p` and size `|p|`, and leaves the
decrypted buffer empty. The block functions of the cipher are taken to be inverse to
each other on 16-byte blocks. -/
theorem frame_round_trip (e : Env) (snd rcv : NTCPSession) (p : Bytes) (k : CBC)
    (hp0 : 0 < p.length) (hp1 : p.length ≤ 16384)
    (hcap : round_up_16 (p.length + 6) ≤ snd.m_SendBuffer.length)
    (henc : snd.m_Encryption = some k) (hdec : rcv.m_Decryption = some k)
    (hiv : k.iv.length = 16)
    (hinv : ∀ b : Bytes, b.length = 16 →
      e.aesDecryptBlock k.key (e.aesEncryptBlock k.key b) = b)
    (hlen : ∀ b : Bytes, b.length = 16 → (e.aesEncryptBlock k.key b).length = 16)
    (hempty : rcv.m_DecryptedBuffer = []) :
    ∃ frame : Bytes,
      written (Send e snd p p.length false).trace = written snd.trace ++ [frame]
      ∧ frame.length = round_up_16 (p.length + 6)
      ∧ handled (DecryptReceived e rcv frame).trace = handled rcv.trace ++ [(p, p.length)]
      ∧ (DecryptReceived e rcv frame).m_DecryptedBuffer = []
      ∧ (DecryptReceived e rcv frame).m_DecryptedBufferOffset = 0 := by
  have hcap2 : p.length + sendPadding p.length + 6 ≤ snd.m_SendBuffer.length := by
    rw [sendPadding_round]; exact hcap
  obtain ⟨ht, -, -⟩ := Send_keyed e snd p p.length false k henc hiv hlen hcap2 le_rfl
  have hF := plainFrame_length snd.m_SendBuffer p p.length false hcap2 le_rfl
  have hmod : (p.length + sendPadding p.length + 6) % 16 = 0 := by
    rw [sendPadding_round]; exact round_up_16_mod _
  obtain ⟨hc1, -, hc3⟩ := cbc_roundtrip (e.aesEncryptBlock k.key) (e.aesDecryptBlock k.key)
    hinv hlen ((p.length + sendPadding p.length + 6) / 16) k.iv
    (plainFrame snd.m_SendBuffer p p.length false) hiv (by rw [hF]; omega)
  refine ⟨(cbcEncryptBlocks (e.aesEncryptBlock k.key) k.iv
        (fullBlocks ((p.length + sendPadding p.length + 6) / 16)
          (plainFrame snd.m_SendBuffer p p.length false))).2, ?_, ?_, ?_⟩
  · rw [ht, written_append]; simp [written]
  · rw [hc1, ← sendPadding_round]; omega
  · have hcl : (cbcEncryptBlocks (e.aesEncryptBlock k.key) k.iv
        (fullBlocks ((p.length + sendPadding p.length + 6) / 16)
          (plainFrame snd.m_SendBuffer p p.length false))).2.length / 16
        = (p.length + sendPadding p.length + 6) / 16 := by
      rw [hc1]; omega
    have hparse := parseAll_plainFrame snd.m_SendBuffer p [] hp0 (by omega) hcap2
    rw [List.append_nil, parseAll_nil] at hparse
    simp only [DecryptReceived_eq, hdec, decryptData, hcl, hc3, hempty, List.nil_append,
      hparse, handled_append, handled, m_DecryptedBufferOffset, List.length_nil]
    simp

/-! ## C4: segmentation tolerance -/

theorem flatten_map_singleton (l : Bytes) : (l.map (fun b => [b])).flatten = l := by
  induction l with
  | nil => rfl
  | cons x xs ih => simp [ih]

theorem recvView_chunks_eq (e : Env) (s : NTCPSession) (chunks : List Bytes)
    (h : s.m_ReceiveBuffer.length < 16) :
    recvView (receiveChunks e s chunks) = recvStep e (recvView s) chunks.flatten := by
  rw [recvView_receiveChunks, foldl_recvStep e chunks _ h]

/-- C4: segmentation tolerance. From empty receive and decrypted buffers, feeding a
byte stream to `HandleReceived` chunk by chunk, for any split of the stream into
consecutive chunks, calls `HandleNextMessage` on the same frames, in the same order,
as feeding the whole stream in one read: the same I2NP deliveries (payload, size) and
time-sync samples. In particular, when three payloads of 1, 15 and 1024 bytes are sent
on a session keyed like the receiver and the bytes written are delivered one at a
time, the I2NP handler receives exactly those three payloads in order. -/
theorem segmentation_tolerance (e : Env) (rcv : NTCPSession)
    (hrecv : rcv.m_ReceiveBufferOffset = 0) (hdecr : rcv.m_DecryptedBufferOffset = 0) :
    (∀ chunks : List Bytes,
        delivered (receiveChunks e rcv chunks).trace
            = delivered (HandleReceived e rcv false chunks.flatten).trace
          ∧ handled (receiveChunks e rcv chunks).trace
            = handled (HandleReceived e rcv false chunks.flatten).trace)
    ∧ (∀ (snd : NTCPSession) (k : CBC) (p1 p2 p3 : Bytes),
        p1.length = 1 → p2.length = 15 → p3.length = 1024 →
        snd.m_Encryption = some k → rcv.m_Decryption = some k → k.iv.length = 16 →
        (∀ b : Bytes, b.length = 16 →
          e.aesDecryptBlock k.key (e.aesEncryptBlock k.key b) = b) →
        (∀ b : Bytes, b.length = 16 → (e.aesEncryptBlock k.key b).length = 16) →
        1040 ≤ snd.m_SendBuffer.length →
        ∃ frames : List Bytes,
          written (sendAll e snd [p1, p2, p3]).trace = written snd.trace ++ frames
          ∧ handled (receiveChunks e rcv (frames.flatten.map (fun b => [b]))).trace
              = handled rcv.trace ++ [(p1, 1), (p2, 15), (p3, 1024)]) := by
  have hR : rcv.m_ReceiveBuffer = [] := List.length_eq_zero.mp hrecv
  have hD : rcv.m_DecryptedBuffer = [] := List.length_eq_zero.mp hdecr
  constructor
  · intro chunks
    have hv := recvView_chunks_eq e rcv chunks (by rw [hR]; simp)
    rw [← recvView_HandleReceived] at hv
    have hd : delivered (receiveChunks e rcv chunks).trace
        = delivered (HandleReceived e rcv false chunks.flatten).trace := by
      have := congrArg (fun v => v.2.2.2) hv
      simpa [recvView] using this
    refine ⟨hd, ?_⟩
    rw [← handled_delivered, hd, handled_delivered]
  · intro snd k p1 p2 p3 h1 h2 h3 henc hdec hiv hinv hlen hcap
    obtain ⟨frames, st, plain, hw, hl, hdd, hp⟩ := sendAll_stream e [p1, p2, p3] snd k henc hiv
      hinv hlen (by
        intro p hp
        simp only [List.mem_cons, List.mem_singleton, List.not_mem_nil, or_false] at hp
        have hr : round_up_16 (p.length + 6) ≤ 1040 := by
          unfold round_up_16
          rcases hp with rfl | rfl | rfl <;> omega
        rcases hp with rfl | rfl | rfl <;> exact ⟨by omega, by omega, by omega⟩)
    refine ⟨frames, hw, ?_⟩
    have hv := recvView_chunks_eq e rcv (frames.flatten.map (fun b => [b])) (by rw [hR]; simp)
    rw [flatten_map_singleton] at hv
    have hlen2 : frames.flatten.length = 1088 := by
      rw [hl]
      simp [h1, h2, h3, round_up_16]
    have hq : ([] ++ frames.flatten).length / 16 ≠ 0 := by simp [hlen2]
    have hpy := hp []
    rw [List.append_nil, parseAll_nil] at hpy
    simp only [recvStep, recvView, hR, hD, hdec, if_pos hq] at hv
    simp only [List.nil_append, hlen2] at hv
    rw [List.take_of_length_le (by rw [hlen2]), hdd] at hv
    simp only [hpy] at hv
    have := congrArg (fun v => handled v.2.2.2) hv
    simp only [handled_delivered, handled_append] at this
    rw [this]
    simp [handled, h1, h2, h3]

/-! ## C5, C6, C7: oversize frames, checksums, Terminate -/

theorem oversizePlain_length : oversizePlain.length = 17008 := by
  simp only [oversizePlain, htobe16, List.length_append, List.length_replicate, List.length_cons,
    List.length_nil]

theorem oversize_decrypts :
    demoKeyed.m_DecryptedBuffer ++ (decryptData demoEnv demoKeyed.m_Decryption oversizeCipher).2
      = oversizePlain := by
  obtain ⟨h1, -, h3⟩ := cbc_roundtrip (demoEnv.aesEncryptBlock demoKey.key)
    (demoEnv.aesDecryptBlock demoKey.key) demo_inverse demo_length 1063 demoKey.iv
    oversizePlain (by simp [demoKey]) (by rw [oversizePlain_length])
  have hm : demoKeyed.m_Decryption = some demoKey := rfl
  have hb : demoKeyed.m_DecryptedBuffer = [] := rfl
  rw [hm, hb, List.nil_append, decryptData_some]
  simp only [oversizeCipher, encryptData, oversizePlain_length]
  have hq : 17008 / 16 = 1063 := by norm_num
  rw [hq, h1]
  have hq2 : 16 * 1063 / 16 = 1063 := by norm_num
  rw [hq2, h3]

theorem be16toh_oversizePlain : be16toh oversizePlain = 17000 := by
  simp only [oversizePlain, be16toh, htobe16, List.cons_append, List.getD_cons_zero,
    List.getD_cons_succ]

/-- C5, as the claim states it, fails: the frame `oversizeCipher` decrypts to a frame
with size field 17000, whose length 17008 exceeds `NTCP_MAX_MESSAGE_SIZE`, and
`DecryptReceived` hands its 17000-byte payload to the I2NP handler without closing
the socket. -/
theorem oversize_frame_delivered :
    NTCP_MAX_MESSAGE_SIZE < frameLength (be16toh oversizePlain)
    ∧ demoKeyed.m_DecryptedBuffer
        ++ (decryptData demoEnv demoKeyed.m_Decryption oversizeCipher).2 = oversizePlain
    ∧ handled (DecryptReceived demoEnv demoKeyed oversizeCipher).trace
        = [(List.replicate 17000 0, 17000)]
    ∧ socketCloses (DecryptReceived demoEnv demoKeyed oversizeCipher).trace = 0 := by
  have hfl : frameLength 17000 = 17008 := by decide
  refine ⟨?_, oversize_decrypts, ?_, ?_⟩
  · rw [be16toh_oversizePlain, hfl]; decide
  · rw [DecryptReceived_first_frame demoEnv demoKeyed oversizeCipher
      (by rw [oversize_decrypts, oversizePlain_length]; omega)
      (by rw [oversize_decrypts, be16toh_oversizePlain]; omega)
      (by rw [oversize_decrypts, be16toh_oversizePlain, hfl, oversizePlain_length])]
    have hp : (oversizePlain.drop 2).take 17000 = List.replicate 17000 0 := by
      simp only [oversizePlain, htobe16, List.cons_append, List.nil_append, List.drop_succ_cons,
        List.drop_zero, List.take_replicate]
      rfl
    have hd : oversizePlain.drop 17008 = [] :=
      List.drop_of_length_le (by rw [oversizePlain_length])
    rw [oversize_decrypts, be16toh_oversizePlain, hfl, hp, hd, parseAll_nil]
    rfl
  · rw [(DecryptReceived_no_close demoEnv demoKeyed oversizeCipher).1]
    rfl

/-- The parse loop never leaves more bytes than it was given. -/
theorem parseEvents_rest_length (fuel : Nat) (buf : Bytes) :
    (parseEvents fuel buf).2.length ≤ buf.length := by
  induction fuel generalizing buf with
  | zero => simp [parseEvents]
  | succ k ih =>
    simp only [parseEvents]
    by_cases h2 : buf.length > 2
    · simp only [if_pos h2]
      by_cases hl : frameLength (be16toh buf) > buf.length
      · simp [if_pos hl]
      · simp only [if_neg hl]
        have h := ih (buf.drop (frameLength (be16toh buf)))
        rw [List.length_drop] at h
        omega
    · simp [if_neg h2]

/-- C5, amended: `DecryptReceived` has no size cap. `cap` is the size of the array
`m_DecryptedBuffer` (declared in `NTCPSession.h`), and the bytes `ProcessData` writes at
`m_DecryptedBuffer + m_DecryptedBufferOffset` stay inside it. When the frame at the start
of the decrypted buffer has a decoded length above `NTCP_MAX_MESSAGE_SIZE`, the socket is
not closed and the registry is not touched; as long as fewer bytes than the frame length
are there, nothing is delivered and the bytes are kept; once the whole frame is there
(so that it is no longer than `cap`), its payload is handed to the I2NP handler with the
size of the size field. -/
theorem oversize_frame_not_rejected (e : Env) (s : NTCPSession) (enc plain : Bytes)
    (cap : Nat)
    (hplain : s.m_DecryptedBuffer ++ (decryptData e s.m_Decryption enc).2 = plain)
    (hcap : plain.length ≤ cap)
    (h2 : 2 < plain.length)
    (hbig : NTCP_MAX_MESSAGE_SIZE < frameLength (be16toh plain)) :
    socketCloses (DecryptReceived e s enc).trace = socketCloses s.trace
    ∧ registryRemovals (DecryptReceived e s enc).trace = registryRemovals s.trace
    ∧ (DecryptReceived e s enc).m_DecryptedBuffer.length ≤ cap
    ∧ (plain.length < frameLength (be16toh plain) →
        (DecryptReceived e s enc).trace = s.trace
        ∧ (DecryptReceived e s enc).m_DecryptedBuffer = plain)
    ∧ (frameLength (be16toh plain) ≤ plain.length →
        frameLength (be16toh plain) ≤ cap
        ∧ ∃ rest : List Effect, (DecryptReceived e s enc).trace = s.trace ++
          Effect.handleI2NPMessage ((plain.drop 2).take (be16toh plain)) (be16toh plain)
            :: rest) := by
  have hn : be16toh plain ≠ 0 := by
    intro h0
    rw [h0] at hbig
    revert hbig
    decide
  subst hplain
  refine ⟨(DecryptReceived_no_close e s enc).1, (DecryptReceived_no_close e s enc).2, ?_, ?_, ?_⟩
  · rw [DecryptReceived_eq]
    exact le_trans (parseEvents_rest_length _ _) hcap
  · intro hl
    exact DecryptReceived_waits e s enc hl
  · intro hl
    exact ⟨le_trans hl hcap, _, DecryptReceived_first_frame e s enc h2 hn hl⟩

theorem oversize_frame_not_rejected_witness :
    socketCloses (DecryptReceived demoEnv demoKeyed oversizeCipher).trace
        = socketCloses demoKeyed.trace
    ∧ registryRemovals (DecryptReceived demoEnv demoKeyed oversizeCipher).trace
        = registryRemovals demoKeyed.trace
    ∧ (DecryptReceived demoEnv demoKeyed oversizeCipher).m_DecryptedBuffer.length
        ≤ NTCP_MAX_MESSAGE_SIZE * 2
    ∧ (oversizePlain.length < frameLength (be16toh oversizePlain) →
        (DecryptReceived demoEnv demoKeyed oversizeCipher).trace = demoKeyed.trace
        ∧ (DecryptReceived demoEnv demoKeyed oversizeCipher).m_DecryptedBuffer = oversizePlain)
    ∧ (frameLength (be16toh oversizePlain) ≤ oversizePlain.length →
        frameLength (be16toh oversizePlain) ≤ NTCP_MAX_MESSAGE_SIZE * 2
        ∧ ∃ rest : List Effect,
          (DecryptReceived demoEnv demoKeyed oversizeCipher).trace = demoKeyed.trace ++
            Effect.handleI2NPMessage ((oversizePlain.drop 2).take (be16toh oversizePlain))
              (be16toh oversizePlain) :: rest) :=
  oversize_frame_not_rejected demoEnv demoKeyed oversizeCipher oversizePlain
    (NTCP_MAX_MESSAGE_SIZE * 2) oversize_decrypts
    (by rw [oversizePlain_length]; decide)
    (by rw [oversizePlain_length]; decide)
    (by rw [be16toh_oversizePlain]; decide)

/-- C6, as the claim states it, fails: the frame `badChecksumCipher` decrypts to a
complete frame whose last four bytes are not the Adler-32 digest of the bytes before
them, and `DecryptReceived` hands its payload to the I2NP handler without closing the
socket. -/
theorem bad_checksum_delivered :
    demoKeyed.m_DecryptedBuffer
        ++ (decryptData demoEnv demoKeyed.m_Decryption badChecksumCipher).2 = badChecksumPlain
    ∧ frameLength (be16toh badChecksumPlain) = 16
    ∧ badChecksumPlain.drop 12 ≠ adler32 (badChecksumPlain.take 12)
    ∧ handled (DecryptReceived demoEnv demoKeyed badChecksumCipher).trace = [([65], 1)]
    ∧ socketCloses (DecryptReceived demoEnv demoKeyed badChecksumCipher).trace = 0 := by
  decide

/-- C6, amended: the receive path does not check the Adler-32 digest. For every
complete frame at the start of the decrypted buffer with a non-zero size field, also
when its last four bytes differ from the Adler-32 digest of the bytes before them,
`DecryptReceived` hands the payload to the I2NP handler, does not close the socket
and does not touch the registry. -/
theorem checksum_not_verified (e : Env) (s : NTCPSession) (enc plain : Bytes)
    (hplain : s.m_DecryptedBuffer ++ (decryptData e s.m_Decryption enc).2 = plain)
    (h2 : 2 < plain.length) (hn : be16toh plain ≠ 0)
    (hl : frameLength (be16toh plain) ≤ plain.length)
    (_hbad : (plain.take (frameLength (be16toh plain))).drop (frameLength (be16toh plain) - 4)
      ≠ adler32 (plain.take (frameLength (be16toh plain) - 4))) :
    socketCloses (DecryptReceived e s enc).trace = socketCloses s.trace
    ∧ registryRemovals (DecryptReceived e s enc).trace = registryRemovals s.trace
    ∧ ∃ rest : List Effect, (DecryptReceived e s enc).trace = s.trace ++
        Effect.handleI2NPMessage ((plain.drop 2).take (be16toh plain)) (be16toh plain)
          :: rest := by
  subst hplain
  exact ⟨(DecryptReceived_no_close e s enc).1, (DecryptReceived_no_close e s enc).2,
    _, DecryptReceived_first_frame e s enc h2 hn hl⟩

theorem checksum_not_verified_witness :
    socketCloses (DecryptReceived demoEnv demoKeyed badChecksumCipher).trace
        = socketCloses demoKeyed.trace
    ∧ registryRemovals (DecryptReceived demoEnv demoKeyed badChecksumCipher).trace
        = registryRemovals demoKeyed.trace
    ∧ ∃ rest : List Effect,
        (DecryptReceived demoEnv demoKeyed badChecksumCipher).trace = demoKeyed.trace ++
          Effect.handleI2NPMessage ((badChecksumPlain.drop 2).take (be16toh badChecksumPlain))
            (be16toh badChecksumPlain) :: rest :=
  checksum_not_verified demoEnv demoKeyed badChecksumCipher badChecksumPlain
    (by decide) (by decide) (by decide) (by decide) (by decide)

/-- C7, as the claim states it, fails: two calls of `Terminate` close the socket twice
and call `RemoveNTCPSession` twice. -/
theorem Terminate_twice :
    socketCloses (terminateTimes 2 demoSession).trace = 2
    ∧ registryRemovals (terminateTimes 2 demoSession).trace = 2 := by
  decide

theorem Terminate_eq (s : NTCPSession) :
    s.Terminate = { s with trace := s.trace ++ [Effect.socketClose, Effect.removeNTCPSession] } := by
  simp [Terminate, emit]

/-- C7, amended: `Terminate` has no guard. Every call closes the socket once and calls
`RemoveNTCPSession` once, so `n` calls perform `n` socket closes and `n` registry
removals; nothing but the trace of these calls changes in the session. -/
theorem Terminate_counts (n : Nat) (s : NTCPSession) :
    socketCloses (terminateTimes n s).trace = socketCloses s.trace + n
    ∧ registryRemovals (terminateTimes n s).trace = registryRemovals s.trace + n
    ∧ (terminateTimes n s) = { s with trace := (terminateTimes n s).trace } := by
  induction n generalizing s with
  | zero => simp [terminateTimes]
  | succ k ih =>
    obtain ⟨h1, h2, h3⟩ := ih s.Terminate
    simp only [terminateTimes]
    refine ⟨?_, ?_, ?_⟩
    · rw [h1, Terminate_eq]
      simp only [socketCloses, List.count_append]
      have : List.count Effect.socketClose [Effect.socketClose, Effect.removeNTCPSession] = 1 := by
        decide
      omega
    · rw [h2, Terminate_eq]
      simp only [registryRemovals, List.count_append]
      have : List.count Effect.removeNTCPSession
          [Effect.socketClose, Effect.removeNTCPSession] = 1 := by
        decide
      omega
    · rw [h3, Terminate_eq]

/-! ## C3: frame lengths; witnesses on the demo environment -/

theorem demoKeyed_capacity : demoKeyed.m_SendBuffer.length = 2048 :=
  List.length_replicate _ _

theorem CreateAESKey_key_witness :
    (CreateAESKey demoEnv demoSession [] (List.replicate 32 0)).2 =
        (if (List.replicate 256 200).getD 0 0 &&& 0x80 ≠ 0
          then 0 :: (List.replicate 256 200).take 31 else (List.replicate 256 200).take 32)
      ∧ (CreateAESKey demoEnv demoSession [] (List.replicate 32 0)).2.length = 32
      ∧ (CreateAESKey demoEnv demoSession [] (List.replicate 32 0)).1 = demoSession :=
  CreateAESKey_key demoEnv demoSession [] (List.replicate 32 0) (List.replicate 256 200)
    rfl (List.length_replicate _ _) (List.length_replicate _ _)

theorem frame_round_trip_witness :
    ∃ frame : Bytes,
      written (Send demoEnv demoKeyed [65, 66, 67] 3 false).trace
        = written demoKeyed.trace ++ [frame]
      ∧ frame.length = round_up_16 (3 + 6)
      ∧ handled (DecryptReceived demoEnv demoKeyed frame).trace
        = handled demoKeyed.trace ++ [([65, 66, 67], 3)]
      ∧ (DecryptReceived demoEnv demoKeyed frame).m_DecryptedBuffer = []
      ∧ (DecryptReceived demoEnv demoKeyed frame).m_DecryptedBufferOffset = 0 :=
  frame_round_trip demoEnv demoKeyed demoKeyed [65, 66, 67] demoKey (by decide) (by decide)
    (by rw [demoKeyed_capacity]; decide) rfl rfl (by decide) demo_inverse demo_length rfl

/-- C3: the number of bytes `Send` encrypts and writes for a payload of `len` bytes is
`len + padding + 6` with `0 ≤ padding ≤ 15`; it is a multiple of 16 and equals
`round_up_16 (len + 6)` (for every `len`, in particular for `0 < len ≤ 16384`, on a
send buffer that can hold the frame); and the frame length the parse loop computes from
a non-zero size field `n` is `round_up_16 (n + 6)` as well. -/
theorem send_length_round_up (len : Nat) :
    sendPadding len ≤ 15
    ∧ (len + sendPadding len + 6) % 16 = 0
    ∧ len + sendPadding len + 6 = round_up_16 (len + 6)
    ∧ (∀ (e : Env) (s : NTCPSession) (buf : Bytes),
        round_up_16 (len + 6) ≤ s.m_SendBuffer.length →
          (plainFrame s.m_SendBuffer buf len false).length = len + sendPadding len + 6
          ∧ ∃ frame : Bytes,
              (Send e s buf len false).trace
                = s.trace ++ [Effect.asyncWrite frame Handler.HandleSent]
              ∧ frame.length = len + sendPadding len + 6)
    ∧ (∀ n : Nat, n ≠ 0 → frameLength n = round_up_16 (n + 6)) := by
  refine ⟨sendPadding_le len, ?_, sendPadding_round len, ?_, frameLength_round⟩
  · rw [sendPadding_round]; exact round_up_16_mod _
  · intro e s buf hcap
    have hpad : sendPadding len = (if (len + 6) % 16 > 0 then 16 - (len + 6) % 16 else 0) := rfl
    have hfb : s.m_SendBuffer.length ≤ (frameBuffer s.m_SendBuffer buf len false).length := by
      simp only [frameBuffer]
      exact le_trans (le_trans (length_writeAt_ge _ _ _) (length_writeAt_ge _ _ _))
        (length_writeAt_ge _ _ _)
    rw [← sendPadding_round] at hcap
    constructor
    · simp only [plainFrame, ← hpad, List.length_take]
      omega
    · refine ⟨_, rfl, ?_⟩
      simp only [← hpad, List.length_take]
      have := length_writeAt_ge (frameBuffer s.m_SendBuffer buf len false) 0
        (encryptData e s.m_Encryption
          ((frameBuffer s.m_SendBuffer buf len false).take (len + sendPadding len + 6))).2
      omega

theorem send_length_round_up_witness :
    (round_up_16 (1000 + 6) ≤ demoKeyed.m_SendBuffer.length →
      (plainFrame demoKeyed.m_SendBuffer (List.replicate 1000 7) 1000 false).length
          = 1000 + sendPadding 1000 + 6
      ∧ ∃ frame : Bytes,
          (Send demoEnv demoKeyed (List.replicate 1000 7) 1000 false).trace
            = demoKeyed.trace ++ [Effect.asyncWrite frame Handler.HandleSent]
          ∧ frame.length = 1000 + sendPadding 1000 + 6)
    ∧ round_up_16 (1000 + 6) ≤ demoKeyed.m_SendBuffer.length
    ∧ ((1000 : Nat) ≠ 0 → frameLength 1000 = round_up_16 (1000 + 6)) :=
  ⟨(send_length_round_up 1000).2.2.2.1 demoEnv demoKeyed (List.replicate 1000 7),
   by rw [demoKeyed_capacity]; decide, (send_length_round_up 1000).2.2.2.2 1000⟩

theorem segmentation_tolerance_witness :
    (delivered (receiveChunks demoEnv demoKeyed [[169, 168, 232], [169, 169], badChecksumCipher]).trace
        = delivered (HandleReceived demoEnv demoKeyed false
            [[169, 168, 232], [169, 169], badChecksumCipher].flatten).trace
      ∧ handled (receiveChunks demoEnv demoKeyed [[169, 168, 232], [169, 169], badChecksumCipher]).trace
        = handled (HandleReceived demoEnv demoKeyed false
            [[169, 168, 232], [169, 169], badChecksumCipher].flatten).trace)
    ∧ ∃ frames : List Bytes,
        written (sendAll demoEnv demoKeyed
            [[65], List.replicate 15 66, List.replicate 1024 67]).trace
          = written demoKeyed.trace ++ frames
        ∧ handled (receiveChunks demoEnv demoKeyed (frames.flatten.map (fun b => [b]))).trace
          = handled demoKeyed.trace
              ++ [([65], 1), (List.replicate 15 66, 15), (List.replicate 1024 67, 1024)] :=
  ⟨(segmentation_tolerance demoEnv demoKeyed rfl rfl).1
      [[169, 168, 232], [169, 169], badChecksumCipher],
   (segmentation_tolerance demoEnv demoKeyed rfl rfl).2 demoKeyed demoKey
      [65] (List.replicate 15 66) (List.replicate 1024 67)
      rfl (List.length_replicate _ _) (List.length_replicate _ _) rfl rfl (by decide)
      demo_inverse demo_length (by rw [demoKeyed_capacity]; decide)⟩

/-! ## Records and their memory images -/

theorem take_drop_append (b j : Bytes) (off n : Nat) (h : off + n ≤ b.length) :
    ((b ++ j).drop off).take n = (b.drop off).take n := by
  rw [List.drop_append_of_le_length (by omega),
    List.take_append_of_le_length (by simp; omega)]

theorem take_append_le (b j : Bytes) (n : Nat) (h : n ≤ b.length) :
    (b ++ j).take n = b.take n := List.take_append_of_le_length h

theorem RouterIdentity_ofBytes_append (b j : Bytes) (h : 387 ≤ b.length) :
    RouterIdentity.ofBytes (b ++ j) = RouterIdentity.ofBytes b := by
  simp only [RouterIdentity.ofBytes]
  rw [take_append_le b j 256 (by omega), take_drop_append b j 256 128 (by omega),
    take_drop_append b j 384 3 (by omega)]

theorem RouterIdentity_length_toBytes (i : RouterIdentity) (h1 : i.publicKey.length = 256)
    (h2 : i.signingKey.length = 128) (h3 : i.certificate.length = 3) :
    i.toBytes.length = 387 := by
  simp [RouterIdentity.toBytes, h1, h2, h3]

theorem RouterIdentity_ofBytes_toBytes (i : RouterIdentity) (j : Bytes)
    (h1 : i.publicKey.length = 256)
    (h2 : i.signingKey.length = 128) (h3 : i.certificate.length = 3) :
    RouterIdentity.ofBytes (i.toBytes ++ j) = i := by
  cases i with
  | mk pk sk c =>
    simp only at h1 h2 h3
    simp only [RouterIdentity.ofBytes, RouterIdentity.toBytes, List.append_assoc]
    have e1 : (pk ++ (sk ++ (c ++ j))).take 256 = pk := by
      rw [← h1]; exact List.take_left _ _
    have e2 : (pk ++ (sk ++ (c ++ j))).drop 256 = sk ++ (c ++ j) := by
      rw [← h1]; exact List.drop_left _ _
    have e3 : (pk ++ (sk ++ (c ++ j))).drop 384 = c ++ j := by
      have : 384 = pk.length + sk.length := by omega
      rw [this, ← List.drop_drop, List.drop_left, List.drop_left]
    have e4 : (sk ++ (c ++ j)).take 128 = sk := by
      rw [← h2]; exact List.take_left _ _
    have e5 : (c ++ j).take 3 = c := by
      rw [← h3]; exact List.take_left _ _
    rw [e1, e2, e3, e4, e5]

theorem NTCPPhase1_ofBytes_toBytes (p : NTCPPhase1) (j : Bytes) (h1 : p.pubKey.length = 256)
    (h2 : p.HXxorHI.length = 32) : NTCPPhase1.ofBytes (p.toBytes ++ j) = p := by
  cases p with
  | mk pk hx =>
    simp only at h1 h2
    simp only [NTCPPhase1.ofBytes, NTCPPhase1.toBytes, List.append_assoc]
    have e1 : (pk ++ (hx ++ j)).take 256 = pk := by rw [← h1]; exact List.take_left _ _
    have e2 : (pk ++ (hx ++ j)).drop 256 = hx ++ j := by rw [← h1]; exact List.drop_left _ _
    have e3 : (hx ++ j).take 32 = hx := by rw [← h2]; exact List.take_left _ _
    rw [e1, e2, e3]

theorem NTCPPhase2Encrypted_ofBytes_toBytes (p : NTCPPhase2Encrypted) (j : Bytes)
    (h1 : p.hxy.length = 32) (h2 : p.timestamp.length = 4) (h3 : p.filler.length = 12) :
    NTCPPhase2Encrypted.ofBytes (p.toBytes ++ j) = p := by
  cases p with
  | mk hxy ts fl =>
    simp only at h1 h2 h3
    simp only [NTCPPhase2Encrypted.ofBytes, NTCPPhase2Encrypted.toBytes, List.append_assoc]
    have e1 : (hxy ++ (ts ++ (fl ++ j))).take 32 = hxy := by rw [← h1]; exact List.take_left _ _
    have e2 : (hxy ++ (ts ++ (fl ++ j))).drop 32 = ts ++ (fl ++ j) := by
      rw [← h1]; exact List.drop_left _ _
    have e3 : (hxy ++ (ts ++ (fl ++ j))).drop 36 = fl ++ j := by
      have : 36 = hxy.length + ts.length := by omega
      rw [this, ← List.drop_drop, List.drop_left, List.drop_left]
    have e4 : (ts ++ (fl ++ j)).take 4 = ts := by rw [← h2]; exact List.take_left _ _
    have e5 : (fl ++ j).take 12 = fl := by rw [← h3]; exact List.take_left _ _
    rw [e1, e2, e3, e4, e5]

theorem NTCPPhase2Encrypted_length_toBytes (p : NTCPPhase2Encrypted)
    (h1 : p.hxy.length = 32) (h2 : p.timestamp.length = 4) (h3 : p.filler.length = 12) :
    p.toBytes.length = 48 := by
  simp [NTCPPhase2Encrypted.toBytes, h1, h2, h3]

theorem NTCPPhase2Encrypted_toBytes_ofBytes (b : Bytes) (h : b.length = 48) :
    (NTCPPhase2Encrypted.ofBytes b).toBytes = b := by
  simp only [NTCPPhase2Encrypted.ofBytes, NTCPPhase2Encrypted.toBytes]
  have e1 : (b.drop 32).take 4 ++ (b.drop 36).take 12 = b.drop 32 := by
    have : b.drop 36 = (b.drop 32).drop 4 := by rw [List.drop_drop]
    rw [this, List.take_of_length_le (l := (b.drop 32).drop 4) (by simp; omega),
      List.take_append_drop]
  rw [List.append_assoc, e1, List.take_append_drop]

theorem NTCPPhase2_ofBytes_toBytes (p : NTCPPhase2) (j : Bytes) (h0 : p.pubKey.length = 256)
    (h1 : p.encrypted.hxy.length = 32) (h2 : p.encrypted.timestamp.length = 4)
    (h3 : p.encrypted.filler.length = 12) : NTCPPhase2.ofBytes (p.toBytes ++ j) = p := by
  cases p with
  | mk pk en =>
    simp only at h0 h1 h2 h3
    simp only [NTCPPhase2.ofBytes, NTCPPhase2.toBytes, List.append_assoc]
    have e1 : (pk ++ (en.toBytes ++ j)).take 256 = pk := by rw [← h0]; exact List.take_left _ _
    have e2 : (pk ++ (en.toBytes ++ j)).drop 256 = en.toBytes ++ j := by
      rw [← h0]; exact List.drop_left _ _
    rw [e1, e2, NTCPPhase2Encrypted_ofBytes_toBytes en j h1 h2 h3]

theorem NTCPPhase4_ofBytes_toBytes (p : NTCPPhase4) (j : Bytes) (h1 : p.signature.length = 40)
    (h2 : p.padding.length = 8) : NTCPPhase4.ofBytes (p.toBytes ++ j) = p := by
  cases p with
  | mk sg pd =>
    simp only at h1 h2
    simp only [NTCPPhase4.ofBytes, NTCPPhase4.toBytes, List.append_assoc]
    have e1 : (sg ++ (pd ++ j)).take 40 = sg := by rw [← h1]; exact List.take_left _ _
    have e2 : (sg ++ (pd ++ j)).drop 40 = pd ++ j := by rw [← h1]; exact List.drop_left _ _
    have e3 : (pd ++ j).take 8 = pd := by rw [← h2]; exact List.take_left _ _
    rw [e1, e2, e3]

theorem NTCPPhase4_toBytes_ofBytes (b : Bytes) (h : b.length = 48) :
    (NTCPPhase4.ofBytes b).toBytes = b := by
  simp only [NTCPPhase4.ofBytes, NTCPPhase4.toBytes]
  rw [List.take_of_length_le (l := b.drop 40) (by simp; omega), List.take_append_drop]

theorem NTCPPhase3_ofBytes_toBytes (p : NTCPPhase3) (j : Bytes) (h1 : p.size.length = 2)
    (hi1 : p.ident.publicKey.length = 256) (hi2 : p.ident.signingKey.length = 128)
    (hi3 : p.ident.certificate.length = 3) (h3 : p.timestamp.length = 4)
    (h4 : p.signature.length = 40) (h5 : p.padding.length = 15) :
    NTCPPhase3.ofBytes (p.toBytes ++ j) = p := by
  cases p with
  | mk sz id ts sg pd =>
    simp only at h1 hi1 hi2 hi3 h3 h4 h5
    have hid := RouterIdentity_length_toBytes id hi1 hi2 hi3
    simp only [NTCPPhase3.ofBytes, NTCPPhase3.toBytes, List.append_assoc]
    have e1 : (sz ++ (id.toBytes ++ (ts ++ (sg ++ (pd ++ j))))).take 2 = sz := by
      rw [← h1]; exact List.take_left _ _
    have e2 : (sz ++ (id.toBytes ++ (ts ++ (sg ++ (pd ++ j))))).drop 2
        = id.toBytes ++ (ts ++ (sg ++ (pd ++ j))) := by
      rw [← h1]; exact List.drop_left _ _
    have e3 : (sz ++ (id.toBytes ++ (ts ++ (sg ++ (pd ++ j))))).drop 389
        = ts ++ (sg ++ (pd ++ j)) := by
      have : 389 = sz.length + id.toBytes.length := by omega
      rw [this, ← List.drop_drop, List.drop_left, List.drop_left]
    have e4 : (sz ++ (id.toBytes ++ (ts ++ (sg ++ (pd ++ j))))).drop 393 = sg ++ (pd ++ j) := by
      have : 393 = 389 + ts.length := by omega
      rw [this, ← List.drop_drop, e3, List.drop_left]
    have e5 : (sz ++ (id.toBytes ++ (ts ++ (sg ++ (pd ++ j))))).drop 433 = pd ++ j := by
      have : 433 = 393 + sg.length := by omega
      rw [this, ← List.drop_drop, e4, List.drop_left]
    have e6 : (ts ++ (sg ++ (pd ++ j))).take 4 = ts := by rw [← h3]; exact List.take_left _ _
    have e7 : (sg ++ (pd ++ j)).take 40 = sg := by rw [← h4]; exact List.take_left _ _
    have e8 : (pd ++ j).take 15 = pd := by rw [← h5]; exact List.take_left _ _
    rw [e1, e2, e3, e4, e5, e6, e7, e8, RouterIdentity_ofBytes_toBytes id _ hi1 hi2 hi3]

theorem NTCPPhase3_length_toBytes (p : NTCPPhase3) (h1 : p.size.length = 2)
    (hi1 : p.ident.publicKey.length = 256) (hi2 : p.ident.signingKey.length = 128)
    (hi3 : p.ident.certificate.length = 3) (h3 : p.timestamp.length = 4)
    (h4 : p.signature.length = 40) (h5 : p.padding.length = 15) :
    p.toBytes.length = 448 := by
  have hid := RouterIdentity_length_toBytes p.ident hi1 hi2 hi3
  simp only [NTCPPhase3.toBytes, List.length_append, h1, hid, h3, h4, h5]

theorem take_drop_glue (b : Bytes) (a n m : Nat) (h : m = a + n) :
    (b.drop a).take n ++ b.drop m = b.drop a := by
  subst h
  have : b.drop (a + n) = (b.drop a).drop n := by rw [List.drop_drop]
  rw [this, List.take_append_drop]

theorem RouterIdentity_toBytes_ofBytes (b : Bytes) (h : b.length = 387) :
    (RouterIdentity.ofBytes b).toBytes = b := by
  simp only [RouterIdentity.ofBytes, RouterIdentity.toBytes]
  rw [List.take_of_length_le (l := b.drop 384) (by simp; omega), List.append_assoc,
    take_drop_glue b 256 128 384 rfl, List.take_append_drop]

theorem RouterIdentity_ofBytes_take (b : Bytes) :
    RouterIdentity.ofBytes (b.take 387) = RouterIdentity.ofBytes b := by
  simp only [RouterIdentity.ofBytes, List.take_take, List.drop_take]
  rfl

theorem NTCPPhase3_toBytes_ofBytes (b : Bytes) (h : b.length = 448) :
    (NTCPPhase3.ofBytes b).toBytes = b := by
  simp only [NTCPPhase3.ofBytes, NTCPPhase3.toBytes]
  rw [← RouterIdentity_ofBytes_take, RouterIdentity_toBytes_ofBytes _ (by simp; omega)]
  rw [List.take_of_length_le (l := b.drop 433) (by simp; omega)]
  simp only [List.append_assoc]
  rw [take_drop_glue b 393 40 433 rfl, take_drop_glue b 389 4 393 rfl]
  have : b.drop 389 = (b.drop 2).drop 387 := by rw [List.drop_drop]
  rw [this, List.take_append_drop, List.take_append_drop]

/-! ## Key derivation and the ciphers of the two sides -/

theorem CreateAESKey_ok (e : Env) (s : NTCPSession) (pubKey aesKey secret : Bytes)
    (hagree : e.dhAgree e.privateKey pubKey = some secret) (hsecret : secret.length = 256) :
    (CreateAESKey e s pubKey aesKey).1 = s
    ∧ (CreateAESKey e s pubKey aesKey).2.take 32 = aes_key_from_secret secret := by
  unfold CreateAESKey aes_key_from_secret
  rw [hagree]
  by_cases hb : secret.getD 0 0 &&& 0x80 ≠ 0
  · simp only [if_pos hb]
    refine ⟨trivial, ?_⟩
    simp only [writeAt, List.take_zero, List.nil_append, List.length_cons, List.length_nil,
      List.append_assoc, List.singleton_append, List.take_succ_cons]
    rw [List.take_append_of_le_length (by simp [hsecret])]
    exact List.take_of_length_le (by simp [hsecret])
  · simp only [if_neg hb]
    refine ⟨trivial, ?_⟩
    simp only [writeAt, List.take_zero, List.nil_append]
    rw [List.take_append_of_le_length (by simp [hsecret]), List.take_take]
    simp

theorem CreateAESKey_fail (e : Env) (s : NTCPSession) (pubKey aesKey : Bytes)
    (hagree : e.dhAgree e.privateKey pubKey = none) :
    CreateAESKey e s pubKey aesKey = (s.Terminate, aesKey) := by
  unfold CreateAESKey
  rw [hagree]

/-- Encryption on one side and decryption on the other, from the same CBC state, with
block functions inverse to each other: the plaintext comes back and both objects end in
the same state. -/
theorem encrypt_decrypt (eE eD : Env) (k : CBC) (data : Bytes) (n : Nat)
    (hdata : data.length = 16 * n) (hiv : k.iv.length = 16)
    (hinv : ∀ b : Bytes, b.length = 16 →
      eD.aesDecryptBlock k.key (eE.aesEncryptBlock k.key b) = b)
    (hlen : ∀ b : Bytes, b.length = 16 → (eE.aesEncryptBlock k.key b).length = 16) :
    (encryptData eE (some k) data).2.length = data.length
    ∧ decryptData eD (some k) (encryptData eE (some k) data).2
        = ((encryptData eE (some k) data).1, data)
    ∧ ∃ iv : Bytes, (encryptData eE (some k) data).1 = some { key := k.key, iv := iv }
        ∧ iv.length = 16 := by
  have hq : data.length / 16 = n := by omega
  obtain ⟨h1, h2, h3⟩ := cbc_roundtrip (eE.aesEncryptBlock k.key) (eD.aesDecryptBlock k.key)
    hinv hlen n k.iv data hiv hdata
  simp only [encryptData, hq, decryptData_some]
  have hq2 : (cbcEncryptBlocks (eE.aesEncryptBlock k.key) k.iv (fullBlocks n data)).2.length / 16
      = n := by rw [h1]; omega
  refine ⟨by rw [h1, hdata], ?_, _, rfl, h2⟩
  rw [hq2, h3]

theorem getD_xor_cancel (d i : Bytes) (n : Nat) (hn : n < 32) :
    (((List.range 32).map (fun j => d.getD j 0 ^^^ i.getD j 0)).getD n 0 ^^^ i.getD n 0)
      = d.getD n 0 := by
  rw [List.getD_eq_getElem _ _ (by simpa using hn)]
  simp only [List.getElem_map, List.getElem_range]
  rw [Nat.xor_assoc, Nat.xor_self, Nat.xor_zero]

/-- The identity check of `HandlePhase1Received` accepts the record `ClientLogin` builds
for the same ident hash. -/
theorem ident_check_pass (d i : Bytes) :
    (List.range 32).all
      (fun n => (((List.range 32).map (fun j => d.getD j 0 ^^^ i.getD j 0)).getD n 0
        ^^^ i.getD n 0) == d.getD n 0) = true := by
  rw [List.all_eq_true]
  intro n hn
  rw [List.mem_range] at hn
  simp only [beq_iff_eq]
  exact getD_xor_cancel d i n hn

/-! ## What the handshake steps change -/

theorem CreateAESKey_fst (e : Env) (s : NTCPSession) (pubKey aesKey : Bytes) :
    (CreateAESKey e s pubKey aesKey).1
      = { s with trace := s.trace ++ dhFailureTrace e pubKey } := by
  unfold CreateAESKey dhFailureTrace
  cases e.dhAgree e.privateKey pubKey with
  | none => simp [Terminate, emit]
  | some secret =>
    simp only [List.append_nil]
    split_ifs <;> rfl

theorem encryptData_ne_none (e : Env) (st : Option CBC) (d : Bytes) (h : st ≠ none) :
    (encryptData e st d).1 ≠ none := by
  cases st with
  | none => exact absurd rfl h
  | some k => simp [encryptData]

theorem decryptData_ne_none (e : Env) (st : Option CBC) (d : Bytes) (h : st ≠ none) :
    (decryptData e st d).1 ≠ none := by
  cases st with
  | none => exact absurd rfl h
  | some k => simp [decryptData]

theorem SendPhase2_frame (e : Env) (now : Nat) (s : NTCPSession) :
    (SendPhase2 e now s).trace = s.trace ++ dhFailureTrace e s.m_Phase1.pubKey
        ++ [Effect.asyncWrite (SendPhase2 e now s).m_Phase2.toBytes
              (Handler.HandlePhase2Sent (htobe32 now))]
    ∧ (SendPhase2 e now s).pending = s.pending ++ [Handler.HandlePhase2Sent (htobe32 now)]
    ∧ (SendPhase2 e now s).m_IsEstablished = s.m_IsEstablished
    ∧ Keyed (SendPhase2 e now s)
    ∧ (SendPhase2 e now s).m_Phase1 = s.m_Phase1
    ∧ (SendPhase2 e now s).m_Phase3 = s.m_Phase3
    ∧ (SendPhase2 e now s).m_Phase4 = s.m_Phase4
    ∧ (SendPhase2 e now s).m_RemoteRouterInfo = s.m_RemoteRouterInfo := by
  simp only [SendPhase2, SetKeyWithIV, async_write, CreateAESKey_fst, Keyed]
  refine ⟨trivial, trivial, trivial, ⟨?_, ?_⟩, trivial, trivial, trivial, trivial⟩
  · exact encryptData_ne_none _ _ _ (by simp)
  · simp

theorem SendPhase3_frame (e : Env) (now : Nat) (s : NTCPSession) :
    (SendPhase3 e now s).trace = s.trace
        ++ [Effect.asyncWrite (SendPhase3 e now s).m_Phase3.toBytes
              (Handler.HandlePhase3Sent (htobe32 now))]
    ∧ (SendPhase3 e now s).pending = s.pending ++ [Handler.HandlePhase3Sent (htobe32 now)]
    ∧ (SendPhase3 e now s).m_IsEstablished = s.m_IsEstablished
    ∧ (SendPhase3 e now s).m_Decryption = s.m_Decryption
    ∧ (s.m_Encryption ≠ none → (SendPhase3 e now s).m_Encryption ≠ none)
    ∧ (SendPhase3 e now s).m_Phase1 = s.m_Phase1
    ∧ (SendPhase3 e now s).m_Phase2 = s.m_Phase2
    ∧ (SendPhase3 e now s).m_Phase4 = s.m_Phase4
    ∧ (SendPhase3 e now s).m_RemoteRouterInfo = s.m_RemoteRouterInfo := by
  simp only [SendPhase3, async_write]
  exact ⟨trivial, trivial, trivial, trivial, encryptData_ne_none _ _ _, trivial, trivial,
    trivial, trivial⟩

theorem SendPhase4_frame (e : Env) (s : NTCPSession) (tsB : Bytes) :
    (SendPhase4 e s tsB).trace = s.trace
        ++ [Effect.asyncWrite (SendPhase4 e s tsB).m_Phase4.toBytes Handler.HandlePhase4Sent]
    ∧ (SendPhase4 e s tsB).pending = s.pending ++ [Handler.HandlePhase4Sent]
    ∧ (SendPhase4 e s tsB).m_IsEstablished = s.m_IsEstablished
    ∧ (SendPhase4 e s tsB).m_Decryption = s.m_Decryption
    ∧ (s.m_Encryption ≠ none → (SendPhase4 e s tsB).m_Encryption ≠ none)
    ∧ (SendPhase4 e s tsB).m_Phase1 = s.m_Phase1
    ∧ (SendPhase4 e s tsB).m_Phase2 = s.m_Phase2
    ∧ (SendPhase4 e s tsB).m_Phase3 = s.m_Phase3
    ∧ (SendPhase4 e s tsB).m_RemoteRouterInfo = s.m_RemoteRouterInfo := by
  simp only [SendPhase4, async_write]
  exact ⟨trivial, trivial, trivial, trivial, encryptData_ne_none _ _ _, trivial, trivial,
    trivial, trivial⟩

theorem Send_frame (e : Env) (s : NTCPSession) (buf : Bytes) (len : Nat) (z : Bool) :
    (∃ msg : Bytes, (Send e s buf len z).trace
        = s.trace ++ [Effect.asyncWrite msg Handler.HandleSent])
    ∧ (Send e s buf len z).pending = s.pending ++ [Handler.HandleSent]
    ∧ (Send e s buf len z).m_IsEstablished = s.m_IsEstablished
    ∧ (Send e s buf len z).m_Decryption = s.m_Decryption
    ∧ (s.m_Encryption ≠ none → (Send e s buf len z).m_Encryption ≠ none)
    ∧ (Send e s buf len z).m_Phase1 = s.m_Phase1
    ∧ (Send e s buf len z).m_Phase2 = s.m_Phase2
    ∧ (Send e s buf len z).m_Phase3 = s.m_Phase3
    ∧ (Send e s buf len z).m_Phase4 = s.m_Phase4
    ∧ (Send e s buf len z).m_RemoteRouterInfo = s.m_RemoteRouterInfo
    ∧ (Send e s buf len z).m_ReceiveBuffer = s.m_ReceiveBuffer
    ∧ (Send e s buf len z).m_DecryptedBuffer = s.m_DecryptedBuffer := by
  simp only [Send]
  exact ⟨⟨_, rfl⟩, trivial, trivial, trivial, encryptData_ne_none _ _ _, trivial, trivial,
    trivial, trivial, trivial, trivial, trivial⟩

theorem socketCloses_append (a b : List Effect) :
    socketCloses (a ++ b) = socketCloses a + socketCloses b := by
  simp [socketCloses]

theorem registryRemovals_append (a b : List Effect) :
    registryRemovals (a ++ b) = registryRemovals a + registryRemovals b := by
  simp [registryRemovals]

theorem Terminate_frame (s : NTCPSession) :
    s.Terminate.trace = s.trace ++ [Effect.socketClose, Effect.removeNTCPSession]
    ∧ socketCloses s.Terminate.trace = socketCloses s.trace + 1
    ∧ registryRemovals s.Terminate.trace = registryRemovals s.trace + 1
    ∧ written s.Terminate.trace = written s.trace
    ∧ s.Terminate.pending = s.pending
    ∧ s.Terminate.m_IsEstablished = s.m_IsEstablished := by
  simp only [Terminate, emit, List.append_assoc, List.singleton_append, socketCloses_append,
    registryRemovals_append, written_append]
  refine ⟨trivial, ?_, ?_, ?_, trivial, trivial⟩
  · rfl
  · rfl
  · simp [written]

theorem written_dhFailureTrace (e : Env) (pk : Bytes) : written (dhFailureTrace e pk) = [] := by
  unfold dhFailureTrace
  cases e.dhAgree e.privateKey pk <;> rfl

/-! ## C10: failed checks stop the handshake -/

theorem written_snoc_ne (a : List Bytes) (m : Bytes) : a ≠ a ++ [m] := by
  intro h
  have := congrArg List.length h
  simp at this

theorem SendPhase2_written (e : Env) (now : Nat) (s : NTCPSession) :
    written (SendPhase2 e now s).trace
      = written s.trace ++ [(SendPhase2 e now s).m_Phase2.toBytes] := by
  rw [(SendPhase2_frame e now s).1, written_append, written_append, written_dhFailureTrace]
  simp only [written, List.append_nil]

theorem SendPhase3_written (e : Env) (now : Nat) (s : NTCPSession) :
    written (SendPhase3 e now s).trace
      = written s.trace ++ [(SendPhase3 e now s).m_Phase3.toBytes] := by
  rw [(SendPhase3_frame e now s).1, written_append]
  simp only [written]

theorem SendPhase4_written (e : Env) (s : NTCPSession) (tsB : Bytes) :
    written (SendPhase4 e s tsB).trace
      = written s.trace ++ [(SendPhase4 e s tsB).m_Phase4.toBytes] := by
  rw [(SendPhase4_frame e s tsB).1, written_append]
  simp only [written]

theorem CreateAESKey_snd (e : Env) (s t : NTCPSession) (pubKey aesKey : Bytes) :
    (CreateAESKey e s pubKey aesKey).2 = (CreateAESKey e t pubKey aesKey).2 := by
  unfold CreateAESKey
  cases e.dhAgree e.privateKey pubKey with
  | none => rfl
  | some secret => simp only; split_ifs <;> rfl

/-- C10: every failed handshake check stops the handshake. For each of the four checks
(server, Phase 1: `SHA256 (X)` against `HXxorHI` XOR own ident hash; client, Phase 2:
decrypted `hxy` against `SHA256 (X ‖ Y)`; server, Phase 3 and client, Phase 4: DSA
verification of the decrypted signature), on a read that completed without error:
if the check passes the handler goes on (the next phase message is written and its
completion handler bound; the Phase 4 handler sets `m_IsEstablished` and starts
`Receive`); if it fails, `Terminate` is called, nothing is written, no handler is bound
and `m_IsEstablished` is left as it was. So the next message is written exactly when
the check passes. -/
theorem failed_check_stops_handshake (e : Env) (now : Nat) (s : NTCPSession)
    (received tsA tsB : Bytes) :
    -- server, Phase 1
    ((∀ i, i < 32 →
          (NTCPPhase1.ofBytes (recvInto received s.m_Phase1.toBytes)).HXxorHI.getD i 0
              ^^^ e.identHash.getD i 0
            = (e.sha256 (NTCPPhase1.ofBytes
                (recvInto received s.m_Phase1.toBytes)).pubKey).getD i 0) →
        ∃ msg : Bytes,
          written (HandlePhase1Received e now s false received).trace
            = written s.trace ++ [msg]
          ∧ (HandlePhase1Received e now s false received).pending
            = s.pending ++ [Handler.HandlePhase2Sent (htobe32 now)])
    ∧ (¬ (∀ i, i < 32 →
          (NTCPPhase1.ofBytes (recvInto received s.m_Phase1.toBytes)).HXxorHI.getD i 0
              ^^^ e.identHash.getD i 0
            = (e.sha256 (NTCPPhase1.ofBytes
                (recvInto received s.m_Phase1.toBytes)).pubKey).getD i 0) →
        socketCloses (HandlePhase1Received e now s false received).trace
            = socketCloses s.trace + 1
        ∧ registryRemovals (HandlePhase1Received e now s false received).trace
            = registryRemovals s.trace + 1
        ∧ written (HandlePhase1Received e now s false received).trace = written s.trace
        ∧ (HandlePhase1Received e now s false received).pending = s.pending
        ∧ (HandlePhase1Received e now s false received).m_IsEstablished = s.m_IsEstablished)
    -- client, Phase 2
    ∧ ((e.sha256 (e.routerIdentity.publicKey
            ++ (NTCPPhase2.ofBytes (recvInto received s.m_Phase2.toBytes)).pubKey)).take 32
          = (NTCPPhase2Encrypted.ofBytes (decryptData e
              (SetKeyWithIV
                (CreateAESKey e s (NTCPPhase2.ofBytes (recvInto received s.m_Phase2.toBytes)).pubKey
                  e.stackAesKey).2
                ((NTCPPhase2.ofBytes (recvInto received s.m_Phase2.toBytes)).pubKey.drop 240))
              (NTCPPhase2.ofBytes (recvInto received s.m_Phase2.toBytes)).encrypted.toBytes).2).hxy.take 32 →
        ∃ msg : Bytes,
          written (HandlePhase2Received e now s false received).trace
            = written s.trace ++ [msg]
          ∧ (HandlePhase2Received e now s false received).pending
            = s.pending ++ [Handler.HandlePhase3Sent (htobe32 now)])
    ∧ ((e.sha256 (e.routerIdentity.publicKey
            ++ (NTCPPhase2.ofBytes (recvInto received s.m_Phase2.toBytes)).pubKey)).take 32
          ≠ (NTCPPhase2Encrypted.ofBytes (decryptData e
              (SetKeyWithIV
                (CreateAESKey e s (NTCPPhase2.ofBytes (recvInto received s.m_Phase2.toBytes)).pubKey
                  e.stackAesKey).2
                ((NTCPPhase2.ofBytes (recvInto received s.m_Phase2.toBytes)).pubKey.drop 240))
              (NTCPPhase2.ofBytes (recvInto received s.m_Phase2.toBytes)).encrypted.toBytes).2).hxy.take 32 →
        socketCloses (HandlePhase2Received e now s false received).trace
            = socketCloses s.trace + socketCloses (dhFailureTrace e
                (NTCPPhase2.ofBytes (recvInto received s.m_Phase2.toBytes)).pubKey) + 1
        ∧ registryRemovals (HandlePhase2Received e now s false received).trace
            = registryRemovals s.trace + registryRemovals (dhFailureTrace e
                (NTCPPhase2.ofBytes (recvInto received s.m_Phase2.toBytes)).pubKey) + 1
        ∧ written (HandlePhase2Received e now s false received).trace = written s.trace
        ∧ (HandlePhase2Received e now s false received).pending = s.pending
        ∧ (HandlePhase2Received e now s false received).m_IsEstablished = s.m_IsEstablished)
    -- server, Phase 3
    ∧ (e.dsaVerify
          (NTCPPhase3.ofBytes (decryptData e s.m_Decryption
            (NTCPPhase3.ofBytes (recvInto received s.m_Phase3.toBytes)).toBytes).2).ident.signingKey
          (SignedData.toBytes
            { x := s.m_Phase1.pubKey, y := s.m_Phase2.pubKey, ident := e.identHash,
              tsA := (NTCPPhase3.ofBytes (decryptData e s.m_Decryption
                (NTCPPhase3.ofBytes (recvInto received s.m_Phase3.toBytes)).toBytes).2).timestamp,
              tsB := tsB })
          (NTCPPhase3.ofBytes (decryptData e s.m_Decryption
            (NTCPPhase3.ofBytes (recvInto received s.m_Phase3.toBytes)).toBytes).2).signature
          = true →
        ∃ msg : Bytes,
          written (HandlePhase3Received e s false received tsB).trace
            = written s.trace ++ [msg]
          ∧ (HandlePhase3Received e s false received tsB).pending
            = s.pending ++ [Handler.HandlePhase4Sent])
    ∧ (e.dsaVerify
          (NTCPPhase3.ofBytes (decryptData e s.m_Decryption
            (NTCPPhase3.ofBytes (recvInto received s.m_Phase3.toBytes)).toBytes).2).ident.signingKey
          (SignedData.toBytes
            { x := s.m_Phase1.pubKey, y := s.m_Phase2.pubKey, ident := e.identHash,
              tsA := (NTCPPhase3.ofBytes (decryptData e s.m_Decryption
                (NTCPPhase3.ofBytes (recvInto received s.m_Phase3.toBytes)).toBytes).2).timestamp,
              tsB := tsB })
          (NTCPPhase3.ofBytes (decryptData e s.m_Decryption
            (NTCPPhase3.ofBytes (recvInto received s.m_Phase3.toBytes)).toBytes).2).signature
          = false →
        socketCloses (HandlePhase3Received e s false received tsB).trace
            = socketCloses s.trace + 1
        ∧ registryRemovals (HandlePhase3Received e s false received tsB).trace
            = registryRemovals s.trace + 1
        ∧ written (HandlePhase3Received e s false received tsB).trace = written s.trace
        ∧ (HandlePhase3Received e s false received tsB).pending = s.pending
        ∧ (HandlePhase3Received e s false received tsB).m_IsEstablished = s.m_IsEstablished)
    -- client, Phase 4
    ∧ (e.dsaVerify s.m_RemoteRouterInfo.routerIdentity.signingKey
          (SignedData.toBytes
            { x := s.m_Phase1.pubKey, y := s.m_Phase2.pubKey, ident := e.identHash,
              tsA := tsA, tsB := s.m_Phase2.encrypted.timestamp })
          (NTCPPhase4.ofBytes (decryptData e s.m_Decryption
            (NTCPPhase4.ofBytes (recvInto received s.m_Phase4.toBytes)).toBytes).2).signature
          = true →
        (HandlePhase4Received e now s false received tsA).m_IsEstablished = true
        ∧ Handler.HandleReceived ∈ (HandlePhase4Received e now s false received tsA).pending
        ∧ socketCloses (HandlePhase4Received e now s false received tsA).trace
            = socketCloses s.trace)
    ∧ (e.dsaVerify s.m_RemoteRouterInfo.routerIdentity.signingKey
          (SignedData.toBytes
            { x := s.m_Phase1.pubKey, y := s.m_Phase2.pubKey, ident := e.identHash,
              tsA := tsA, tsB := s.m_Phase2.encrypted.timestamp })
          (NTCPPhase4.ofBytes (decryptData e s.m_Decryption
            (NTCPPhase4.ofBytes (recvInto received s.m_Phase4.toBytes)).toBytes).2).signature
          = false →
        socketCloses (HandlePhase4Received e now s false received tsA).trace
            = socketCloses s.trace + 1
        ∧ registryRemovals (HandlePhase4Received e now s false received tsA).trace
            = registryRemovals s.trace + 1
        ∧ written (HandlePhase4Received e now s false received tsA).trace = written s.trace
        ∧ (HandlePhase4Received e now s false received tsA).pending = s.pending
        ∧ (HandlePhase4Received e now s false received tsA).m_IsEstablished
            = s.m_IsEstablished) := by
  refine ⟨?_, ?_, ?_, ?_, ?_, ?_, ?_, ?_⟩
  · intro hok
    have hall : (List.range 32).all
        (fun i => ((NTCPPhase1.ofBytes (recvInto received s.m_Phase1.toBytes)).HXxorHI.getD i 0
              ^^^ e.identHash.getD i 0)
            == (e.sha256 (NTCPPhase1.ofBytes
                (recvInto received s.m_Phase1.toBytes)).pubKey).getD i 0) = true := by
      rw [List.all_eq_true]
      intro i hi
      rw [List.mem_range] at hi
      simp only [beq_iff_eq]
      exact hok i hi
    simp only [HandlePhase1Received, Bool.false_eq_true, if_false, hall, if_true]
    obtain ⟨ht, hp, -⟩ := SendPhase2_frame e now
      { s with m_Phase1 := NTCPPhase1.ofBytes (recvInto received s.m_Phase1.toBytes) }
    exact ⟨_, SendPhase2_written e now _, hp⟩
  · intro hbad
    have hall : ¬ (List.range 32).all
        (fun i => ((NTCPPhase1.ofBytes (recvInto received s.m_Phase1.toBytes)).HXxorHI.getD i 0
              ^^^ e.identHash.getD i 0)
            == (e.sha256 (NTCPPhase1.ofBytes
                (recvInto received s.m_Phase1.toBytes)).pubKey).getD i 0) = true := by
      rw [List.all_eq_true]
      intro h
      apply hbad
      intro i hi
      have := h i (List.mem_range.mpr hi)
      simpa only [beq_iff_eq] using this
    simp only [HandlePhase1Received, Bool.false_eq_true, if_false, if_neg hall]
    obtain ⟨-, h1, h2, h3, h4, h5⟩ := Terminate_frame
      { s with m_Phase1 := NTCPPhase1.ofBytes (recvInto received s.m_Phase1.toBytes) }
    exact ⟨h1, h2, h3, h4, h5⟩
  · intro hok
    rw [CreateAESKey_snd e s
      { s with m_Phase2 := NTCPPhase2.ofBytes (recvInto received s.m_Phase2.toBytes) }] at hok
    simp only [HandlePhase2Received, Bool.false_eq_true, if_false, CreateAESKey_fst, ne_eq, hok,
      not_true_eq_false]
    refine ⟨?w, ?h, (SendPhase3_frame e now _).2.1⟩
    case h =>
      rw [SendPhase3_written, written_append, written_dhFailureTrace, List.append_nil]
      exact rfl
  · intro hbad
    rw [CreateAESKey_snd e s
      { s with m_Phase2 := NTCPPhase2.ofBytes (recvInto received s.m_Phase2.toBytes) }] at hbad
    simp only [HandlePhase2Received, Bool.false_eq_true, if_false, CreateAESKey_fst, ne_eq, hbad,
      not_false_eq_true, if_true]
    refine ⟨?_, ?_, ?_, ?_, ?_⟩
    · rw [(Terminate_frame _).2.1, socketCloses_append]
    · rw [(Terminate_frame _).2.2.1, registryRemovals_append]
    · rw [(Terminate_frame _).2.2.2.1, written_append, written_dhFailureTrace, List.append_nil]
    · rw [(Terminate_frame _).2.2.2.2.1]
    · rw [(Terminate_frame _).2.2.2.2.2]
  · intro hok
    simp only [HandlePhase3Received, Bool.false_eq_true, if_false, RouterInfo.SetRouterIdentity,
      hok, Bool.not_true]
    obtain ⟨ht, hp, -⟩ := SendPhase4_frame e
      { s with
        m_Decryption := (decryptData e s.m_Decryption
          (NTCPPhase3.ofBytes (recvInto received s.m_Phase3.toBytes)).toBytes).1,
        m_Phase3 := NTCPPhase3.ofBytes (decryptData e s.m_Decryption
          (NTCPPhase3.ofBytes (recvInto received s.m_Phase3.toBytes)).toBytes).2,
        m_RemoteRouterInfo :=
          { routerIdentity := (NTCPPhase3.ofBytes (decryptData e s.m_Decryption
              (NTCPPhase3.ofBytes (recvInto received s.m_Phase3.toBytes)).toBytes).2).ident,
            identHash := e.sha256 (NTCPPhase3.ofBytes (decryptData e s.m_Decryption
              (NTCPPhase3.ofBytes (recvInto received s.m_Phase3.toBytes)).toBytes).2).ident.toBytes } }
      tsB
    exact ⟨_, SendPhase4_written e _ tsB, hp⟩
  · intro hbad
    simp only [HandlePhase3Received, Bool.false_eq_true, if_false, RouterInfo.SetRouterIdentity,
      hbad, Bool.not_false, if_true]
    obtain ⟨-, h1, h2, h3, h4, h5⟩ := Terminate_frame
      { s with
        m_Decryption := (decryptData e s.m_Decryption
          (NTCPPhase3.ofBytes (recvInto received s.m_Phase3.toBytes)).toBytes).1,
        m_Phase3 := NTCPPhase3.ofBytes (decryptData e s.m_Decryption
          (NTCPPhase3.ofBytes (recvInto received s.m_Phase3.toBytes)).toBytes).2,
        m_RemoteRouterInfo :=
          { routerIdentity := (NTCPPhase3.ofBytes (decryptData e s.m_Decryption
              (NTCPPhase3.ofBytes (recvInto received s.m_Phase3.toBytes)).toBytes).2).ident,
            identHash := e.sha256 (NTCPPhase3.ofBytes (decryptData e s.m_Decryption
              (NTCPPhase3.ofBytes (recvInto received s.m_Phase3.toBytes)).toBytes).2).ident.toBytes } }
    exact ⟨h1, h2, h3, h4, h5⟩
  · intro hok
    simp only [HandlePhase4Received, Bool.false_eq_true, if_false, hok, Bool.not_true,
      SendTimeSyncMessage, SendMessage, Send, Receive, socketCloses_append]
    refine ⟨trivial, by simp, ?_⟩
    simp [socketCloses]
  · intro hbad
    simp only [HandlePhase4Received, Bool.false_eq_true, if_false, hbad, Bool.not_false, if_true]
    obtain ⟨-, h1, h2, h3, h4, h5⟩ := Terminate_frame
      { s with
        m_Decryption := (decryptData e s.m_Decryption
          (NTCPPhase4.ofBytes (recvInto received s.m_Phase4.toBytes)).toBytes).1,
        m_Phase4 := NTCPPhase4.ofBytes (decryptData e s.m_Decryption
          (NTCPPhase4.ofBytes (recvInto received s.m_Phase4.toBytes)).toBytes).2 }
    exact ⟨h1, h2, h3, h4, h5⟩

/-! ## Reading the phase records -/

theorem NTCPPhase1_ofBytes_recvInto (b old : Bytes) (h : b.length = 288) :
    NTCPPhase1.ofBytes (recvInto b old) = NTCPPhase1.ofBytes b := by
  simp only [NTCPPhase1.ofBytes, recvInto]
  rw [take_append_le b _ 256 (by omega), take_drop_append b _ 256 32 (by omega)]

theorem NTCPPhase2Encrypted_ofBytes_append (b j : Bytes) (h : 48 ≤ b.length) :
    NTCPPhase2Encrypted.ofBytes (b ++ j) = NTCPPhase2Encrypted.ofBytes b := by
  simp only [NTCPPhase2Encrypted.ofBytes]
  rw [take_append_le b _ 32 (by omega), take_drop_append b _ 32 4 (by omega),
    take_drop_append b _ 36 12 (by omega)]

theorem NTCPPhase2_ofBytes_recvInto (b old : Bytes) (h : b.length = 304) :
    NTCPPhase2.ofBytes (recvInto b old) = NTCPPhase2.ofBytes b := by
  simp only [NTCPPhase2.ofBytes, recvInto]
  rw [take_append_le b _ 256 (by omega), List.drop_append_of_le_length (by omega),
    NTCPPhase2Encrypted_ofBytes_append _ _ (by simp; omega)]

theorem NTCPPhase3_ofBytes_recvInto (b old : Bytes) (h : b.length = 448) :
    NTCPPhase3.ofBytes (recvInto b old) = NTCPPhase3.ofBytes b := by
  simp only [NTCPPhase3.ofBytes, recvInto]
  rw [take_append_le b _ 2 (by omega), take_drop_append b _ 389 4 (by omega),
    take_drop_append b _ 393 40 (by omega), take_drop_append b _ 433 15 (by omega),
    List.drop_append_of_le_length (by omega),
    RouterIdentity_ofBytes_append _ _ (by simp; omega)]

theorem NTCPPhase4_ofBytes_recvInto (b old : Bytes) (h : b.length = 48) :
    NTCPPhase4.ofBytes (recvInto b old) = NTCPPhase4.ofBytes b := by
  simp only [NTCPPhase4.ofBytes, recvInto]
  rw [take_append_le b _ 40 (by omega), take_drop_append b _ 40 8 (by omega)]

theorem NTCPPhase2_ofBytes_split (y c : Bytes) (hy : y.length = 256) :
    NTCPPhase2.ofBytes (y ++ c) = { pubKey := y, encrypted := NTCPPhase2Encrypted.ofBytes c } := by
  simp only [NTCPPhase2.ofBytes]
  rw [← hy, List.take_left, List.drop_left]

theorem lastWritten_snoc (t : List Effect) (d : Bytes) (h : Handler) :
    ((written (t ++ [Effect.asyncWrite d h])).getLast?).getD [] = d := by
  rw [written_append]
  simp [written]

/-- `HandlePhase1Received` on the Phase 1 record of a client that targets this router,
when DH agreement succeeds. -/
theorem HandlePhase1Received_ok (e : Env) (now : Nat) (s : NTCPSession) (x d : Bytes)
    (hx : x.length = 256) (hd : d = e.sha256 x) :
    HandlePhase1Received e now s false
        (x ++ (List.range 32).map (fun i => d.getD i 0 ^^^ e.identHash.getD i 0)) =
      SendPhase2 e now
        { s with m_Phase1 :=
          { pubKey := x,
            HXxorHI := (List.range 32).map (fun i => d.getD i 0 ^^^ e.identHash.getD i 0) } } := by
  have hp : NTCPPhase1.ofBytes (recvInto
      (x ++ (List.range 32).map (fun i => d.getD i 0 ^^^ e.identHash.getD i 0))
      s.m_Phase1.toBytes)
      = { pubKey := x,
          HXxorHI := (List.range 32).map (fun i => d.getD i 0 ^^^ e.identHash.getD i 0) } := by
    rw [NTCPPhase1_ofBytes_recvInto _ _ (by simp [hx])]
    have := NTCPPhase1_ofBytes_toBytes
      { pubKey := x,
        HXxorHI := (List.range 32).map (fun i => d.getD i 0 ^^^ e.identHash.getD i 0) } []
      hx (by simp)
    simpa [NTCPPhase1.toBytes] using this
  simp only [HandlePhase1Received, hp, Bool.false_eq_true, if_false, ← hd, ident_check_pass,
    if_true]

/-! ## The honest handshake, step by step -/

/-- `SendPhase2` when DH agreement succeeds. -/
theorem SendPhase2_ok (e : Env) (now : Nat) (s : NTCPSession) (secret : Bytes)
    (hdh : e.dhAgree e.privateKey s.m_Phase1.pubKey = some secret)
    (hsecret : secret.length = 256) :
    SendPhase2 e now s =
      { s with
        m_Phase2 :=
          { pubKey := e.routerIdentity.publicKey,
            encrypted := NTCPPhase2Encrypted.ofBytes
              (encryptData e
                (some { key := aes_key_from_secret secret,
                        iv := (e.routerIdentity.publicKey.drop 240).take 16 })
                (NTCPPhase2Encrypted.toBytes
                  { hxy := e.sha256 (s.m_Phase1.pubKey ++ e.routerIdentity.publicKey),
                    timestamp := htobe32 now,
                    filler := s.m_Phase2.encrypted.filler })).2 },
        m_Encryption :=
          (encryptData e
            (some { key := aes_key_from_secret secret,
                    iv := (e.routerIdentity.publicKey.drop 240).take 16 })
            (NTCPPhase2Encrypted.toBytes
              { hxy := e.sha256 (s.m_Phase1.pubKey ++ e.routerIdentity.publicKey),
                timestamp := htobe32 now,
                filler := s.m_Phase2.encrypted.filler })).1,
        m_Decryption :=
          some { key := aes_key_from_secret secret,
                 iv := (s.m_Phase1.HXxorHI.drop 16).take 16 },
        trace := s.trace ++
          [Effect.asyncWrite
            (e.routerIdentity.publicKey ++
              (NTCPPhase2Encrypted.ofBytes
                (encryptData e
                  (some { key := aes_key_from_secret secret,
                          iv := (e.routerIdentity.publicKey.drop 240).take 16 })
                  (NTCPPhase2Encrypted.toBytes
                    { hxy := e.sha256 (s.m_Phase1.pubKey ++ e.routerIdentity.publicKey),
                      timestamp := htobe32 now,
                      filler := s.m_Phase2.encrypted.filler })).2).toBytes)
            (Handler.HandlePhase2Sent (htobe32 now))],
        pending := s.pending ++ [Handler.HandlePhase2Sent (htobe32 now)] } := by
  simp only [SendPhase2, SetKeyWithIV, async_write, NTCPPhase2.toBytes]
  obtain ⟨h1, h2⟩ := CreateAESKey_ok e
    { s with m_Phase2 :=
      { pubKey := e.routerIdentity.publicKey,
        encrypted := { hxy := e.sha256 (s.m_Phase1.pubKey ++ e.routerIdentity.publicKey),
                       timestamp := htobe32 now,
                       filler := s.m_Phase2.encrypted.filler } } }
    s.m_Phase1.pubKey e.stackAesKey secret hdh hsecret
  rw [h2, h1]

/-! ## The server answers Phase 1 -/

theorem honest_server_phase2 (es : Env) (tB : Nat) (s0 : NTCPSession) (x d secret : Bytes)
    (hx : x.length = 256) (hd : d = es.sha256 x)
    (hY : es.routerIdentity.publicKey.length = 256)
    (hfiller : s0.m_Phase2.encrypted.filler.length = 12)
    (hidle : s0.pending = [])
    (hshaLen : ∀ m : Bytes, (es.sha256 m).length = 32)
    (hdh : es.dhAgree es.privateKey x = some secret) (hsecret : secret.length = 256)
    (hlen : ∀ k b : Bytes, b.length = 16 → (es.aesEncryptBlock k b).length = 16)
    (hinv : ∀ k b : Bytes, b.length = 16 → es.aesDecryptBlock k (es.aesEncryptBlock k b) = b) :
    ∃ (c2 : Bytes) (st : Option CBC),
      encryptData es
          (some { key := aes_key_from_secret secret,
                  iv := (es.routerIdentity.publicKey.drop 240).take 16 })
          (NTCPPhase2Encrypted.toBytes
            { hxy := es.sha256 (x ++ es.routerIdentity.publicKey), timestamp := htobe32 tB,
              filler := s0.m_Phase2.encrypted.filler }) = (st, c2)
      ∧ c2.length = 48
      ∧ fire es tB (ServerLogin s0) false
          (x ++ (List.range 32).map (fun i => d.getD i 0 ^^^ es.identHash.getD i 0)) =
        { s0 with
          m_Phase1 :=
            { pubKey := x,
              HXxorHI := (List.range 32).map (fun i => d.getD i 0 ^^^ es.identHash.getD i 0) },
          m_Phase2 :=
            { pubKey := es.routerIdentity.publicKey,
              encrypted := NTCPPhase2Encrypted.ofBytes c2 },
          m_Encryption := st,
          m_Decryption := some
            { key := aes_key_from_secret secret,
              iv := (((List.range 32).map
                (fun i => d.getD i 0 ^^^ es.identHash.getD i 0)).drop 16).take 16 },
          trace := s0.trace ++ [Effect.asyncRead 288 Handler.HandlePhase1Received]
            ++ [Effect.asyncWrite (es.routerIdentity.publicKey ++ c2)
                (Handler.HandlePhase2Sent (htobe32 tB))],
          pending := [Handler.HandlePhase2Sent (htobe32 tB)] } := by
  have hE2 : (NTCPPhase2Encrypted.toBytes
      { hxy := es.sha256 (x ++ es.routerIdentity.publicKey), timestamp := htobe32 tB,
        filler := s0.m_Phase2.encrypted.filler }).length = 16 * 3 := by
    exact NTCPPhase2Encrypted_length_toBytes
      { hxy := es.sha256 (x ++ es.routerIdentity.publicKey), timestamp := htobe32 tB,
        filler := s0.m_Phase2.encrypted.filler } (hshaLen _) rfl hfiller
  obtain ⟨h1, -, -⟩ := encrypt_decrypt es es
    { key := aes_key_from_secret secret, iv := (es.routerIdentity.publicKey.drop 240).take 16 }
    _ 3 hE2 (by simp [hY]) (hinv _) (hlen _)
  rw [hE2] at h1
  refine ⟨_, _, rfl, h1, ?_⟩
  simp only [fire, ServerLogin, async_read, hidle, List.nil_append, dispatch]
  rw [HandlePhase1Received_ok es tB _ x d hx hd, SendPhase2_ok es tB _ secret hdh hsecret]
  simp only [NTCPPhase2Encrypted_toBytes_ofBytes _ h1, List.nil_append]
  rfl

/-! ## The later phases when the checks pass -/

/-- `HandlePhase2Received` on a Phase 2 message whose encrypted block decrypts to a
record carrying `SHA256 (X ‖ Y)`, when DH agreement succeeds. -/
theorem HandlePhase2Received_ok (e : Env) (now : Nat) (s : NTCPSession) (y c2 secret : Bytes)
    (plain : NTCPPhase2Encrypted) (st : Option CBC)
    (hy : y.length = 256) (hc : c2.length = 48)
    (hdh : e.dhAgree e.privateKey y = some secret) (hsecret : secret.length = 256)
    (hdec : decryptData e
      (some { key := aes_key_from_secret secret, iv := (y.drop 240).take 16 }) c2
        = (st, plain.toBytes))
    (h1 : plain.hxy.length = 32) (h2 : plain.timestamp.length = 4)
    (h3 : plain.filler.length = 12)
    (hhxy : (e.sha256 (e.routerIdentity.publicKey ++ y)).take 32 = plain.hxy.take 32) :
    HandlePhase2Received e now s false (y ++ c2) =
      SendPhase3 e now
        { s with
          m_Phase2 := { pubKey := y, encrypted := plain },
          m_Decryption := st,
          m_Encryption := some
            { key := aes_key_from_secret secret,
              iv := (s.m_Phase1.HXxorHI.drop 16).take 16 } } := by
  have hp : NTCPPhase2.ofBytes (recvInto (y ++ c2) s.m_Phase2.toBytes)
      = { pubKey := y, encrypted := NTCPPhase2Encrypted.ofBytes c2 } := by
    rw [NTCPPhase2_ofBytes_recvInto _ _ (by simp [hy, hc]), NTCPPhase2_ofBytes_split y c2 hy]
  obtain ⟨hk1, hk2⟩ := CreateAESKey_ok e
    { s with m_Phase2 := { pubKey := y, encrypted := NTCPPhase2Encrypted.ofBytes c2 } }
    y e.stackAesKey secret hdh hsecret
  have hpl := NTCPPhase2Encrypted_ofBytes_toBytes plain [] h1 h2 h3
  rw [List.append_nil] at hpl
  simp only [HandlePhase2Received, hp, Bool.false_eq_true, if_false, SetKeyWithIV, hk1, hk2,
    NTCPPhase2Encrypted_toBytes_ofBytes c2 hc, hdec, hpl, ne_eq, hhxy, not_true_eq_false]

/-- `HandlePhase3Received` on a Phase 3 message that decrypts to a record whose signature
verifies. -/
theorem HandlePhase3Received_ok (e : Env) (s : NTCPSession) (c3 tsB : Bytes)
    (plain : NTCPPhase3) (st : Option CBC) (hc : c3.length = 448)
    (hdec : decryptData e s.m_Decryption c3 = (st, plain.toBytes))
    (h1 : plain.size.length = 2) (hi1 : plain.ident.publicKey.length = 256)
    (hi2 : plain.ident.signingKey.length = 128) (hi3 : plain.ident.certificate.length = 3)
    (h3 : plain.timestamp.length = 4) (h4 : plain.signature.length = 40)
    (h5 : plain.padding.length = 15)
    (hverify : e.dsaVerify plain.ident.signingKey
      (SignedData.toBytes
        { x := s.m_Phase1.pubKey, y := s.m_Phase2.pubKey, ident := e.identHash,
          tsA := plain.timestamp, tsB := tsB })
      plain.signature = true) :
    HandlePhase3Received e s false c3 tsB =
      SendPhase4 e
        { s with
          m_Decryption := st,
          m_Phase3 := plain,
          m_RemoteRouterInfo :=
            { routerIdentity := plain.ident, identHash := e.sha256 plain.ident.toBytes } }
        tsB := by
  have hpl := NTCPPhase3_ofBytes_toBytes plain [] h1 hi1 hi2 hi3 h3 h4 h5
  rw [List.append_nil] at hpl
  simp only [HandlePhase3Received, NTCPPhase3_ofBytes_recvInto c3 _ hc, Bool.false_eq_true,
    if_false, NTCPPhase3_toBytes_ofBytes c3 hc, hdec, hpl, RouterInfo.SetRouterIdentity, hverify,
    Bool.not_true]

/-- `HandlePhase4Received` on a Phase 4 message that decrypts to a record whose signature
verifies: the session is established and `Terminate` is not called. -/
theorem HandlePhase4Received_ok (e : Env) (now : Nat) (s : NTCPSession) (c4 tsA : Bytes)
    (plain : NTCPPhase4) (st : Option CBC) (hc : c4.length = 48)
    (hdec : decryptData e s.m_Decryption c4 = (st, plain.toBytes))
    (h1 : plain.signature.length = 40) (h2 : plain.padding.length = 8)
    (hverify : e.dsaVerify s.m_RemoteRouterInfo.routerIdentity.signingKey
      (SignedData.toBytes
        { x := s.m_Phase1.pubKey, y := s.m_Phase2.pubKey, ident := e.identHash,
          tsA := tsA, tsB := s.m_Phase2.encrypted.timestamp })
      plain.signature = true) :
    (HandlePhase4Received e now s false c4 tsA).m_IsEstablished = true
    ∧ socketCloses (HandlePhase4Received e now s false c4 tsA).trace = socketCloses s.trace
    ∧ registryRemovals (HandlePhase4Received e now s false c4 tsA).trace
        = registryRemovals s.trace := by
  have hpl := NTCPPhase4_ofBytes_toBytes plain [] h1 h2
  rw [List.append_nil] at hpl
  simp only [HandlePhase4Received, NTCPPhase4_ofBytes_recvInto c4 _ hc, Bool.false_eq_true,
    if_false, NTCPPhase4_toBytes_ofBytes c4 hc, hdec, hpl, hverify, Bool.not_true,
    SendTimeSyncMessage, SendMessage, Send, Receive, socketCloses_append,
    registryRemovals_append]
  refine ⟨trivial, ?_, ?_⟩
  · simp [socketCloses]
  · simp [registryRemovals]

/-! ## C8: the honest handshake completes -/

theorem honest_client_phase1 (ec : Env) (c0 : NTCPSession) (hidle : c0.pending = []) :
    fire ec 0 (Connect c0) false [] =
      { c0 with
        m_Phase1 :=
          { pubKey := ec.routerIdentity.publicKey,
            HXxorHI := (List.range 32).map
              (fun i => (ec.sha256 ec.routerIdentity.publicKey).getD i 0
                ^^^ c0.m_RemoteRouterInfo.identHash.getD i 0) },
        trace := c0.trace ++ [Effect.asyncConnect]
          ++ [Effect.asyncWrite
                (ec.routerIdentity.publicKey ++ (List.range 32).map
                  (fun i => (ec.sha256 ec.routerIdentity.publicKey).getD i 0
                    ^^^ c0.m_RemoteRouterInfo.identHash.getD i 0))
                Handler.HandlePhase1Sent],
        pending := [Handler.HandlePhase1Sent] } := by
  simp only [fire, Connect, hidle, List.nil_append, dispatch, HandleConnect, ClientLogin,
    async_write, Bool.false_eq_true, if_false, NTCPPhase1.toBytes]

theorem socketCloses_snoc_other (t : List Effect) (ev : Effect) (h : ev ≠ Effect.socketClose) :
    socketCloses (t ++ [ev]) = socketCloses t := by
  simp only [socketCloses, List.count_append, List.count_cons, List.count_nil]
  simp [h]

/-- C8: the honest handshake completes. A client session whose stored peer router info
is the server's and a server session exchange Phase 1 to Phase 4 unmodified over sockets
that never fail (`honestRun`). If DH agreement yields the same 256-byte secret on both
sides, the AES block functions of the two routers agree and are inverse to each other,
SHA-256 is the same 32-byte digest on both sides, and DSA verification accepts a 40-byte
signature made by the matching key over the same message, then every check passes:
both sessions end with `m_IsEstablished = true` and neither calls `Terminate`. The
lengths are those of the records (256-byte public keys, 387-byte identity, fillers and
paddings as laid out). -/
theorem honest_handshake_completes (ec es : Env) (tA tB tC : Nat) (c0 s0 : NTCPSession)
    (secret : Bytes)
    (hX : ec.routerIdentity.publicKey.length = 256)
    (hXs : ec.routerIdentity.signingKey.length = 128)
    (hXc : ec.routerIdentity.certificate.length = 3)
    (hY : es.routerIdentity.publicKey.length = 256)
    (hfiller : s0.m_Phase2.encrypted.filler.length = 12)
    (hpad3 : c0.m_Phase3.padding.length = 15)
    (hpad4 : s0.m_Phase4.padding.length = 8)
    (hidleC : c0.pending = []) (hidleS : s0.pending = [])
    (hremote : c0.m_RemoteRouterInfo.routerIdentity = es.routerIdentity)
    (hremoteHash : c0.m_RemoteRouterInfo.identHash = es.identHash)
    (hownHash : ec.identHash = ec.sha256 ec.routerIdentity.toBytes)
    (hsha : ec.sha256 = es.sha256) (hshaLen : ∀ m : Bytes, (es.sha256 m).length = 32)
    (hdhC : ec.dhAgree ec.privateKey es.routerIdentity.publicKey = some secret)
    (hdhS : es.dhAgree es.privateKey ec.routerIdentity.publicKey = some secret)
    (hsecret : secret.length = 256)
    (haesE : ec.aesEncryptBlock = es.aesEncryptBlock)
    (haesD : ec.aesDecryptBlock = es.aesDecryptBlock)
    (hinv : ∀ k b : Bytes, b.length = 16 → es.aesDecryptBlock k (es.aesEncryptBlock k b) = b)
    (hlen : ∀ k b : Bytes, b.length = 16 → (es.aesEncryptBlock k b).length = 16)
    (hsignC : ∀ m : Bytes, (ec.sign m).length = 40)
    (hsignS : ∀ m : Bytes, (es.sign m).length = 40)
    (hdsaS : ∀ m : Bytes, es.dsaVerify ec.routerIdentity.signingKey m (ec.sign m) = true)
    (hdsaC : ∀ m : Bytes, ec.dsaVerify es.routerIdentity.signingKey m (es.sign m) = true) :
    (honestRun ec es tA tB tC c0 s0).1.m_IsEstablished = true
    ∧ (honestRun ec es tA tB tC c0 s0).2.m_IsEstablished = true
    ∧ socketCloses (honestRun ec es tA tB tC c0 s0).1.trace = socketCloses c0.trace
    ∧ socketCloses (honestRun ec es tA tB tC c0 s0).2.trace = socketCloses s0.trace := by
  have hinvSC : ∀ k b : Bytes, b.length = 16 →
      ec.aesDecryptBlock k (es.aesEncryptBlock k b) = b := by rw [haesD]; exact hinv
  have hinvCS : ∀ k b : Bytes, b.length = 16 →
      es.aesDecryptBlock k (ec.aesEncryptBlock k b) = b := by rw [haesE]; exact hinv
  have hlenC : ∀ k b : Bytes, b.length = 16 → (ec.aesEncryptBlock k b).length = 16 := by
    rw [haesE]; exact hlen
  -- the states of the run, one by one
  obtain ⟨c1, hc1⟩ : ∃ c1, c1 = fire ec 0 (Connect c0) false [] := ⟨_, rfl⟩
  obtain ⟨s1, hs1⟩ : ∃ s1, s1 = ServerLogin s0 := ⟨_, rfl⟩
  obtain ⟨c2, hc2⟩ : ∃ c2, c2 = fire ec 0 c1 false [] := ⟨_, rfl⟩
  obtain ⟨s2, hs2⟩ : ∃ s2, s2 = fire es tB s1 false (lastWritten c1) := ⟨_, rfl⟩
  obtain ⟨s3, hs3⟩ : ∃ s3, s3 = fire es 0 s2 false [] := ⟨_, rfl⟩
  obtain ⟨c3, hc3⟩ : ∃ c3, c3 = fire ec tA c2 false (lastWritten s2) := ⟨_, rfl⟩
  obtain ⟨c4, hc4⟩ : ∃ c4, c4 = fire ec 0 c3 false [] := ⟨_, rfl⟩
  obtain ⟨s4, hs4⟩ : ∃ s4, s4 = fire es 0 s3 false (lastWritten c3) := ⟨_, rfl⟩
  obtain ⟨s5, hs5⟩ : ∃ s5, s5 = fire es 0 s4 false [] := ⟨_, rfl⟩
  obtain ⟨c5, hc5⟩ : ∃ c5, c5 = fire ec tC c4 false (lastWritten s4) := ⟨_, rfl⟩
  have hrun : honestRun ec es tA tB tC c0 s0 = (c5, s5) := by
    simp only [honestRun]
    rw [← hc1, ← hs1, ← hc2, ← hs2, ← hs3, ← hc3, ← hc4, ← hs4, ← hs5, ← hc5]
  rw [hrun]
  simp only
  -- Phase 1
  rw [honest_client_phase1 ec c0 hidleC, hsha, hremoteHash] at hc1
  have hlw1 : lastWritten c1 = ec.routerIdentity.publicKey ++ (List.range 32).map
      (fun i => (es.sha256 ec.routerIdentity.publicKey).getD i 0 ^^^ es.identHash.getD i 0) := by
    rw [hc1]; exact lastWritten_snoc _ _ _
  rw [hc1] at hc2
  simp only [fire, dispatch, HandlePhase1Sent, async_read, Bool.false_eq_true, if_false,
    List.nil_append] at hc2
  -- Phase 2, server
  obtain ⟨c2b, stE, hE, hc2len, hs2e⟩ := honest_server_phase2 es tB s0
    ec.routerIdentity.publicKey (es.sha256 ec.routerIdentity.publicKey) secret hX rfl hY hfiller
    hidleS hshaLen hdhS hsecret hlen hinv
  rw [hs1, hlw1, hs2e] at hs2
  have hlw2 : lastWritten s2 = es.routerIdentity.publicKey ++ c2b := by
    rw [hs2]; exact lastWritten_snoc _ _ _
  rw [hs2] at hs3
  simp only [fire, dispatch, HandlePhase2Sent, async_read, Bool.false_eq_true, if_false,
    List.nil_append] at hs3
  -- Phase 2, client
  have hE2len : (NTCPPhase2Encrypted.toBytes
      { hxy := es.sha256 (ec.routerIdentity.publicKey ++ es.routerIdentity.publicKey),
        timestamp := htobe32 tB, filler := s0.m_Phase2.encrypted.filler }).length = 16 * 3 :=
    NTCPPhase2Encrypted_length_toBytes
      { hxy := es.sha256 (ec.routerIdentity.publicKey ++ es.routerIdentity.publicKey),
        timestamp := htobe32 tB, filler := s0.m_Phase2.encrypted.filler } (hshaLen _) rfl hfiller
  obtain ⟨-, hdecE, iv2, hst, hiv2⟩ := encrypt_decrypt es ec
    { key := aes_key_from_secret secret, iv := (es.routerIdentity.publicKey.drop 240).take 16 }
    _ 3 hE2len (by simp [hY]) (hinvSC _) (hlen _)
  rw [hE] at hdecE hst
  simp only at hdecE hst
  rw [hc2, hlw2] at hc3
  simp only [fire, dispatch] at hc3
  rw [HandlePhase2Received_ok ec tA _ es.routerIdentity.publicKey c2b secret
    { hxy := es.sha256 (ec.routerIdentity.publicKey ++ es.routerIdentity.publicKey),
      timestamp := htobe32 tB, filler := s0.m_Phase2.encrypted.filler } stE hY hc2len hdhC
    hsecret hdecE (hshaLen _) rfl hfiller (by rw [hsha])] at hc3
  simp only [SendPhase3, async_write, hremoteHash, List.nil_append] at hc3
  -- Phase 3
  obtain ⟨kHX, hkHX⟩ : ∃ k : CBC, k =
      { key := aes_key_from_secret secret,
        iv := (((List.range 32).map (fun i => (es.sha256 ec.routerIdentity.publicKey).getD i 0
          ^^^ es.identHash.getD i 0)).drop 16).take 16 } := ⟨_, rfl⟩
  obtain ⟨p3, hp3⟩ : ∃ p : NTCPPhase3, p =
      { size := htobe16 387, ident := ec.routerIdentity, timestamp := htobe32 tA,
        signature := ec.sign (SignedData.toBytes
          { x := ec.routerIdentity.publicKey, y := es.routerIdentity.publicKey,
            ident := es.identHash, tsA := htobe32 tA, tsB := htobe32 tB }),
        padding := c0.m_Phase3.padding } := ⟨_, rfl⟩
  rw [← hkHX, ← hp3] at hc3
  rw [← hkHX] at hs2 hs3
  have hp3len : p3.toBytes.length = 16 * 28 := by
    rw [hp3]
    exact NTCPPhase3_length_toBytes _ rfl hX hXs hXc rfl (hsignC _) hpad3
  have hkiv : kHX.iv.length = 16 := by rw [hkHX]; simp
  obtain ⟨hc3len, hdec3, -⟩ := encrypt_decrypt ec es kHX p3.toBytes 28 hp3len hkiv
    (hinvCS _) (hlenC _)
  obtain ⟨⟨stE3, c3b⟩, hr3⟩ : ∃ r, encryptData ec (some kHX) p3.toBytes = r := ⟨_, rfl⟩
  rw [hr3] at hc3 hc3len hdec3
  simp only at hc3 hc3len hdec3
  rw [hp3len] at hc3len
  rw [NTCPPhase3_toBytes_ofBytes c3b hc3len] at hc3
  have hlw3 : lastWritten c3 = c3b := by
    rw [hc3]; exact lastWritten_snoc _ _ _
  rw [hc3] at hc4
  simp only [fire, dispatch, HandlePhase3Sent, async_read, Bool.false_eq_true, if_false,
    List.nil_append] at hc4
  rw [hs3, hlw3] at hs4
  simp only [fire, dispatch] at hs4
  rw [HandlePhase3Received_ok es _ c3b (htobe32 tB) p3 stE3 hc3len hdec3
    (by rw [hp3]; rfl) (by rw [hp3]; exact hX) (by rw [hp3]; exact hXs)
    (by rw [hp3]; exact hXc) (by rw [hp3]; rfl) (by rw [hp3]; exact hsignC _)
    (by rw [hp3]; exact hpad3)
    (by rw [hp3]; exact hdsaS _)] at hs4
  simp only [SendPhase4, async_write, List.nil_append] at hs4
  -- Phase 4
  obtain ⟨p4, hp4⟩ : ∃ p : NTCPPhase4, p =
      { signature := es.sign (SignedData.toBytes
          { x := ec.routerIdentity.publicKey, y := es.routerIdentity.publicKey,
            ident := es.sha256 p3.ident.toBytes, tsA := p3.timestamp, tsB := htobe32 tB }),
        padding := s0.m_Phase4.padding } := ⟨_, rfl⟩
  rw [← hp4] at hs4
  have hp4len : p4.toBytes.length = 16 * 3 := by
    rw [hp4]
    simp only [NTCPPhase4.toBytes, List.length_append, hsignS, hpad4]
  rw [hst] at hs4 hc4
  obtain ⟨hc4len, hdec4, -⟩ := encrypt_decrypt es ec
    { key := aes_key_from_secret secret, iv := iv2 } p4.toBytes 3 hp4len hiv2
    (hinvSC _) (hlen _)
  obtain ⟨⟨stE4, c4b⟩, hr4⟩ : ∃ r, encryptData es
      (some { key := aes_key_from_secret secret, iv := iv2 }) p4.toBytes = r := ⟨_, rfl⟩
  rw [hr4] at hs4 hc4len hdec4
  simp only at hs4 hc4len hdec4
  rw [hp4len] at hc4len
  rw [NTCPPhase4_toBytes_ofBytes c4b hc4len] at hs4
  have hlw4 : lastWritten s4 = c4b := by
    rw [hs4]; exact lastWritten_snoc _ _ _
  rw [hs4] at hs5
  simp only [fire, dispatch, HandlePhase4Sent, Receive, Bool.false_eq_true, if_false] at hs5
  rw [hc4, hlw4] at hc5
  simp only [fire, dispatch] at hc5
  obtain ⟨he, hcl, -⟩ := HandlePhase4Received_ok ec tC
    { c0 with
      m_Decryption := some { key := aes_key_from_secret secret, iv := iv2 },
      m_Encryption := stE3,
      m_Phase1 :=
        { pubKey := ec.routerIdentity.publicKey,
          HXxorHI := (List.range 32).map
            (fun i => (es.sha256 ec.routerIdentity.publicKey).getD i 0
              ^^^ es.identHash.getD i 0) },
      m_Phase2 :=
        { pubKey := es.routerIdentity.publicKey,
          encrypted :=
            { hxy := es.sha256 (ec.routerIdentity.publicKey ++ es.routerIdentity.publicKey),
              timestamp := htobe32 tB, filler := s0.m_Phase2.encrypted.filler } },
      m_Phase3 := NTCPPhase3.ofBytes c3b,
      trace := c0.trace ++ [Effect.asyncConnect]
        ++ [Effect.asyncWrite
              (ec.routerIdentity.publicKey ++ (List.range 32).map
                (fun i => (es.sha256 ec.routerIdentity.publicKey).getD i 0
                  ^^^ es.identHash.getD i 0))
              Handler.HandlePhase1Sent]
        ++ [Effect.asyncRead 304 Handler.HandlePhase2Received]
        ++ [Effect.asyncWrite c3b (Handler.HandlePhase3Sent (htobe32 tA))]
        ++ [Effect.asyncRead 48 (Handler.HandlePhase4Received (htobe32 tA))],
      pending := [] }
    c4b (htobe32 tA) p4 stE4 hc4len hdec4 (by rw [hp4]; exact hsignS _)
    (by rw [hp4]; exact hpad4)
    (by
      rw [hp4, hp3, hownHash, hsha]
      simp only
      rw [hremote]
      exact hdsaC _)
  rw [← hc5] at he hcl
  refine ⟨he, ?_, ?_, ?_⟩
  · rw [hs5]
  · rw [hcl]
    simp only [socketCloses_append]
    rfl
  · rw [hs5]
    simp only [socketCloses_append]
    rfl

theorem demo_sha_length (m : Bytes) : (demoEnv.sha256 m).length = 32 := by
  show (demoDigest m).length = 32
  simp only [demoDigest, List.length_map, List.length_range]

theorem demo_sign_length (m : Bytes) : (demoEnv.sign m).length = 40 := by
  show (demoSignature m).length = 40
  simp only [demoSignature, List.length_map, List.length_range]

theorem demo_verify (k m : Bytes) : demoEnv.dsaVerify k m (demoEnv.sign m) = true := by
  show (demoSignature m == demoSignature m) = true
  exact beq_self_eq_true _

theorem honest_handshake_completes_witness :
    (honestRun demoClientEnv demoEnv 1000 2000 3000 demoSession demoSession).1.m_IsEstablished
        = true
    ∧ (honestRun demoClientEnv demoEnv 1000 2000 3000 demoSession demoSession).2.m_IsEstablished
        = true
    ∧ socketCloses (honestRun demoClientEnv demoEnv 1000 2000 3000 demoSession demoSession).1.trace
        = socketCloses demoSession.trace
    ∧ socketCloses (honestRun demoClientEnv demoEnv 1000 2000 3000 demoSession demoSession).2.trace
        = socketCloses demoSession.trace :=
  honest_handshake_completes demoClientEnv demoEnv 1000 2000 3000 demoSession demoSession
    (List.replicate 256 200)
    (List.length_replicate _ _) (List.length_replicate _ _) rfl (List.length_replicate _ _)
    (List.length_replicate _ _) (List.length_replicate _ _) (List.length_replicate _ _)
    rfl rfl rfl rfl (by simp only [demoClientEnv, demoEnv]) rfl
    demo_sha_length rfl rfl
    (List.length_replicate _ _) rfl rfl demo_inverse_all demo_length_all
    demo_sign_length demo_sign_length (demo_verify demoClientEnv.routerIdentity.signingKey)
    (demo_verify demoEnv.routerIdentity.signingKey)

set_option maxRecDepth 100000 in
theorem failed_check_stops_handshake_witness :
    (socketCloses (HandlePhase1Received demoEnv 0 demoSession false (List.replicate 448 0)).trace
        = socketCloses demoSession.trace + 1
      ∧ registryRemovals
          (HandlePhase1Received demoEnv 0 demoSession false (List.replicate 448 0)).trace
        = registryRemovals demoSession.trace + 1
      ∧ written (HandlePhase1Received demoEnv 0 demoSession false (List.replicate 448 0)).trace
        = written demoSession.trace
      ∧ (HandlePhase1Received demoEnv 0 demoSession false (List.replicate 448 0)).pending
        = demoSession.pending
      ∧ (HandlePhase1Received demoEnv 0 demoSession false (List.replicate 448 0)).m_IsEstablished
        = demoSession.m_IsEstablished)
    ∧ (socketCloses
          (HandlePhase3Received demoEnv demoSession false (List.replicate 448 0) [0]).trace
        = socketCloses demoSession.trace + 1
      ∧ registryRemovals
          (HandlePhase3Received demoEnv demoSession false (List.replicate 448 0) [0]).trace
        = registryRemovals demoSession.trace + 1
      ∧ written (HandlePhase3Received demoEnv demoSession false (List.replicate 448 0) [0]).trace
        = written demoSession.trace
      ∧ (HandlePhase3Received demoEnv demoSession false (List.replicate 448 0) [0]).pending
        = demoSession.pending
      ∧ (HandlePhase3Received demoEnv demoSession false
          (List.replicate 448 0) [0]).m_IsEstablished = demoSession.m_IsEstablished) :=
  ⟨(failed_check_stops_handshake demoEnv 0 demoSession (List.replicate 448 0) [0] [0]).2.1
      (by decide),
   (failed_check_stops_handshake demoEnv 0 demoSession (List.replicate 448 0) [0] [0]).2.2.2.2.2.1
      (by decide)⟩

/-! ## C9: established implies authenticated -/

theorem needsKey_isHandshake (h : Handler) (hk : needsKey h = true) : isHandshake h = true := by
  cases h <;> simp_all [needsKey, isHandshake]

theorem filter_handshake_split (pre post : List Handler) (h : Handler)
    (hh : isHandshake h = true)
    (hlen : ((pre ++ h :: post).filter isHandshake).length ≤ 1) :
    ∀ x ∈ pre ++ post, isHandshake x = false := by
  have e1 : (pre ++ h :: post).filter isHandshake
      = pre.filter isHandshake ++ h :: post.filter isHandshake := by
    simp [List.filter_append, List.filter_cons, hh]
  rw [e1] at hlen
  simp only [List.length_append, List.length_cons] at hlen
  have h1 : pre.filter isHandshake = [] := List.length_eq_zero.mp (by omega)
  have h2 : post.filter isHandshake = [] := List.length_eq_zero.mp (by omega)
  intro x hx
  rw [List.mem_append] at hx
  cases hb : isHandshake x with
  | false => rfl
  | true =>
    rcases hx with hx | hx
    · have : x ∈ pre.filter isHandshake := List.mem_filter.mpr ⟨hx, hb⟩
      rw [h1] at this
      exact absurd this (List.not_mem_nil _)
    · have : x ∈ post.filter isHandshake := List.mem_filter.mpr ⟨hx, hb⟩
      rw [h2] at this
      exact absurd this (List.not_mem_nil _)

theorem filter_eq_nil_of_all_false (l : List Handler)
    (h : ∀ x ∈ l, isHandshake x = false) : l.filter isHandshake = [] := by
  rw [List.filter_eq_nil_iff]
  intro x hx
  simp [h x hx]

theorem boundTsB_append (a b : List Effect) :
    boundTsB (a ++ b) = boundTsB a ++ boundTsB b := by
  simp only [boundTsB, List.filterMap_append]

theorem boundTsA_append (a b : List Effect) :
    boundTsA (a ++ b) = boundTsA a ++ boundTsA b := by
  simp only [boundTsA, List.filterMap_append]

/-- Events that bind no timestamp leave the bound timestamps empty. -/
theorem boundTs_nil (ev : List Effect)
    (hev : ∀ x ∈ ev, boundB x = none ∧ boundA x = none) :
    boundTsB ev = [] ∧ boundTsA ev = [] := by
  induction ev with
  | nil => exact ⟨rfl, rfl⟩
  | cons x r ih =>
    obtain ⟨hb, ha⟩ := hev x (List.mem_cons_self _ _)
    obtain ⟨ib, ia⟩ := ih (fun y hy => hev y (List.mem_cons_of_mem _ hy))
    constructor
    · simp only [boundTsB, List.filterMap_cons, hb]
      exact ib
    · simp only [boundTsA, List.filterMap_cons, ha]
      exact ia

/-- Extending the trace by events that bind no timestamp keeps the bound timestamps. -/
theorem boundTs_mono (s t : NTCPSession) (ev : List Effect)
    (ht : t.trace = s.trace ++ ev)
    (hev : ∀ x ∈ ev, boundB x = none ∧ boundA x = none) :
    boundTsB t.trace = boundTsB s.trace ∧ boundTsA t.trace = boundTsA s.trace := by
  obtain ⟨hb, ha⟩ := boundTs_nil ev hev
  rw [ht, boundTsB_append, boundTsA_append, hb, ha, List.append_nil, List.append_nil]
  exact ⟨rfl, rfl⟩

theorem dhFailureTrace_binds_nothing (e : Env) (pk : Bytes) :
    ∀ x ∈ dhFailureTrace e pk, boundB x = none ∧ boundA x = none := by
  unfold dhFailureTrace
  cases e.dhAgree e.privateKey pk <;> simp [boundB, boundA]

theorem parseEvents_binds_nothing (n : Nat) (buf : Bytes) :
    ∀ x ∈ (parseEvents n buf).1, boundB x = none ∧ boundA x = none := by
  induction n generalizing buf with
  | zero => simp [parseEvents]
  | succ k ih =>
    simp only [parseEvents]
    by_cases h2 : buf.length > 2
    · simp only [if_pos h2]
      by_cases hl : frameLength (be16toh buf) > buf.length
      · simp [if_pos hl]
      · simp only [if_neg hl]
        intro x hx
        rw [List.mem_append] at hx
        rcases hx with hx | hx
        · by_cases hd : be16toh buf ≠ 0
          · rw [if_pos hd, List.mem_singleton] at hx
            rw [hx]
            exact ⟨rfl, rfl⟩
          · rw [if_neg hd, List.mem_singleton] at hx
            rw [hx]
            exact ⟨rfl, rfl⟩
        · exact ih _ x hx
    · simp [if_neg h2]

/-- A handler of the record layer carries no timestamp. -/
theorem tsBound_of_data (tB tA : List Bytes) (h : Handler) (hh : isHandshake h = false) :
    tsBound tB tA h := by
  cases h <;> simp_all [isHandshake, tsBound]

/-- A handshake handler is pending only on a session that is not established. -/
theorem Inv_not_established (e : Env) (s : NTCPSession) (h : Handler) (hinv : Inv e s)
    (hmem : h ∈ s.pending) (hh : isHandshake h = true) : s.m_IsEstablished = false := by
  cases hest : s.m_IsEstablished with
  | false => rfl
  | true =>
    have := hinv.2.2.2.1 hest h hmem
    rw [hh] at this
    exact absurd this (by decide)

/-- A step of the handshake that does not establish the session keeps the invariant. -/
theorem Inv_of_handshake_step (e : Env) (s t : NTCPSession) (pre post new : List Handler)
    (h : Handler) (hinv : Inv e s) (hp : s.pending = pre ++ h :: post)
    (hh : isHandshake h = true)
    (hest : t.m_IsEstablished = s.m_IsEstablished)
    (hpend : t.pending = pre ++ post ++ new)
    (hnew : ∀ x ∈ new, isHandshake x = true) (hnewlen : new.length ≤ 1)
    (hkey : ∀ x ∈ new, needsKey x = true → Keyed t)
    (hver : Handler.HandlePhase4Sent ∈ new → ServerVerified e t)
    (hts : ∀ x ∈ new, tsBound (boundTsB t.trace) (boundTsA t.trace) x)
    (hrecv : ReceiveStarted t → ReceiveStarted s) : Inv e t := by
  have hfalse : s.m_IsEstablished = false :=
    Inv_not_established e s h hinv (by rw [hp]; simp) hh
  have hrest := filter_handshake_split pre post h hh (by rw [← hp]; exact hinv.2.2.2.2.1)
  have htf : t.m_IsEstablished = false := by rw [hest, hfalse]
  refine ⟨?_, ?_, ?_, ?_, ?_, ?_, ?_, ?_⟩
  · intro ht; rw [htf] at ht; exact absurd ht (by decide)
  · intro hr
    have := hinv.2.1 (hrecv hr)
    rw [hfalse] at this; exact absurd this (by decide)
  · intro hm
    rw [hpend, List.mem_append] at hm
    rcases hm with hm | hm
    · have hin : Handler.HandleReceived ∈ s.pending := by
        rw [hp]
        rw [List.mem_append] at hm ⊢
        exact hm.elim Or.inl (fun a => Or.inr (List.mem_cons_of_mem _ a))
      have := hinv.2.2.1 hin
      rw [hfalse] at this; exact absurd this (by decide)
    · have := hnew _ hm
      exact absurd this (by decide)
  · intro ht; rw [htf] at ht; exact absurd ht (by decide)
  · rw [hpend, List.filter_append, filter_eq_nil_of_all_false _ hrest, List.nil_append]
    exact le_trans (List.length_filter_le _ _) hnewlen
  · intro hm
    rw [hpend, List.mem_append] at hm
    rcases hm with hm | hm
    · have := hrest _ hm
      exact absurd this (by decide)
    · exact hver hm
  · intro x hm hk
    rw [hpend, List.mem_append] at hm
    rcases hm with hm | hm
    · have := hrest _ hm
      rw [needsKey_isHandshake x hk] at this
      exact absurd this (by decide)
    · exact hkey x hm hk
  · intro x hm
    rw [hpend, List.mem_append] at hm
    rcases hm with hm | hm
    · exact tsBound_of_data _ _ x (hrest _ hm)
    · exact hts x hm

/-- The step that establishes the session keeps the invariant when the session is keyed
and its peer verified. -/
theorem Inv_of_establish (e : Env) (s t : NTCPSession) (pre post new : List Handler)
    (h : Handler) (hinv : Inv e s) (hp : s.pending = pre ++ h :: post)
    (hh : isHandshake h = true)
    (hest : t.m_IsEstablished = true) (hkeyed : Keyed t)
    (hver : ServerVerified e t ∨ ClientVerified e t)
    (hpend : t.pending = pre ++ post ++ new)
    (hnew : ∀ x ∈ new, isHandshake x = false) : Inv e t := by
  have hrest := filter_handshake_split pre post h hh (by rw [← hp]; exact hinv.2.2.2.2.1)
  have hall : ∀ x ∈ t.pending, isHandshake x = false := by
    intro x hx
    rw [hpend, List.mem_append] at hx
    rcases hx with hx | hx
    · exact hrest x hx
    · exact hnew x hx
  refine ⟨fun _ => ⟨hkeyed, hver⟩, fun _ => hest, fun _ => hest, fun _ => hall, ?_, ?_, ?_,
    ?_⟩
  · rw [filter_eq_nil_of_all_false _ hall]; simp
  · intro hm
    have := hall _ hm
    exact absurd this (by decide)
  · intro x hm hk
    have := hall _ hm
    rw [needsKey_isHandshake x hk] at this
    exact absurd this (by decide)
  · intro x hm
    exact tsBound_of_data _ _ x (hall _ hm)

/-- A step of the record layer (a data read or write completing, or the upper layer
sending) keeps the invariant: it leaves the handshake records, the peer identity and
the bound timestamps as they are, keeps the ciphers keyed and binds no handshake
handler. -/
theorem Inv_of_data_step (e : Env) (s t : NTCPSession) (base new : List Handler)
    (hinv : Inv e s) (hsub : ∀ x ∈ base, x ∈ s.pending)
    (hfl : (base.filter isHandshake).length ≤ (s.pending.filter isHandshake).length)
    (hest : t.m_IsEstablished = s.m_IsEstablished)
    (hkeyed : Keyed s → Keyed t)
    (hr : t.m_RemoteRouterInfo = s.m_RemoteRouterInfo)
    (h1 : t.m_Phase1 = s.m_Phase1) (h2 : t.m_Phase2 = s.m_Phase2)
    (h3 : t.m_Phase3 = s.m_Phase3) (h4 : t.m_Phase4 = s.m_Phase4)
    (hts : boundTsB t.trace = boundTsB s.trace ∧ boundTsA t.trace = boundTsA s.trace)
    (hpend : t.pending = base ++ new)
    (hnew : ∀ x ∈ new, x = Handler.HandleSent
      ∨ (x = Handler.HandleReceived ∧ s.m_IsEstablished = true))
    (hrecv : ReceiveStarted t → ReceiveStarted s ∨ s.m_IsEstablished = true) : Inv e t := by
  have hsv : ServerVerified e s → ServerVerified e t := by
    intro ⟨tsB, hb, hv⟩
    exact ⟨tsB, by rw [hts.1]; exact hb, by rw [hr, h1, h2, h3]; exact hv⟩
  have hcv : ClientVerified e s → ClientVerified e t := by
    intro ⟨tsA, ha, hv⟩
    exact ⟨tsA, by rw [hts.2]; exact ha, by rw [hr, h1, h2, h4]; exact hv⟩
  have hnh : ∀ x ∈ new, isHandshake x = false := by
    intro x hx
    rcases hnew x hx with rfl | ⟨rfl, -⟩ <;> rfl
  refine ⟨?_, ?_, ?_, ?_, ?_, ?_, ?_, ?_⟩
  · intro ht
    rw [hest] at ht
    obtain ⟨hk, hv⟩ := hinv.1 ht
    exact ⟨hkeyed hk, hv.elim (fun a => Or.inl (hsv a)) (fun a => Or.inr (hcv a))⟩
  · intro hrs
    rw [hest]
    rcases hrecv hrs with a | a
    · exact hinv.2.1 a
    · exact a
  · intro hm
    rw [hest]
    rw [hpend, List.mem_append] at hm
    rcases hm with hm | hm
    · exact hinv.2.2.1 (hsub _ hm)
    · rcases hnew _ hm with hx | ⟨-, hx⟩
      · exact absurd hx (by decide)
      · exact hx
  · intro ht x hx
    rw [hest] at ht
    rw [hpend, List.mem_append] at hx
    rcases hx with hx | hx
    · exact hinv.2.2.2.1 ht x (hsub _ hx)
    · exact hnh x hx
  · rw [hpend, List.filter_append, filter_eq_nil_of_all_false _ hnh, List.append_nil]
    exact le_trans hfl hinv.2.2.2.2.1
  · intro hm
    rw [hpend, List.mem_append] at hm
    rcases hm with hm | hm
    · exact hsv (hinv.2.2.2.2.2.1 (hsub _ hm))
    · have := hnh _ hm
      exact absurd this (by decide)
  · intro x hm hk
    rw [hpend, List.mem_append] at hm
    rcases hm with hm | hm
    · exact hkeyed (hinv.2.2.2.2.2.2.1 x (hsub _ hm) hk)
    · have := hnh _ hm
      rw [needsKey_isHandshake x hk] at this
      exact absurd this (by decide)
  · intro x hm
    rw [hpend, List.mem_append] at hm
    rcases hm with hm | hm
    · rw [hts.1, hts.2]
      exact hinv.2.2.2.2.2.2.2 x (hsub _ hm)
    · exact tsBound_of_data _ _ x (hnh _ hm)

theorem ReceiveStarted_mono (s t : NTCPSession) (ev : List Effect)
    (ht : t.trace = s.trace ++ ev)
    (hev : ∀ x ∈ ev, ∀ cap h, x ≠ Effect.asyncReadSome cap h)
    (hr : ReceiveStarted t) : ReceiveStarted s := by
  obtain ⟨cap, h, hm⟩ := hr
  rw [ht, List.mem_append] at hm
  rcases hm with hm | hm
  · exact ⟨cap, h, hm⟩
  · exact absurd rfl (hev _ hm cap h)

theorem dhFailureTrace_no_receive (e : Env) (pk : Bytes) :
    ∀ x ∈ dhFailureTrace e pk, ∀ cap h, x ≠ Effect.asyncReadSome cap h := by
  unfold dhFailureTrace
  cases e.dhAgree e.privateKey pk <;> simp

theorem filter_remove_le (pre post : List Handler) (h : Handler) :
    ((pre ++ post).filter isHandshake).length
      ≤ ((pre ++ h :: post).filter isHandshake).length := by
  apply List.Sublist.length_le
  apply List.Sublist.filter
  exact List.Sublist.append (List.Sublist.refl _) (List.sublist_cons_self _ _)

theorem mem_remove (pre post : List Handler) (h : Handler) :
    ∀ x ∈ pre ++ post, x ∈ pre ++ h :: post := by
  intro x hx
  rw [List.mem_append] at hx ⊢
  exact hx.elim Or.inl (fun a => Or.inr (List.mem_cons_of_mem _ a))

theorem HandleReceived_frame (e : Env) (s : NTCPSession) (received : Bytes) :
    (HandleReceived e s false received).pending = s.pending ++ [Handler.HandleReceived]
    ∧ (HandleReceived e s false received).m_IsEstablished = s.m_IsEstablished
    ∧ (HandleReceived e s false received).m_Encryption = s.m_Encryption
    ∧ (s.m_Decryption ≠ none → (HandleReceived e s false received).m_Decryption ≠ none)
    ∧ (HandleReceived e s false received).m_Phase1 = s.m_Phase1
    ∧ (HandleReceived e s false received).m_Phase2 = s.m_Phase2
    ∧ (HandleReceived e s false received).m_Phase3 = s.m_Phase3
    ∧ (HandleReceived e s false received).m_Phase4 = s.m_Phase4
    ∧ (HandleReceived e s false received).m_RemoteRouterInfo = s.m_RemoteRouterInfo := by
  simp only [HandleReceived, DecryptReceived_eq, Receive, m_ReceiveBufferOffset,
    Bool.false_eq_true, if_false]
  split_ifs
  · exact ⟨rfl, rfl, rfl, decryptData_ne_none _ _ _, rfl, rfl, rfl, rfl, rfl⟩
  · exact ⟨rfl, rfl, rfl, decryptData_ne_none _ _ _, rfl, rfl, rfl, rfl, rfl⟩
  · exact ⟨rfl, rfl, rfl, id, rfl, rfl, rfl, rfl, rfl⟩

/-- A data read binds no timestamp. -/
theorem HandleReceived_binds_nothing (e : Env) (s : NTCPSession) (received : Bytes) :
    boundTsB (HandleReceived e s false received).trace = boundTsB s.trace
    ∧ boundTsA (HandleReceived e s false received).trace = boundTsA s.trace := by
  have hq := fun (b : Bytes) =>
    boundTs_nil _ (parseEvents_binds_nothing b.length b)
  simp only [HandleReceived, DecryptReceived_eq, Receive, m_ReceiveBufferOffset,
    Bool.false_eq_true, if_false, parseAll]
  split_ifs
  · simp only [boundTsB_append, boundTsA_append, (hq _).1, (hq _).2, List.append_nil]
    exact ⟨List.append_nil _, List.append_nil _⟩
  · simp only [boundTsB_append, boundTsA_append, (hq _).1, (hq _).2, List.append_nil]
    exact ⟨List.append_nil _, List.append_nil _⟩
  · simp only [boundTsB_append, boundTsA_append, List.append_nil]
    exact ⟨List.append_nil _, List.append_nil _⟩

/-- Calling `Terminate` binds no timestamp. -/
theorem Terminate_binds_nothing (s : NTCPSession) :
    boundTsB s.Terminate.trace = boundTsB s.trace
    ∧ boundTsA s.Terminate.trace = boundTsA s.trace :=
  boundTs_mono s _ _ (Terminate_frame s).1 (by simp [boundB, boundA])

/-- A handshake handler that ends in `Terminate` keeps the invariant. -/
theorem Inv_Terminate_handshake (e : Env) (s u : NTCPSession) (pre post : List Handler)
    (h : Handler) (hinv : Inv e s) (hp : s.pending = pre ++ h :: post)
    (hh : isHandshake h = true)
    (hest : u.m_IsEstablished = s.m_IsEstablished)
    (hpend : u.pending = pre ++ post)
    (hrecv : ReceiveStarted u → ReceiveStarted s) : Inv e u.Terminate := by
  apply Inv_of_handshake_step e s u.Terminate pre post [] h hinv hp hh
  · exact hest
  · rw [List.append_nil]; exact hpend
  · intro x hx; exact absurd hx (List.not_mem_nil _)
  · simp
  · intro x hx; exact absurd hx (List.not_mem_nil _)
  · intro hx; exact absurd hx (List.not_mem_nil _)
  · intro x hx; exact absurd hx (List.not_mem_nil _)
  · intro hr
    apply hrecv
    exact ReceiveStarted_mono u u.Terminate _ (Terminate_frame u).1 (by simp) hr

/-- Sending a frame keeps the invariant. -/
theorem Inv_Send (e : Env) (s : NTCPSession) (buf : Bytes) (len : Nat) (z : Bool)
    (hinv : Inv e s) : Inv e (Send e s buf len z) := by
  obtain ⟨⟨msg, htr⟩, hpe, hes, hde, hen, h1, h2, h3, h4, hr, -, -⟩ := Send_frame e s buf len z
  apply Inv_of_data_step e s _ s.pending [Handler.HandleSent] hinv (fun _ a => a) (le_refl _)
    hes _ hr h1 h2 h3 h4 (boundTs_mono s _ _ htr (by simp [boundB, boundA])) hpe
  · intro x hx
    left
    simpa using hx
  · intro hrs
    left
    exact ReceiveStarted_mono s _ _ htr (by simp) hrs
  · intro ⟨a, b⟩
    exact ⟨hen a, by rw [hde]; exact b⟩

/-- A handshake handler that ends by starting a read of the next phase keeps the
invariant. -/
theorem Inv_async_read (e : Env) (s u : NTCPSession) (pre post : List Handler)
    (h hnext : Handler) (size : Nat) (hinv : Inv e s) (hp : s.pending = pre ++ h :: post)
    (hh : isHandshake h = true)
    (hest : u.m_IsEstablished = s.m_IsEstablished)
    (hpend : u.pending = pre ++ post)
    (hrecv : ReceiveStarted u → ReceiveStarted s)
    (hnh : isHandshake hnext = true) (hn4 : hnext ≠ Handler.HandlePhase4Sent)
    (hkey : needsKey hnext = true → Keyed u)
    (hts : tsBound (boundTsB u.trace) (boundTsA u.trace) hnext) :
    Inv e (u.async_read size hnext) := by
  apply Inv_of_handshake_step e s _ pre post [hnext] h hinv hp hh
  · exact hest
  · simp only [async_read, hpend]
  · intro x hx
    rw [List.mem_singleton] at hx
    rw [hx]; exact hnh
  · simp
  · intro x hx hk
    rw [List.mem_singleton] at hx
    rw [hx] at hk
    exact hkey hk
  · intro hx
    rw [List.mem_singleton] at hx
    exact absurd hx.symm hn4
  · intro x hx
    rw [List.mem_singleton] at hx
    have hb := boundTs_mono u (u.async_read size hnext) [Effect.asyncRead size hnext] rfl
      (by simp [boundB, boundA])
    rw [hx, hb.1, hb.2]
    exact hts
  · intro hr
    apply hrecv
    exact ReceiveStarted_mono u _ [Effect.asyncRead size hnext] rfl (by simp) hr

theorem Inv_SendPhase2 (e : Env) (now : Nat) (s u : NTCPSession) (pre post : List Handler)
    (h : Handler) (hinv : Inv e s) (hp : s.pending = pre ++ h :: post)
    (hh : isHandshake h = true)
    (hest : u.m_IsEstablished = s.m_IsEstablished)
    (hpend : u.pending = pre ++ post)
    (hrecv : ReceiveStarted u → ReceiveStarted s)
    (hb : boundTsB u.trace = []) : Inv e (SendPhase2 e now u) := by
  obtain ⟨htr, hpe, hes, hk, -⟩ := SendPhase2_frame e now u
  apply Inv_of_handshake_step e s _ pre post [Handler.HandlePhase2Sent (htobe32 now)] h
    hinv hp hh
  · rw [hes, hest]
  · rw [hpe, hpend]
  · intro x hx
    rw [List.mem_singleton] at hx
    rw [hx]; rfl
  · simp
  · intro _ _ _; exact hk
  · intro hx
    simp at hx
  · intro x hx
    rw [List.mem_singleton] at hx
    rw [hx]
    show boundTsB (SendPhase2 e now u).trace = [htobe32 now]
    rw [htr, boundTsB_append, boundTsB_append, hb,
      (boundTs_nil _ (dhFailureTrace_binds_nothing e _)).1]
    rfl
  · intro hr
    apply hrecv
    rw [List.append_assoc] at htr
    refine ReceiveStarted_mono u _ _ htr ?_ hr
    intro x hx
    rw [List.mem_append] at hx
    rcases hx with hx | hx
    · exact dhFailureTrace_no_receive e _ x hx
    · rw [List.mem_singleton] at hx
      rw [hx]
      intro cap h'
      simp

theorem Inv_SendPhase3 (e : Env) (now : Nat) (s u : NTCPSession) (pre post : List Handler)
    (h : Handler) (hinv : Inv e s) (hp : s.pending = pre ++ h :: post)
    (hh : isHandshake h = true)
    (hest : u.m_IsEstablished = s.m_IsEstablished)
    (hpend : u.pending = pre ++ post)
    (hrecv : ReceiveStarted u → ReceiveStarted s)
    (hkeyed : Keyed u) (ha : boundTsA u.trace = []) : Inv e (SendPhase3 e now u) := by
  obtain ⟨htr, hpe, hes, hde, hen, -⟩ := SendPhase3_frame e now u
  apply Inv_of_handshake_step e s _ pre post [Handler.HandlePhase3Sent (htobe32 now)] h
    hinv hp hh
  · rw [hes, hest]
  · rw [hpe, hpend]
  · intro x hx
    rw [List.mem_singleton] at hx
    rw [hx]; rfl
  · simp
  · intro _ _ _
    exact ⟨hen hkeyed.1, by rw [hde]; exact hkeyed.2⟩
  · intro hx
    simp at hx
  · intro x hx
    rw [List.mem_singleton] at hx
    rw [hx]
    show boundTsA (SendPhase3 e now u).trace = [htobe32 now]
    rw [htr, boundTsA_append, ha]
    rfl
  · intro hr
    apply hrecv
    exact ReceiveStarted_mono u _ _ htr (by simp) hr

theorem Inv_SendPhase4 (e : Env) (s u : NTCPSession) (tsB : Bytes) (pre post : List Handler)
    (h : Handler) (hinv : Inv e s) (hp : s.pending = pre ++ h :: post)
    (hh : isHandshake h = true)
    (hest : u.m_IsEstablished = s.m_IsEstablished)
    (hpend : u.pending = pre ++ post)
    (hrecv : ReceiveStarted u → ReceiveStarted s)
    (hkeyed : Keyed u) (hver : ServerVerified e u) : Inv e (SendPhase4 e u tsB) := by
  obtain ⟨htr, hpe, hes, hde, hen, h1, h2, h3, hr⟩ := SendPhase4_frame e u tsB
  apply Inv_of_handshake_step e s _ pre post [Handler.HandlePhase4Sent] h hinv hp hh
  · rw [hes, hest]
  · rw [hpe, hpend]
  · intro x hx
    rw [List.mem_singleton] at hx
    rw [hx]; rfl
  · simp
  · intro _ _ _
    exact ⟨hen hkeyed.1, by rw [hde]; exact hkeyed.2⟩
  · intro _
    obtain ⟨t, hb, hv⟩ := hver
    exact ⟨t, by rw [(boundTs_mono u _ _ htr (by simp [boundB, boundA])).1]; exact hb,
      by rw [hr, h1, h2, h3]; exact hv⟩
  · intro x hx
    rw [List.mem_singleton] at hx
    rw [hx]
    trivial
  · intro hrs
    apply hrecv
    exact ReceiveStarted_mono u _ _ htr (by simp) hrs

/-- Every completion handler keeps the invariant. -/
theorem Inv_dispatch (e : Env) (now : Nat) (s : NTCPSession) (pre post : List Handler)
    (h : Handler) (ecode : Bool) (data : Bytes) (hinv : Inv e s)
    (hp : s.pending = pre ++ h :: post) :
    Inv e (dispatch e now h ecode data { s with pending := pre ++ post }) := by
  have hmemh : h ∈ s.pending := by rw [hp]; simp
  have hT := hinv.2.2.2.2.2.2.2 h hmemh
  cases h with
  | HandleConnect =>
    have hA : boundTsA s.trace = [] := hT
    simp only [dispatch, HandleConnect]
    cases ecode with
    | true =>
      simp only [if_true]
      exact Inv_Terminate_handshake e s _ pre post _ hinv hp rfl rfl rfl id
    | false =>
      simp only [Bool.false_eq_true, if_false]
      apply Inv_of_handshake_step e s _ pre post [Handler.HandlePhase1Sent] _ hinv hp rfl
      · rfl
      · rfl
      · intro x hx
        rw [List.mem_singleton] at hx
        rw [hx]; rfl
      · simp
      · intro x hx hk
        rw [List.mem_singleton] at hx
        rw [hx] at hk
        exact absurd hk (by decide)
      · intro hx
        simp at hx
      · intro x hx
        rw [List.mem_singleton] at hx
        rw [hx]
        exact (boundTs_mono s (ClientLogin e { s with pending := pre ++ post }) _ rfl
          (by simp [boundB, boundA])).2.trans hA
      · intro hr
        exact ReceiveStarted_mono s _ _ rfl (by simp) hr
  | HandlePhase1Sent =>
    have hA : boundTsA s.trace = [] := hT
    simp only [dispatch, HandlePhase1Sent]
    cases ecode with
    | true =>
      simp only [if_true]
      exact Inv_Terminate_handshake e s _ pre post _ hinv hp rfl rfl rfl id
    | false =>
      simp only [Bool.false_eq_true, if_false]
      exact Inv_async_read e s _ pre post _ _ _ hinv hp rfl rfl rfl id rfl (by simp)
        (fun hk => absurd hk (by decide)) hA
  | HandlePhase1Received =>
    have hB : boundTsB s.trace = [] := hT
    simp only [dispatch, HandlePhase1Received]
    split_ifs
    · exact Inv_Terminate_handshake e s _ pre post _ hinv hp rfl rfl rfl id
    · exact Inv_SendPhase2 e now s _ pre post _ hinv hp rfl rfl rfl id hB
    · exact Inv_Terminate_handshake e s _ pre post _ hinv hp rfl rfl rfl id
  | HandlePhase2Sent tsB =>
    have hB : boundTsB s.trace = [tsB] := hT
    have hK : Keyed s := hinv.2.2.2.2.2.2.1 _ hmemh rfl
    simp only [dispatch, HandlePhase2Sent]
    cases ecode with
    | true =>
      simp only [if_true]
      exact Inv_Terminate_handshake e s _ pre post _ hinv hp rfl rfl rfl id
    | false =>
      simp only [Bool.false_eq_true, if_false]
      exact Inv_async_read e s _ pre post _ _ _ hinv hp rfl rfl rfl id rfl (by simp)
        (fun _ => hK) hB
  | HandlePhase2Received =>
    have hA : boundTsA s.trace = [] := hT
    simp only [dispatch, HandlePhase2Received, CreateAESKey_fst]
    split_ifs
    · exact Inv_Terminate_handshake e s _ pre post _ hinv hp rfl rfl rfl id
    · exact Inv_Terminate_handshake e s _ pre post _ hinv hp rfl rfl rfl
        (ReceiveStarted_mono s _ _ rfl (dhFailureTrace_no_receive e _))
    · exact Inv_SendPhase3 e now s _ pre post _ hinv hp rfl rfl rfl
        (ReceiveStarted_mono s _ _ rfl (dhFailureTrace_no_receive e _))
        ⟨by simp [SetKeyWithIV], decryptData_ne_none _ _ _ (by simp [SetKeyWithIV])⟩
        ((boundTs_mono s _ _ rfl (dhFailureTrace_binds_nothing e _)).2.trans hA)
  | HandlePhase3Sent tsA =>
    have hA : boundTsA s.trace = [tsA] := hT
    have hK : Keyed s := hinv.2.2.2.2.2.2.1 _ hmemh rfl
    simp only [dispatch, HandlePhase3Sent]
    cases ecode with
    | true =>
      simp only [if_true]
      exact Inv_Terminate_handshake e s _ pre post _ hinv hp rfl rfl rfl id
    | false =>
      simp only [Bool.false_eq_true, if_false]
      exact Inv_async_read e s _ pre post _ _ _ hinv hp rfl rfl rfl id rfl (by simp)
        (fun _ => hK) hA
  | HandlePhase3Received tsB =>
    have hB : boundTsB s.trace = [tsB] := hT
    have hK : Keyed s := hinv.2.2.2.2.2.2.1 _ hmemh rfl
    simp only [dispatch, HandlePhase3Received]
    split_ifs with h1 h2
    · exact Inv_Terminate_handshake e s _ pre post _ hinv hp rfl rfl rfl id
    · exact Inv_Terminate_handshake e s _ pre post _ hinv hp rfl rfl rfl id
    · refine Inv_SendPhase4 e s _ tsB pre post _ hinv hp rfl rfl rfl id
        ⟨hK.1, decryptData_ne_none _ _ _ hK.2⟩ ⟨tsB, hB, ?_⟩
      simpa using h2
  | HandlePhase4Sent =>
    have hK : Keyed s := hinv.2.2.2.2.2.2.1 _ hmemh rfl
    have hV : ServerVerified e s := hinv.2.2.2.2.2.1 hmemh
    simp only [dispatch, HandlePhase4Sent]
    cases ecode with
    | true =>
      simp only [if_true]
      exact Inv_Terminate_handshake e s _ pre post _ hinv hp rfl rfl rfl id
    | false =>
      simp only [Bool.false_eq_true, if_false]
      refine Inv_of_establish e s _ pre post [Handler.HandleReceived] _ hinv hp rfl
        ?_ ?_ ?_ ?_ ?_
      · rfl
      · exact hK
      · obtain ⟨tsB, hB, hv⟩ := hV
        refine Or.inl ⟨tsB, ?_, hv⟩
        show boundTsB (s.trace ++ [_]) = [tsB]
        rw [boundTsB_append, hB]
        rfl
      · rfl
      · intro x hx
        rw [List.mem_singleton] at hx
        rw [hx]; rfl
  | HandlePhase4Received tsA =>
    have hA : boundTsA s.trace = [tsA] := hT
    have hK : Keyed s := hinv.2.2.2.2.2.2.1 _ hmemh rfl
    simp only [dispatch, HandlePhase4Received]
    split_ifs with h1 h2
    · exact Inv_Terminate_handshake e s _ pre post _ hinv hp rfl rfl rfl id
    · exact Inv_Terminate_handshake e s _ pre post _ hinv hp rfl rfl rfl id
    · simp only [SendTimeSyncMessage, SendMessage, Send, Receive]
      apply Inv_of_establish e s _ pre post
        [Handler.HandleSent, Handler.HandleSent, Handler.HandleSent, Handler.HandleReceived]
        _ hinv hp rfl rfl
      · exact ⟨encryptData_ne_none _ _ _ (encryptData_ne_none _ _ _
          (encryptData_ne_none _ _ _ hK.1)), decryptData_ne_none _ _ _ hK.2⟩
      · right
        refine ⟨tsA, ?_, ?_⟩
        · simp only [boundTsA_append, hA]
          rfl
        · simpa using h2
      · simp
      · intro x hx
        simp only [List.mem_cons, List.mem_singleton, List.not_mem_nil, or_false] at hx
        rcases hx with rfl | rfl | rfl | rfl <;> rfl
  | HandleReceived =>
    simp only [dispatch]
    have hes : s.m_IsEstablished = true := hinv.2.2.1 hmemh
    cases ecode with
    | true =>
      simp only [HandleReceived, if_true]
      apply Inv_of_data_step e s _ (pre ++ post) [] hinv
      · rw [hp]; exact mem_remove pre post _
      · rw [hp]; exact filter_remove_le pre post _
      · rfl
      · exact id
      · rfl
      · rfl
      · rfl
      · rfl
      · rfl
      · exact Terminate_binds_nothing { s with pending := pre ++ post }
      · simp [Terminate, emit]
      · intro x hx; exact absurd hx (List.not_mem_nil _)
      · intro _; exact Or.inr hes
    | false =>
      obtain ⟨hpe, hest, hen, hde, h1, h2, h3, h4, hr⟩ :=
        HandleReceived_frame e { s with pending := pre ++ post } data
      apply Inv_of_data_step e s _ (pre ++ post) [Handler.HandleReceived] hinv
      · rw [hp]; exact mem_remove pre post _
      · rw [hp]; exact filter_remove_le pre post _
      · exact hest
      · intro ⟨a, b⟩
        exact ⟨by rw [hen]; exact a, hde b⟩
      · exact hr
      · exact h1
      · exact h2
      · exact h3
      · exact h4
      · exact HandleReceived_binds_nothing e { s with pending := pre ++ post } data
      · exact hpe
      · intro x hx
        right
        exact ⟨by simpa using hx, hes⟩
      · intro _; exact Or.inr hes
  | HandleSent =>
    simp only [dispatch, HandleSent]
    cases ecode with
    | true =>
      simp only [if_true]
      apply Inv_of_data_step e s _ (pre ++ post) [] hinv
      · rw [hp]; exact mem_remove pre post _
      · rw [hp]; exact filter_remove_le pre post _
      · rfl
      · exact id
      · rfl
      · rfl
      · rfl
      · rfl
      · rfl
      · exact Terminate_binds_nothing { s with pending := pre ++ post }
      · simp [Terminate, emit]
      · intro x hx; exact absurd hx (List.not_mem_nil _)
      · intro hr
        left
        exact ReceiveStarted_mono s _ [Effect.socketClose, Effect.removeNTCPSession]
          (Terminate_frame _).1 (by simp) hr
    | false =>
      simp only [Bool.false_eq_true, if_false]
      apply Inv_of_data_step e s _ (pre ++ post) [] hinv
      · rw [hp]; exact mem_remove pre post _
      · rw [hp]; exact filter_remove_le pre post _
      · rfl
      · exact id
      · rfl
      · rfl
      · rfl
      · rfl
      · rfl
      · exact ⟨rfl, rfl⟩
      · simp
      · intro x hx; exact absurd hx (List.not_mem_nil _)
      · intro hr
        exact Or.inl hr

theorem Inv_Connect (e : Env) (s : NTCPSession) (hi : Initial s) : Inv e (Connect s) := by
  obtain ⟨hest, -, -, -, htr, hpe⟩ := hi
  have hf : (Connect s).m_IsEstablished = false := hest
  have hpend : (Connect s).pending = [Handler.HandleConnect] := by
    simp only [Connect, hpe, List.nil_append]
  have htrace : (Connect s).trace = [Effect.asyncConnect] := by
    simp only [Connect, htr, List.nil_append]
  refine ⟨?_, ?_, ?_, ?_, ?_, ?_, ?_, ?_⟩
  · intro h; rw [hf] at h; exact absurd h (by decide)
  · intro ⟨cap, h, hm⟩
    rw [htrace] at hm
    simp at hm
  · intro hm
    rw [hpend] at hm
    simp at hm
  · intro h; rw [hf] at h; exact absurd h (by decide)
  · rw [hpend]; decide
  · intro hm
    rw [hpend] at hm
    simp at hm
  · intro x hm hk
    rw [hpend, List.mem_singleton] at hm
    rw [hm] at hk
    exact absurd hk (by decide)
  · intro x hm
    rw [hpend, List.mem_singleton] at hm
    rw [hm, htrace]
    exact (rfl : boundTsA [Effect.asyncConnect] = [])

theorem Inv_ServerLogin (e : Env) (s : NTCPSession) (hi : Initial s) :
    Inv e (ServerLogin s) := by
  obtain ⟨hest, -, -, -, htr, hpe⟩ := hi
  have hf : (ServerLogin s).m_IsEstablished = false := hest
  have hpend : (ServerLogin s).pending = [Handler.HandlePhase1Received] := by
    simp only [ServerLogin, async_read, hpe, List.nil_append]
  have htrace : (ServerLogin s).trace
      = [Effect.asyncRead 288 Handler.HandlePhase1Received] := by
    simp only [ServerLogin, async_read, htr, List.nil_append]
  refine ⟨?_, ?_, ?_, ?_, ?_, ?_, ?_, ?_⟩
  · intro h; rw [hf] at h; exact absurd h (by decide)
  · intro ⟨cap, h, hm⟩
    rw [htrace] at hm
    simp at hm
  · intro hm
    rw [hpend] at hm
    simp at hm
  · intro h; rw [hf] at h; exact absurd h (by decide)
  · rw [hpend]; decide
  · intro hm
    rw [hpend] at hm
    simp at hm
  · intro x hm hk
    rw [hpend, List.mem_singleton] at hm
    rw [hm] at hk
    exact absurd hk (by decide)
  · intro x hm
    rw [hpend, List.mem_singleton] at hm
    rw [hm, htrace]
    exact (rfl : boundTsB [Effect.asyncRead 288 Handler.HandlePhase1Received] = [])

/-- Every step of a session keeps the invariant. -/
theorem Inv_Step (e : Env) (s t : NTCPSession) (hinv : Inv e s) (hst : Step e s t) :
    Inv e t := by
  cases hst with
  | complete pre post h now ecode data hp _ =>
    exact Inv_dispatch e now s pre post h ecode data hinv hp
  | sendMessage buf len => exact Inv_Send e s buf len false hinv
  | sendTimeSync now => exact Inv_Send e s (htobe32 now) 4 true hinv

/-- The invariant holds in every reachable state. -/
theorem Inv_Reachable (e : Env) (s : NTCPSession) (hr : Reachable e s) : Inv e s := by
  induction hr with
  | client s hi => exact Inv_Connect e s hi
  | server s hi => exact Inv_ServerLogin e s hi
  | step s t _ hst ih => exact Inv_Step e s t ih hst

/-- Completing the oldest pending operation is a step of the session. -/
theorem Step_fire (e : Env) (now : Nat) (s : NTCPSession) (ecode : Bool) (data : Bytes)
    (h : Handler) (rest : List Handler) (hp : s.pending = h :: rest)
    (hlen : ecode = false → ∀ n, readSize h = some n → data.length = n) :
    Step e s (fire e now s ecode data) := by
  have hf : fire e now s ecode data
      = dispatch e now h ecode data { s with pending := [] ++ rest } := by
    simp only [fire, hp, List.nil_append]
  rw [hf]
  exact Step.complete s [] rest h now ecode data (by rw [hp]; rfl) hlen

set_option maxRecDepth 1000000 in
theorem demoServer2_reachable : Reachable demoEnv demoServer2 :=
  Reachable.step _ _ (Reachable.server demoSession ⟨rfl, rfl, rfl, rfl, rfl, rfl⟩)
    (Step_fire demoEnv 2000 demoServer1 false (lastWritten demoClient1)
      Handler.HandlePhase1Received [] (by decide)
      (fun _ n hn => by
        have h288 : n = 288 := by
          symm
          simpa [readSize] using hn
        rw [h288]
        decide))

set_option maxRecDepth 1000000 in
theorem demoServer3_reachable : Reachable demoEnv demoServer3 :=
  Reachable.step _ _ demoServer2_reachable
    (Step_fire demoEnv 0 demoServer2 false [] (Handler.HandlePhase2Sent (htobe32 2000)) []
      (by decide) (fun _ n hn => by simp [readSize] at hn))

set_option maxRecDepth 1000000 in
theorem demoServer4_reachable : Reachable demoEnv demoServer4 :=
  Reachable.step _ _ demoServer3_reachable
    (Step_fire demoEnv 0 demoServer3 false (lastWritten demoClient3)
      (Handler.HandlePhase3Received (htobe32 2000)) [] (by decide)
      (fun _ n hn => by
        have h448 : n = 448 := by
          symm
          simpa [readSize] using hn
        rw [h448]
        decide))

set_option maxRecDepth 1000000 in
theorem demoServer5_reachable : Reachable demoEnv demoServer5 :=
  Reachable.step _ _ demoServer4_reachable
    (Step_fire demoEnv 0 demoServer4 false [] Handler.HandlePhase4Sent []
      (by decide) (fun _ n hn => by simp [readSize] at hn))

/-- C9: established implies authenticated. In every reachable state of a session, in
either role (a client starts with `Connect`, a server with `ServerLogin`; then pending
operations complete in any order, with or without error and with any bytes, and the
upper layer sends at any time): if `m_IsEstablished` is true then both `m_Encryption`
and `m_Decryption` have been keyed by `SetKeyWithIV`, and DSA verification of the
signature the peer sent (Phase 3 on the server, Phase 4 on the client) over
`X ‖ Y ‖ own ident hash ‖ tsA ‖ tsB`, against the signing key of the stored peer
identity, returns true, where the session's own timestamp (`tsB` on the server, `tsA`
on the client) is the one bound into the completion handler by the only write of
Phase 2 (`SendPhase2`), respectively Phase 3 (`SendPhase3`), in the trace, and the
peer's timestamp is the one of the decrypted record; and `Receive ()` has been called
only if `m_IsEstablished` is true. -/
theorem established_implies_authenticated (e : Env) (s : NTCPSession)
    (hr : Reachable e s) :
    (s.m_IsEstablished = true →
        Keyed s
        ∧ ((∃ tsB : Bytes, boundTsB s.trace = [tsB] ∧
              e.dsaVerify s.m_RemoteRouterInfo.routerIdentity.signingKey
                (SignedData.toBytes
                  { x := s.m_Phase1.pubKey, y := s.m_Phase2.pubKey, ident := e.identHash,
                    tsA := s.m_Phase3.timestamp, tsB := tsB })
                s.m_Phase3.signature = true)
          ∨ (∃ tsA : Bytes, boundTsA s.trace = [tsA] ∧
              e.dsaVerify s.m_RemoteRouterInfo.routerIdentity.signingKey
                (SignedData.toBytes
                  { x := s.m_Phase1.pubKey, y := s.m_Phase2.pubKey, ident := e.identHash,
                    tsA := tsA, tsB := s.m_Phase2.encrypted.timestamp })
                s.m_Phase4.signature = true)))
    ∧ (ReceiveStarted s → s.m_IsEstablished = true) :=
  ⟨(Inv_Reachable e s hr).1, (Inv_Reachable e s hr).2.1⟩

set_option maxRecDepth 1000000 in
theorem established_implies_authenticated_witness :
    Reachable demoEnv demoServer5 ∧ demoServer5.m_IsEstablished = true
    ∧ ReceiveStarted demoServer5
    ∧ boundTsB demoServer5.trace = [htobe32 2000]
    ∧ Keyed demoServer5
    ∧ (ServerVerified demoEnv demoServer5 ∨ ClientVerified demoEnv demoServer5) :=
  ⟨demoServer5_reachable, by decide,
    ⟨NTCP_MAX_MESSAGE_SIZE * 2, Handler.HandleReceived, by decide⟩, by decide,
    (established_implies_authenticated demoEnv demoServer5 demoServer5_reachable).1
      (by decide)⟩

/-! ## C11: Phase 1 identity binding -/

theorem ClientLogin_written (e : Env) (c : NTCPSession) :
    lastWritten (ClientLogin e c)
      = e.routerIdentity.publicKey ++ (List.range 32).map
          (fun i => (e.sha256 e.routerIdentity.publicKey).getD i 0
            ^^^ c.m_RemoteRouterInfo.identHash.getD i 0) := by
  simp only [lastWritten, ClientLogin, async_write, NTCPPhase1.toBytes]
  exact lastWritten_snoc _ _ _

theorem xor_ident_check (d a b : Nat) : (d ^^^ a ^^^ b = d) ↔ a = b := by
  rw [Nat.xor_assoc]
  constructor
  · intro h
    have h0 : d ^^^ (a ^^^ b) = d ^^^ 0 := by rw [h, Nat.xor_zero]
    exact Nat.xor_eq_zero.mp (Nat.xor_right_inj.mp h0)
  · intro h
    rw [h, Nat.xor_self, Nat.xor_zero]

theorem eq_of_getD_32 (a b : Bytes) (ha : a.length = 32) (hb : b.length = 32)
    (h : ∀ i, i < 32 → a.getD i 0 = b.getD i 0) : a = b := by
  apply List.ext_getElem (by rw [ha, hb])
  intro i h1 h2
  have := h i (by omega)
  rw [List.getD_eq_getElem _ _ h1, List.getD_eq_getElem _ _ h2] at this
  exact this

/-- The server's Phase 1 check on the message `X ‖ (SHA256 (X) XOR I)` passes exactly
when `I` is the server's own ident hash. -/
theorem ident_check_iff (d i j : Bytes) (hi : i.length = 32) (hj : j.length = 32) :
    (List.range 32).all
      (fun n => (((List.range 32).map (fun k => d.getD k 0 ^^^ i.getD k 0)).getD n 0
        ^^^ j.getD n 0) == d.getD n 0) = true ↔ i = j := by
  rw [List.all_eq_true]
  constructor
  · intro h
    apply eq_of_getD_32 i j hi hj
    intro n hn
    have := h n (List.mem_range.mpr hn)
    rw [beq_iff_eq, List.getD_eq_getElem _ _ (by simpa using hn)] at this
    simp only [List.getElem_map, List.getElem_range] at this
    exact (xor_ident_check _ _ _).mp this
  · intro h n hn
    rw [List.mem_range] at hn
    rw [beq_iff_eq, ← h]
    exact getD_xor_cancel d i n hn

theorem HandlePhase1Received_record (s : NTCPSession) (x hx : Bytes) (h1 : x.length = 256)
    (h2 : hx.length = 32) :
    NTCPPhase1.ofBytes (recvInto (x ++ hx) s.m_Phase1.toBytes)
      = { pubKey := x, HXxorHI := hx } := by
  rw [NTCPPhase1_ofBytes_recvInto _ _ (by simp [h1, h2])]
  have := NTCPPhase1_ofBytes_toBytes { pubKey := x, HXxorHI := hx } [] h1 h2
  simpa [NTCPPhase1.toBytes] using this

/-- C11: Phase 1 identity binding. For every 256-byte `X` (the client's DH public key)
and 32-byte ident hashes `I` (the hash of the router the client targets) and `J` (the
server's own hash): the Phase 1 message `ClientLogin` builds and writes is
`X ‖ (SHA256 (X) XOR I)`; the check of `HandlePhase1Received` on that message passes if
and only if `I = J`; when `I = J` the server writes Phase 2 and binds its completion
handler; when `I ≠ J` the server calls `Terminate`, writes nothing and binds no
handler. -/
theorem phase1_identity_binding (ec es : Env) (now : Nat) (c s : NTCPSession)
    (hX : ec.routerIdentity.publicKey.length = 256)
    (hI : c.m_RemoteRouterInfo.identHash.length = 32)
    (hJ : es.identHash.length = 32)
    (hsha : es.sha256 = ec.sha256) :
    lastWritten (ClientLogin ec c)
      = ec.routerIdentity.publicKey ++ (List.range 32).map
          (fun i => (ec.sha256 ec.routerIdentity.publicKey).getD i 0
            ^^^ c.m_RemoteRouterInfo.identHash.getD i 0)
    ∧ ((List.range 32).all
        (fun i =>
          ((NTCPPhase1.ofBytes (recvInto (lastWritten (ClientLogin ec c))
              s.m_Phase1.toBytes)).HXxorHI.getD i 0 ^^^ es.identHash.getD i 0)
            == (es.sha256 (NTCPPhase1.ofBytes (recvInto (lastWritten (ClientLogin ec c))
              s.m_Phase1.toBytes)).pubKey).getD i 0) = true
        ↔ c.m_RemoteRouterInfo.identHash = es.identHash)
    ∧ (c.m_RemoteRouterInfo.identHash = es.identHash →
        ∃ msg : Bytes,
          written (HandlePhase1Received es now s false (lastWritten (ClientLogin ec c))).trace
            = written s.trace ++ [msg]
          ∧ (HandlePhase1Received es now s false (lastWritten (ClientLogin ec c))).pending
            = s.pending ++ [Handler.HandlePhase2Sent (htobe32 now)])
    ∧ (c.m_RemoteRouterInfo.identHash ≠ es.identHash →
        socketCloses
            (HandlePhase1Received es now s false (lastWritten (ClientLogin ec c))).trace
          = socketCloses s.trace + 1
        ∧ registryRemovals
            (HandlePhase1Received es now s false (lastWritten (ClientLogin ec c))).trace
          = registryRemovals s.trace + 1
        ∧ written (HandlePhase1Received es now s false (lastWritten (ClientLogin ec c))).trace
          = written s.trace
        ∧ (HandlePhase1Received es now s false (lastWritten (ClientLogin ec c))).pending
          = s.pending
        ∧ (HandlePhase1Received es now s false (lastWritten (ClientLogin ec c))).m_IsEstablished
          = s.m_IsEstablished) := by
  have hrec := HandlePhase1Received_record s ec.routerIdentity.publicKey
    ((List.range 32).map (fun i => (ec.sha256 ec.routerIdentity.publicKey).getD i 0
      ^^^ c.m_RemoteRouterInfo.identHash.getD i 0)) hX (by simp)
  have hiff := ident_check_iff (ec.sha256 ec.routerIdentity.publicKey)
    c.m_RemoteRouterInfo.identHash es.identHash hI hJ
  rw [ClientLogin_written]
  refine ⟨rfl, ?_, ?_, ?_⟩
  · rw [hrec, hsha]
    exact hiff
  · intro heq
    simp only [HandlePhase1Received, Bool.false_eq_true, if_false, hrec, hsha, hiff.mpr heq,
      if_true]
    exact ⟨_, SendPhase2_written es now _, (SendPhase2_frame es now _).2.1⟩
  · intro hne
    have hall := fun h => hne (hiff.mp h)
    simp only [HandlePhase1Received, Bool.false_eq_true, if_false, hrec, hsha, if_neg hall]
    obtain ⟨-, h1, h2, h3, h4, h5⟩ := Terminate_frame
      { s with m_Phase1 :=
        { pubKey := ec.routerIdentity.publicKey,
          HXxorHI := (List.range 32).map
            (fun i => (ec.sha256 ec.routerIdentity.publicKey).getD i 0
              ^^^ c.m_RemoteRouterInfo.identHash.getD i 0) } }
    exact ⟨h1, h2, h3, h4, h5⟩

set_option maxRecDepth 100000 in
theorem phase1_identity_binding_witness :
    (∃ msg : Bytes,
      written (HandlePhase1Received demoEnv 2000 demoSession false
          (lastWritten (ClientLogin demoClientEnv demoSession))).trace
        = written demoSession.trace ++ [msg]
      ∧ (HandlePhase1Received demoEnv 2000 demoSession false
          (lastWritten (ClientLogin demoClientEnv demoSession))).pending
        = demoSession.pending ++ [Handler.HandlePhase2Sent (htobe32 2000)])
    ∧ (socketCloses (HandlePhase1Received { demoEnv with identHash := List.replicate 32 1 } 2000 demoSession false
          (lastWritten (ClientLogin demoClientEnv demoSession))).trace
        = socketCloses demoSession.trace + 1
      ∧ written (HandlePhase1Received { demoEnv with identHash := List.replicate 32 1 } 2000 demoSession false
          (lastWritten (ClientLogin demoClientEnv demoSession))).trace
        = written demoSession.trace) :=
  ⟨(phase1_identity_binding demoClientEnv demoEnv 2000 demoSession demoSession
      (List.length_replicate _ _) (demo_sha_length _) (demo_sha_length _) rfl).2.2.1 rfl,
    ((phase1_identity_binding demoClientEnv { demoEnv with identHash := List.replicate 32 1 }
      2000 demoSession demoSession
      (List.length_replicate _ _) (demo_sha_length _) (List.length_replicate _ _) rfl).2.2.2
        (by decide)).1,
    ((phase1_identity_binding demoClientEnv { demoEnv with identHash := List.replicate 32 1 }
      2000 demoSession demoSession
      (List.length_replicate _ _) (demo_sha_length _) (List.length_replicate _ _) rfl).2.2.2
        (by decide)).2.2.1⟩

/-! ## C12: tampering with the encrypted block of Phase 2 -/

/-- CBC decryption of a 48-byte buffer, block by block: `P_k = D (C_k) XOR C_{k-1}`. -/
theorem decryptData_48 (e : Env) (k : CBC) (c : Bytes) (hc : c.length = 48) :
    (decryptData e (some k) c).2
      = xorBytes (e.aesDecryptBlock k.key (c.take 16)) k.iv
        ++ (xorBytes (e.aesDecryptBlock k.key ((c.drop 16).take 16)) (c.take 16)
        ++ xorBytes (e.aesDecryptBlock k.key ((c.drop 32).take 16)) ((c.drop 16).take 16)) := by
  simp [decryptData, hc, fullBlocks, cbcDecryptBlocks]

theorem xorBytes_length_eq (a b : Bytes) (ha : a.length = 16) (hb : b.length = 16) :
    (xorBytes a b).length = 16 := by
  rw [xorBytes_length a b (by rw [ha, hb]), ha]

theorem xorBytes_right_inj (a a2 b : Bytes) (ha : a.length = b.length)
    (ha2 : a2.length = b.length) (h : xorBytes a b = xorBytes a2 b) : a = a2 := by
  rw [← xorBytes_cancel a b ha, h, xorBytes_cancel a2 b ha2]

theorem set_ne_self (l : Bytes) (i v : Nat) (hi : i < l.length) (hv : l.getD i 0 ≠ v) :
    l.set i v ≠ l := by
  intro h
  have h2 := congrArg (fun x => x.getD i 0) h
  simp only [List.getD_eq_getElem _ _ hi,
    List.getD_eq_getElem _ _ (show i < (l.set i v).length by simpa using hi),
    List.getElem_set_self] at h2
  rw [List.getD_eq_getElem _ _ hi] at hv
  exact hv h2.symm

/-- The first 32 bytes of the CBC decryption of a 48-byte buffer depend only on its first
32 bytes. -/
theorem decrypt48_take32 (e : Env) (k : CBC) (c : Bytes) (hc : c.length = 48)
    (hiv : k.iv.length = 16)
    (hlenD : ∀ b : Bytes, b.length = 16 → (e.aesDecryptBlock k.key b).length = 16) :
    ((decryptData e (some k) c).2).take 32
      = xorBytes (e.aesDecryptBlock k.key (c.take 16)) k.iv
        ++ xorBytes (e.aesDecryptBlock k.key ((c.drop 16).take 16)) (c.take 16) := by
  have hb0 : (c.take 16).length = 16 := by simp [hc]
  have hb1 : ((c.drop 16).take 16).length = 16 := by simp [hc]
  have h0 := xorBytes_length_eq _ _ (hlenD _ hb0) hiv
  have h1 := xorBytes_length_eq _ _ (hlenD _ hb1) hb0
  rw [decryptData_48 e k c hc, ← List.append_assoc]
  rw [List.take_append_of_le_length (by simp [h0, h1])]
  exact List.take_of_length_le (by simp [h0, h1])

theorem take_set_of_le (l : Bytes) (i n v : Nat) (h : n ≤ i) :
    (l.set i v).take n = l.take n := by
  rw [List.set_take]
  exact List.set_eq_of_length_le (le_trans (List.length_take_le _ _) h)

/-- What `HandlePhase2Received` does with a 304-byte message `y ‖ c` when DH agreement
succeeds: it keys the ciphers, decrypts `c` and compares the first 32 bytes with
`SHA256 (X ‖ y)`. -/
theorem HandlePhase2Received_check (e : Env) (now : Nat) (s : NTCPSession)
    (y c secret : Bytes) (hy : y.length = 256) (hc : c.length = 48)
    (hdh : e.dhAgree e.privateKey y = some secret) (hsecret : secret.length = 256) :
    HandlePhase2Received e now s false (y ++ c) =
      if (e.sha256 (e.routerIdentity.publicKey ++ y)).take 32
          ≠ ((decryptData e
              (some { key := aes_key_from_secret secret, iv := (y.drop 240).take 16 })
              c).2).take 32 then
        ({ s with
          m_Phase2 :=
            { pubKey := y,
              encrypted := NTCPPhase2Encrypted.ofBytes (decryptData e
                (some { key := aes_key_from_secret secret, iv := (y.drop 240).take 16 })
                c).2 },
          m_Decryption := (decryptData e
            (some { key := aes_key_from_secret secret, iv := (y.drop 240).take 16 }) c).1,
          m_Encryption := some
            { key := aes_key_from_secret secret,
              iv := (s.m_Phase1.HXxorHI.drop 16).take 16 } } : NTCPSession).Terminate
      else
        SendPhase3 e now
          { s with
            m_Phase2 :=
              { pubKey := y,
                encrypted := NTCPPhase2Encrypted.ofBytes (decryptData e
                  (some { key := aes_key_from_secret secret, iv := (y.drop 240).take 16 })
                  c).2 },
            m_Decryption := (decryptData e
              (some { key := aes_key_from_secret secret, iv := (y.drop 240).take 16 }) c).1,
            m_Encryption := some
              { key := aes_key_from_secret secret,
                iv := (s.m_Phase1.HXxorHI.drop 16).take 16 } } := by
  have hp : NTCPPhase2.ofBytes (recvInto (y ++ c) s.m_Phase2.toBytes)
      = { pubKey := y, encrypted := NTCPPhase2Encrypted.ofBytes c } := by
    rw [NTCPPhase2_ofBytes_recvInto _ _ (by simp [hy, hc]), NTCPPhase2_ofBytes_split y c hy]
  obtain ⟨hk1, hk2⟩ := CreateAESKey_ok e
    { s with m_Phase2 := { pubKey := y, encrypted := NTCPPhase2Encrypted.ofBytes c } }
    y e.stackAesKey secret hdh hsecret
  have htt : ∀ b : Bytes, ((NTCPPhase2Encrypted.ofBytes b).hxy).take 32 = b.take 32 := by
    intro b
    simp [NTCPPhase2Encrypted.ofBytes, List.take_take]
  simp only [HandlePhase2Received, hp, Bool.false_eq_true, if_false, SetKeyWithIV, hk1, hk2,
    NTCPPhase2Encrypted_toBytes_ofBytes c hc, htt]

theorem getD_take_of_lt (l : Bytes) (i n : Nat) (h : i < n) :
    (l.take n).getD i 0 = l.getD i 0 := by
  simp only [List.getD_eq_getElem?_getD, List.getElem?_take, if_pos h]

theorem getD_drop_add (l : Bytes) (i n : Nat) : (l.drop n).getD i 0 = l.getD (n + i) 0 := by
  simp only [List.getD_eq_getElem?_getD, List.getElem?_drop]

/-- Changing a byte of the third block of a 48-byte ciphertext leaves the first 32 bytes
of its CBC decryption as they are. -/
theorem tamper_tail (e : Env) (k : CBC) (c : Bytes) (i v : Nat) (hc : c.length = 48)
    (hiv : k.iv.length = 16)
    (hlenD : ∀ b : Bytes, b.length = 16 → (e.aesDecryptBlock k.key b).length = 16)
    (hi : 32 ≤ i) :
    ((decryptData e (some k) (c.set i v)).2).take 32
      = ((decryptData e (some k) c).2).take 32 := by
  rw [decrypt48_take32 e k _ (by simpa using hc) hiv hlenD, decrypt48_take32 e k c hc hiv hlenD]
  have h0 : (c.set i v).take 16 = c.take 16 := take_set_of_le c i 16 v (by omega)
  have h1 : ((c.set i v).drop 16).take 16 = (c.drop 16).take 16 := by
    rw [List.drop_set, if_neg (by omega)]
    exact take_set_of_le _ _ _ _ (by omega)
  rw [h0, h1]

/-- Changing a byte of the first two blocks of a 48-byte ciphertext changes the first 32
bytes of its CBC decryption, when the block functions are inverse to each other. -/
theorem tamper_head (e : Env) (k : CBC) (E : Bytes → Bytes) (c : Bytes) (i v : Nat)
    (hc : c.length = 48) (hiv : k.iv.length = 16)
    (hlenD : ∀ b : Bytes, b.length = 16 → (e.aesDecryptBlock k.key b).length = 16)
    (hinvE : ∀ b : Bytes, b.length = 16 → E (e.aesDecryptBlock k.key b) = b)
    (hi : i < 32) (hv : c.getD i 0 ≠ v) :
    ((decryptData e (some k) (c.set i v)).2).take 32
      ≠ ((decryptData e (some k) c).2).take 32 := by
  rw [decrypt48_take32 e k _ (by simpa using hc) hiv hlenD, decrypt48_take32 e k c hc hiv hlenD]
  have hb0 : (c.take 16).length = 16 := by simp [hc]
  have hb1 : ((c.drop 16).take 16).length = 16 := by simp [hc]
  have hb0s : ((c.set i v).take 16).length = 16 := by simp [hc]
  have hb1s : (((c.set i v).drop 16).take 16).length = 16 := by simp [hc]
  intro heq
  obtain ⟨hP0, hP1⟩ := List.append_inj heq
    (by rw [xorBytes_length_eq _ _ (hlenD _ hb0s) hiv, xorBytes_length_eq _ _ (hlenD _ hb0) hiv])
  by_cases h16 : i < 16
  · have hD := xorBytes_right_inj _ _ _ (by rw [hlenD _ hb0s, hiv]) (by rw [hlenD _ hb0, hiv]) hP0
    have hb := congrArg E hD
    rw [hinvE _ hb0s, hinvE _ hb0, List.set_take] at hb
    exact set_ne_self (c.take 16) i v (by rw [hb0]; exact h16)
      (by rw [getD_take_of_lt c i 16 h16]; exact hv) hb
  · have h0 : (c.set i v).take 16 = c.take 16 := take_set_of_le c i 16 v (by omega)
    rw [h0] at hP1
    have hD := xorBytes_right_inj _ _ _ (by rw [hlenD _ hb1s, hb0]) (by rw [hlenD _ hb1, hb0]) hP1
    have hb := congrArg E hD
    rw [hinvE _ hb1s, hinvE _ hb1, List.drop_set, if_neg (by omega), List.set_take] at hb
    refine set_ne_self ((c.drop 16).take 16) (i - 16) v (by rw [hb1]; omega) ?_ hb
    rw [getD_take_of_lt _ _ 16 (by omega), getD_drop_add]
    have : 16 + (i - 16) = i := by omega
    rw [this]
    exact hv

/-- The Phase 2 message `SendPhase2` writes when DH agreement succeeds: `Y` followed by
the 48-byte CBC encryption of `SHA256 (X ‖ Y) ‖ tsB ‖ filler` under the derived key and
the IV `Y[240..256]`. -/
theorem SendPhase2_message (es : Env) (tB : Nat) (srv : NTCPSession) (secret : Bytes)
    (hY : es.routerIdentity.publicKey.length = 256)
    (hfiller : srv.m_Phase2.encrypted.filler.length = 12)
    (hshaLen : ∀ m : Bytes, (es.sha256 m).length = 32)
    (hdh : es.dhAgree es.privateKey srv.m_Phase1.pubKey = some secret)
    (hsecret : secret.length = 256)
    (hlenE : ∀ k b : Bytes, b.length = 16 → (es.aesEncryptBlock k b).length = 16) :
    (encryptData es
        (some { key := aes_key_from_secret secret,
                iv := (es.routerIdentity.publicKey.drop 240).take 16 })
        (NTCPPhase2Encrypted.toBytes
          { hxy := es.sha256 (srv.m_Phase1.pubKey ++ es.routerIdentity.publicKey),
            timestamp := htobe32 tB,
            filler := srv.m_Phase2.encrypted.filler })).2.length = 48
    ∧ lastWritten (SendPhase2 es tB srv)
      = es.routerIdentity.publicKey ++ (encryptData es
        (some { key := aes_key_from_secret secret,
                iv := (es.routerIdentity.publicKey.drop 240).take 16 })
        (NTCPPhase2Encrypted.toBytes
          { hxy := es.sha256 (srv.m_Phase1.pubKey ++ es.routerIdentity.publicKey),
            timestamp := htobe32 tB,
            filler := srv.m_Phase2.encrypted.filler })).2 := by
  have hE2 : (NTCPPhase2Encrypted.toBytes
      { hxy := es.sha256 (srv.m_Phase1.pubKey ++ es.routerIdentity.publicKey),
        timestamp := htobe32 tB,
        filler := srv.m_Phase2.encrypted.filler }).length = 16 * 3 := by
    exact NTCPPhase2Encrypted_length_toBytes
      { hxy := es.sha256 (srv.m_Phase1.pubKey ++ es.routerIdentity.publicKey),
        timestamp := htobe32 tB,
        filler := srv.m_Phase2.encrypted.filler } (hshaLen _) rfl hfiller
  have h1 : (encryptData es
        (some { key := aes_key_from_secret secret,
                iv := (es.routerIdentity.publicKey.drop 240).take 16 })
        (NTCPPhase2Encrypted.toBytes
          { hxy := es.sha256 (srv.m_Phase1.pubKey ++ es.routerIdentity.publicKey),
            timestamp := htobe32 tB,
            filler := srv.m_Phase2.encrypted.filler })).2.length = 48 := by
    simp only [encryptData, hE2]
    have := (cbcEncryptBlocks_length (es.aesEncryptBlock (aes_key_from_secret secret))
      (hlenE _) 3 ((es.routerIdentity.publicKey.drop 240).take 16) _ (by simp [hY]) hE2).1
    simpa using this
  refine ⟨h1, ?_⟩
  rw [SendPhase2_ok es tB srv secret hdh hsecret]
  simp only [lastWritten, NTCPPhase2Encrypted_toBytes_ofBytes _ h1]
  exact lastWritten_snoc _ _ _

set_option maxRecDepth 1000000 in
theorem phase2_tail_tamper_undetected :
    (lastWritten demoServer2).getD (256 + 40) 0 = 42
    ∧ written (fire demoClientEnv 1000 demoClient2 false
        ((lastWritten demoServer2).set (256 + 40) 255)).trace
      ≠ written demoClient2.trace
    ∧ (fire demoClientEnv 1000 demoClient2 false
        ((lastWritten demoServer2).set (256 + 40) 255)).pending
      = [Handler.HandlePhase3Sent (htobe32 1000)]
    ∧ socketCloses (fire demoClientEnv 1000 demoClient2 false
        ((lastWritten demoServer2).set (256 + 40) 255)).trace = 0 := by
  decide

/-- C12, as the code has it: Phase 2 tamper detection covers the first 32 bytes of the
encrypted block. The server builds Phase 2 with `SendPhase2` and the client reads it
with one byte of the 48-byte encrypted block, at position `i`, replaced by `v`; DH
agreement yields the same secret on both sides and the AES block functions are inverse
to each other (CBC decryption is `P_k = D (C_k) XOR C_{k-1}`). If `i < 32` and `v`
differs from the byte sent, `HandlePhase2Received` calls `Terminate` and writes no
Phase 3. If `32 ≤ i < 48` (the bytes holding the timestamp and the filler) the hash
check passes whatever `v` is: Phase 3 is written and `Terminate` is not called. -/
theorem phase2_tamper_detection (ec es : Env) (now tB : Nat) (c srv : NTCPSession)
    (secret : Bytes) (i v : Nat)
    (hY : es.routerIdentity.publicKey.length = 256)
    (hsrvX : srv.m_Phase1.pubKey = ec.routerIdentity.publicKey)
    (hfiller : srv.m_Phase2.encrypted.filler.length = 12)
    (hsha : ec.sha256 = es.sha256) (hshaLen : ∀ m : Bytes, (es.sha256 m).length = 32)
    (hdhS : es.dhAgree es.privateKey srv.m_Phase1.pubKey = some secret)
    (hdhC : ec.dhAgree ec.privateKey es.routerIdentity.publicKey = some secret)
    (hsecret : secret.length = 256)
    (hinv : ∀ k b : Bytes, b.length = 16 → ec.aesDecryptBlock k (es.aesEncryptBlock k b) = b)
    (hinvE : ∀ k b : Bytes, b.length = 16 → es.aesEncryptBlock k (ec.aesDecryptBlock k b) = b)
    (hlenE : ∀ k b : Bytes, b.length = 16 → (es.aesEncryptBlock k b).length = 16)
    (hlenD : ∀ k b : Bytes, b.length = 16 → (ec.aesDecryptBlock k b).length = 16)
    (hi : i < 48) :
    (i < 32 → (lastWritten (SendPhase2 es tB srv)).getD (256 + i) 0 ≠ v →
      socketCloses (HandlePhase2Received ec now c false
          ((lastWritten (SendPhase2 es tB srv)).set (256 + i) v)).trace
        = socketCloses c.trace + 1
      ∧ registryRemovals (HandlePhase2Received ec now c false
          ((lastWritten (SendPhase2 es tB srv)).set (256 + i) v)).trace
        = registryRemovals c.trace + 1
      ∧ written (HandlePhase2Received ec now c false
          ((lastWritten (SendPhase2 es tB srv)).set (256 + i) v)).trace = written c.trace
      ∧ (HandlePhase2Received ec now c false
          ((lastWritten (SendPhase2 es tB srv)).set (256 + i) v)).pending = c.pending
      ∧ (HandlePhase2Received ec now c false
          ((lastWritten (SendPhase2 es tB srv)).set (256 + i) v)).m_IsEstablished
        = c.m_IsEstablished)
    ∧ (32 ≤ i →
      ∃ msg : Bytes,
        written (HandlePhase2Received ec now c false
            ((lastWritten (SendPhase2 es tB srv)).set (256 + i) v)).trace
          = written c.trace ++ [msg]
        ∧ (HandlePhase2Received ec now c false
            ((lastWritten (SendPhase2 es tB srv)).set (256 + i) v)).pending
          = c.pending ++ [Handler.HandlePhase3Sent (htobe32 now)]
        ∧ socketCloses (HandlePhase2Received ec now c false
            ((lastWritten (SendPhase2 es tB srv)).set (256 + i) v)).trace
          = socketCloses c.trace) := by
  obtain ⟨h48, hmsg⟩ := SendPhase2_message es tB srv secret hY hfiller hshaLen hdhS hsecret hlenE
  have hivlen : ((es.routerIdentity.publicKey.drop 240).take 16).length = 16 := by simp [hY]
  have hE2 : (NTCPPhase2Encrypted.toBytes
      { hxy := es.sha256 (srv.m_Phase1.pubKey ++ es.routerIdentity.publicKey),
        timestamp := htobe32 tB,
        filler := srv.m_Phase2.encrypted.filler }).length = 16 * 3 :=
    NTCPPhase2Encrypted_length_toBytes
      { hxy := es.sha256 (srv.m_Phase1.pubKey ++ es.routerIdentity.publicKey),
        timestamp := htobe32 tB,
        filler := srv.m_Phase2.encrypted.filler } (hshaLen _) rfl hfiller
  obtain ⟨-, hdec, -⟩ := encrypt_decrypt es ec
    { key := aes_key_from_secret secret, iv := (es.routerIdentity.publicKey.drop 240).take 16 }
    _ 3 hE2 hivlen (hinv _) (hlenE _)
  rw [hmsg]
  generalize hc2 : (encryptData es
        (some { key := aes_key_from_secret secret,
                iv := (es.routerIdentity.publicKey.drop 240).take 16 })
        (NTCPPhase2Encrypted.toBytes
          { hxy := es.sha256 (srv.m_Phase1.pubKey ++ es.routerIdentity.publicKey),
            timestamp := htobe32 tB,
            filler := srv.m_Phase2.encrypted.filler })) = enc at h48 hdec
  have hhonest : ((decryptData ec
      (some { key := aes_key_from_secret secret,
              iv := (es.routerIdentity.publicKey.drop 240).take 16 }) enc.2).2).take 32
      = (ec.sha256 (ec.routerIdentity.publicKey ++ es.routerIdentity.publicKey)).take 32 := by
    rw [hdec, hsha, ← hsrvX]
    simp only [NTCPPhase2Encrypted.toBytes, List.append_assoc]
    rw [List.take_append_of_le_length (by rw [hshaLen])]
  have hset : (es.routerIdentity.publicKey ++ enc.2).set (256 + i) v
      = es.routerIdentity.publicKey ++ enc.2.set i v := by
    rw [List.set_append_right _ _ (by rw [hY]; omega), hY, Nat.add_sub_cancel_left]
  have hget : (es.routerIdentity.publicKey ++ enc.2).getD (256 + i) 0 = enc.2.getD i 0 := by
    simp only [List.getD_eq_getElem?_getD]
    rw [List.getElem?_append_right (by rw [hY]; omega), hY, Nat.add_sub_cancel_left]
  rw [hset, hget, HandlePhase2Received_check ec now c es.routerIdentity.publicKey (enc.2.set i v)
    secret hY (by simpa using h48) hdhC hsecret]
  refine ⟨?_, ?_⟩
  · intro h32 hv
    have hne := tamper_head ec
      { key := aes_key_from_secret secret,
        iv := (es.routerIdentity.publicKey.drop 240).take 16 }
      (es.aesEncryptBlock (aes_key_from_secret secret)) enc.2 i v h48 hivlen (hlenD _)
      (hinvE _) h32 hv
    rw [hhonest] at hne
    rw [if_pos (fun h => hne h.symm)]
    obtain ⟨-, h1, h2, h3, h4, h5⟩ := Terminate_frame
      ({ c with
          m_Phase2 :=
            { pubKey := es.routerIdentity.publicKey,
              encrypted := NTCPPhase2Encrypted.ofBytes (decryptData ec
                (some { key := aes_key_from_secret secret,
                        iv := (es.routerIdentity.publicKey.drop 240).take 16 })
                (enc.2.set i v)).2 },
          m_Decryption := (decryptData ec
            (some { key := aes_key_from_secret secret,
                    iv := (es.routerIdentity.publicKey.drop 240).take 16 })
            (enc.2.set i v)).1,
          m_Encryption := some
            { key := aes_key_from_secret secret,
              iv := (c.m_Phase1.HXxorHI.drop 16).take 16 } } : NTCPSession)
    exact ⟨h1, h2, h3, h4, h5⟩
  · intro h32
    have heq := tamper_tail ec
      { key := aes_key_from_secret secret,
        iv := (es.routerIdentity.publicKey.drop 240).take 16 }
      enc.2 i v h48 hivlen (hlenD _) h32
    rw [hhonest] at heq
    rw [if_neg (fun h => h heq.symm)]
    refine ⟨_, SendPhase3_written ec now _, (SendPhase3_frame ec now _).2.1, ?_⟩
    rw [(SendPhase3_frame ec now _).1]
    exact socketCloses_snoc_other _ _ (by simp)

set_option maxRecDepth 1000000 in
theorem phase2_tamper_detection_witness :
    (socketCloses (HandlePhase2Received demoClientEnv 1000 demoClient2 false
        ((lastWritten (SendPhase2 demoEnv 2000
          { demoSession with m_Phase1 := demoClient1.m_Phase1 })).set (256 + 5) 255)).trace
      = socketCloses demoClient2.trace + 1
    ∧ written (HandlePhase2Received demoClientEnv 1000 demoClient2 false
        ((lastWritten (SendPhase2 demoEnv 2000
          { demoSession with m_Phase1 := demoClient1.m_Phase1 })).set (256 + 5) 255)).trace
      = written demoClient2.trace)
    ∧ ∃ msg : Bytes,
        written (HandlePhase2Received demoClientEnv 1000 demoClient2 false
            ((lastWritten (SendPhase2 demoEnv 2000
              { demoSession with m_Phase1 := demoClient1.m_Phase1 })).set (256 + 40) 255)).trace
          = written demoClient2.trace ++ [msg] :=
  ⟨⟨((phase2_tamper_detection demoClientEnv demoEnv 1000 2000 demoClient2
        { demoSession with m_Phase1 := demoClient1.m_Phase1 } (List.replicate 256 200) 5 255
        (List.length_replicate _ _) (by decide) (List.length_replicate _ _) rfl demo_sha_length
        rfl rfl (List.length_replicate _ _) demo_inverse_all demo_inverse_all demo_length_all
        demo_length_all (by decide)).1 (by decide) (by decide)).1,
    ((phase2_tamper_detection demoClientEnv demoEnv 1000 2000 demoClient2
        { demoSession with m_Phase1 := demoClient1.m_Phase1 } (List.replicate 256 200) 5 255
        (List.length_replicate _ _) (by decide) (List.length_replicate _ _) rfl demo_sha_length
        rfl rfl (List.length_replicate _ _) demo_inverse_all demo_inverse_all demo_length_all
        demo_length_all (by decide)).1 (by decide) (by decide)).2.2.1⟩,
    ((phase2_tamper_detection demoClientEnv demoEnv 1000 2000 demoClient2
        { demoSession with m_Phase1 := demoClient1.m_Phase1 } (List.replicate 256 200) 40 255
        (List.length_replicate _ _) (by decide) (List.length_replicate _ _) rfl demo_sha_length
        rfl rfl (List.length_replicate _ _) demo_inverse_all demo_inverse_all demo_length_all
        demo_length_all (by decide)).2 (by decide)).imp (fun _ h => h.1)⟩

/-! ## The running IV of the encryption -/

theorem HandlePhase2Received_eq (e : Env) (now : Nat) (s : NTCPSession) (received : Bytes) :
    HandlePhase2Received e now s false received =
      if (e.sha256 (e.routerIdentity.publicKey
            ++ (phase2Decrypted e s received).m_Phase2.pubKey)).take 32
          ≠ (phase2Decrypted e s received).m_Phase2.encrypted.hxy.take 32 then
        (phase2Decrypted e s received).Terminate
      else SendPhase3 e now (phase2Decrypted e s received) := by
  simp only [HandlePhase2Received, phase2Decrypted, Bool.false_eq_true, if_false]

theorem HandlePhase3Received_eq (e : Env) (s : NTCPSession) (received tsB : Bytes) :
    HandlePhase3Received e s false received tsB =
      if !e.dsaVerify (phase3Decrypted e s received).m_RemoteRouterInfo.routerIdentity.signingKey
          (SignedData.toBytes
            { x := s.m_Phase1.pubKey, y := s.m_Phase2.pubKey, ident := e.identHash,
              tsA := (phase3Decrypted e s received).m_Phase3.timestamp, tsB := tsB })
          (phase3Decrypted e s received).m_Phase3.signature then
        (phase3Decrypted e s received).Terminate
      else SendPhase4 e (phase3Decrypted e s received) tsB := by
  simp only [HandlePhase3Received, phase3Decrypted, Bool.false_eq_true, if_false]

theorem SendPhase3_plain (e : Env) (now : Nat) (s : NTCPSession) :
    lastWritten (SendPhase3 e now s)
      = NTCPPhase3.toBytes (NTCPPhase3.ofBytes
          (encryptData e s.m_Encryption (phase3Plain e now s)).2)
    ∧ (SendPhase3 e now s).m_Encryption
      = (encryptData e s.m_Encryption (phase3Plain e now s)).1 := by
  simp only [SendPhase3, async_write, lastWritten, phase3Plain]
  exact ⟨lastWritten_snoc _ _ _, trivial⟩

theorem SendPhase4_plain (e : Env) (s : NTCPSession) (tsB : Bytes) :
    lastWritten (SendPhase4 e s tsB)
      = NTCPPhase4.toBytes (NTCPPhase4.ofBytes
          (encryptData e s.m_Encryption (phase4Plain e s tsB)).2)
    ∧ (SendPhase4 e s tsB).m_Encryption
      = (encryptData e s.m_Encryption (phase4Plain e s tsB)).1 := by
  simp only [SendPhase4, async_write, lastWritten, phase4Plain]
  exact ⟨lastWritten_snoc _ _ _, trivial⟩

theorem last16_length (b : Bytes) (h : 16 ≤ b.length) : (last16 b).length = 16 := by
  simp only [last16, List.length_drop]
  omega

theorem last16_append (a b : Bytes) (h : 16 ≤ b.length) : last16 (a ++ b) = last16 b := by
  simp only [last16, List.length_append]
  rw [List.drop_append_eq_append_drop]
  have h1 : a.length + b.length - 16 - a.length = b.length - 16 := by omega
  rw [h1, List.drop_of_length_le (by omega), List.nil_append]

theorem last16_self (b : Bytes) (h : b.length = 16) : last16 b = b := by
  simp only [last16, h, Nat.sub_self, List.drop_zero]

/-- After CBC encryption of at least one block the running IV is the last 16 bytes of
the ciphertext. -/
theorem cbc_final_iv (E : Bytes → Bytes)
    (hlen : ∀ b : Bytes, b.length = 16 → (E b).length = 16)
    (n : Nat) (iv data : Bytes) (hiv : iv.length = 16) (hdata : data.length = 16 * (n + 1)) :
    (cbcEncryptBlocks E iv (fullBlocks (n + 1) data)).1
      = last16 (cbcEncryptBlocks E iv (fullBlocks (n + 1) data)).2 := by
  induction n generalizing iv data with
  | zero =>
    have hb : (data.take 16).length = 16 := by simp; omega
    have hx : (xorBytes (data.take 16) iv).length = 16 := by
      rw [xorBytes_length _ _ (by rw [hb, hiv]), hb]
    simp only [fullBlocks, cbcEncryptBlocks, List.append_nil]
    exact (last16_self _ (hlen _ hx)).symm
  | succ k ih =>
    have hb : (data.take 16).length = 16 := by simp; omega
    have hx : (xorBytes (data.take 16) iv).length = 16 := by
      rw [xorBytes_length _ _ (by rw [hb, hiv]), hb]
    have hc := hlen _ hx
    have hd : (data.drop 16).length = 16 * (k + 1) := by simp; omega
    have h1 := ih (E (xorBytes (data.take 16) iv)) (data.drop 16) hc hd
    have h2 := (cbcEncryptBlocks_length E hlen (k + 1) (E (xorBytes (data.take 16) iv))
      (data.drop 16) hc hd).1
    rw [fullBlocks, cbcEncryptBlocks]
    simp only
    rw [h1, last16_append _ _ (by rw [h2]; omega)]

/-- One call of `ProcessData` on a keyed cipher over a positive number of whole blocks:
the plaintext is encrypted in CBC mode from the running IV, and the running IV becomes
the last 16 bytes of the ciphertext. -/
theorem encryptData_chain (e : Env) (k : CBC) (data : Bytes) (n : Nat)
    (hlen : ∀ b : Bytes, b.length = 16 → (e.aesEncryptBlock k.key b).length = 16)
    (hiv : k.iv.length = 16) (hdata : data.length = 16 * (n + 1)) :
    (encryptData e (some k) data).2
      = (cbcEncryptBlocks (e.aesEncryptBlock k.key) k.iv (fullBlocks (n + 1) data)).2
    ∧ (encryptData e (some k) data).2.length = 16 * (n + 1)
    ∧ (encryptData e (some k) data).1
      = some { key := k.key, iv := last16 (encryptData e (some k) data).2 } := by
  have hn : data.length / 16 = n + 1 := by omega
  simp only [encryptData, hn]
  refine ⟨trivial, (cbcEncryptBlocks_length _ hlen (n + 1) k.iv data hiv hdata).1, ?_⟩
  rw [cbc_final_iv _ hlen n k.iv data hiv hdata]

theorem sentCiphertexts_append (a b : List Effect) :
    sentCiphertexts (a ++ b) = sentCiphertexts a ++ sentCiphertexts b := by
  induction a with
  | nil => simp [sentCiphertexts]
  | cons x xs ih =>
    cases x with
    | asyncWrite d h => cases h <;> simp [sentCiphertexts, ih]
    | _ => simp [sentCiphertexts, ih]

theorem getLast_snoc_map (l : List Bytes) (c : Bytes) :
    ((l ++ [c]).getLast?).map last16 = some (last16 c) := by
  simp

/-- A session that has just written the ciphertext `c` (at least one block) and whose
cipher holds the last 16 bytes of `c` as running IV is chained. -/
theorem Chained_of_write (s t : NTCPSession) (d c : Bytes) (h : Handler) (key : Bytes)
    (htr : t.trace = s.trace ++ [Effect.asyncWrite d h])
    (hsent : sentCiphertexts [Effect.asyncWrite d h] = [c])
    (hc : 16 ≤ c.length)
    (henc : t.m_Encryption = some { key := key, iv := last16 c }) : Chained t := by
  refine ⟨_, henc, last16_length c hc, ?_⟩
  rw [htr, sentCiphertexts_append, hsent]
  exact getLast_snoc_map _ _

theorem phase3Plain_length (e : Env) (now : Nat) (s : NTCPSession)
    (h1 : e.routerIdentity.publicKey.length = 256)
    (h2 : e.routerIdentity.signingKey.length = 128)
    (h3 : e.routerIdentity.certificate.length = 3)
    (hsign : ∀ m : Bytes, (e.sign m).length = 40)
    (hpad : s.m_Phase3.padding.length = 15) :
    (phase3Plain e now s).length = 16 * (27 + 1) := by
  simp only [phase3Plain]
  exact NTCPPhase3_length_toBytes
    { size := htobe16 387, ident := e.routerIdentity, timestamp := htobe32 now,
      signature := e.sign (SignedData.toBytes
        { x := s.m_Phase1.pubKey, y := s.m_Phase2.pubKey,
          ident := s.m_RemoteRouterInfo.identHash,
          tsA := htobe32 now, tsB := s.m_Phase2.encrypted.timestamp }),
      padding := s.m_Phase3.padding } rfl h1 h2 h3 rfl (hsign _) hpad

theorem phase4Plain_length (e : Env) (s : NTCPSession) (tsB : Bytes)
    (hsign : ∀ m : Bytes, (e.sign m).length = 40)
    (hpad : s.m_Phase4.padding.length = 8) :
    (phase4Plain e s tsB).length = 16 * (2 + 1) := by
  simp only [phase4Plain, NTCPPhase4.toBytes, List.length_append, hsign, hpad]

/-- `SendPhase3` on a keyed session: Phase 3 is the CBC encryption of the record under
the running IV, and the session is chained afterwards. -/
theorem SendPhase3_chain (e : Env) (now : Nat) (s : NTCPSession) (k : CBC)
    (hlen : ∀ b : Bytes, b.length = 16 → (e.aesEncryptBlock k.key b).length = 16)
    (henc : s.m_Encryption = some k) (hiv : k.iv.length = 16)
    (h1 : e.routerIdentity.publicKey.length = 256)
    (h2 : e.routerIdentity.signingKey.length = 128)
    (h3 : e.routerIdentity.certificate.length = 3)
    (hsign : ∀ m : Bytes, (e.sign m).length = 40)
    (hpad : s.m_Phase3.padding.length = 15) :
    lastWritten (SendPhase3 e now s)
      = (cbcEncryptBlocks (e.aesEncryptBlock k.key) k.iv
          (fullBlocks 28 (phase3Plain e now s))).2
    ∧ Chained (SendPhase3 e now s) := by
  obtain ⟨hw, he⟩ := SendPhase3_plain e now s
  obtain ⟨c1, c2, c3⟩ := encryptData_chain e k (phase3Plain e now s) 27 hlen hiv
    (phase3Plain_length e now s h1 h2 h3 hsign hpad)
  rw [henc] at hw he
  rw [NTCPPhase3_toBytes_ofBytes _ (by rw [c2])] at hw
  refine ⟨by rw [hw, c1], ?_⟩
  refine Chained_of_write s _ _ (encryptData e (some k) (phase3Plain e now s)).2 _ k.key
    (SendPhase3_frame e now s).1 ?_ (by rw [c2]; omega) (by rw [he, c3])
  have hl : lastWritten (SendPhase3 e now s) = (SendPhase3 e now s).m_Phase3.toBytes := by
    simp only [lastWritten, (SendPhase3_frame e now s).1]
    exact lastWritten_snoc _ _ _
  simp only [sentCiphertexts]
  rw [← hl, hw]

/-- `SendPhase4` on a keyed session: Phase 4 is the CBC encryption of the record under
the running IV, and the session is chained afterwards. -/
theorem SendPhase4_chain (e : Env) (s : NTCPSession) (tsB : Bytes) (k : CBC)
    (hlen : ∀ b : Bytes, b.length = 16 → (e.aesEncryptBlock k.key b).length = 16)
    (henc : s.m_Encryption = some k) (hiv : k.iv.length = 16)
    (hsign : ∀ m : Bytes, (e.sign m).length = 40)
    (hpad : s.m_Phase4.padding.length = 8) :
    lastWritten (SendPhase4 e s tsB)
      = (cbcEncryptBlocks (e.aesEncryptBlock k.key) k.iv
          (fullBlocks 3 (phase4Plain e s tsB))).2
    ∧ Chained (SendPhase4 e s tsB) := by
  obtain ⟨hw, he⟩ := SendPhase4_plain e s tsB
  obtain ⟨c1, c2, c3⟩ := encryptData_chain e k (phase4Plain e s tsB) 2 hlen hiv
    (phase4Plain_length e s tsB hsign hpad)
  rw [henc] at hw he
  rw [NTCPPhase4_toBytes_ofBytes _ (by rw [c2])] at hw
  refine ⟨by rw [hw, c1], ?_⟩
  refine Chained_of_write s _ _ (encryptData e (some k) (phase4Plain e s tsB)).2 _ k.key
    (SendPhase4_frame e s tsB).1 ?_ (by rw [c2]; omega) (by rw [he, c3])
  have hl : lastWritten (SendPhase4 e s tsB) = (SendPhase4 e s tsB).m_Phase4.toBytes := by
    simp only [lastWritten, (SendPhase4_frame e s tsB).1]
    exact lastWritten_snoc _ _ _
  simp only [sentCiphertexts]
  rw [← hl, hw]

/-- `Send` on a keyed session: the frame is the CBC encryption of the plaintext frame
under the running IV, and the session is chained afterwards. -/
theorem Send_chain (e : Env) (s : NTCPSession) (buf : Bytes) (len : Nat) (z : Bool) (k : CBC)
    (hlen : ∀ b : Bytes, b.length = 16 → (e.aesEncryptBlock k.key b).length = 16)
    (henc : s.m_Encryption = some k) (hiv : k.iv.length = 16)
    (hcap : len + sendPadding len + 6 ≤ s.m_SendBuffer.length) (hbuf : len ≤ buf.length) :
    lastWritten (Send e s buf len z)
      = (cbcEncryptBlocks (e.aesEncryptBlock k.key) k.iv
          (fullBlocks ((len + sendPadding len + 6) / 16)
            (plainFrame s.m_SendBuffer buf len z))).2
    ∧ Chained (Send e s buf len z) := by
  obtain ⟨htr, he, -⟩ := Send_keyed e s buf len z k henc hiv hlen hcap hbuf
  have hF := plainFrame_length s.m_SendBuffer buf len z hcap hbuf
  have hmod : (len + sendPadding len + 6) % 16 = 0 := by
    rw [sendPadding_round]; exact round_up_16_mod _
  obtain ⟨n, hn⟩ : ∃ n, (len + sendPadding len + 6) / 16 = n + 1 :=
    ⟨(len + sendPadding len + 6) / 16 - 1, by omega⟩
  have hdata : (plainFrame s.m_SendBuffer buf len z).length = 16 * (n + 1) := by
    rw [hF]; omega
  rw [hn] at htr he ⊢
  have hcl := (cbcEncryptBlocks_length (e.aesEncryptBlock k.key) hlen (n + 1) k.iv _ hiv hdata).1
  refine ⟨?_, ?_⟩
  · simp only [lastWritten, htr]
    exact lastWritten_snoc _ _ _
  · refine Chained_of_write s _ _ _ _ k.key htr rfl (by rw [hcl]; omega) ?_
    rw [he, cbc_final_iv _ hlen n k.iv _ hiv hdata]

/-- `SendPhase2` when DH agreement succeeds starts the chain of the server: the running
IV of `m_Encryption` is the last 16 bytes of the Phase 2 message. -/
theorem SendPhase2_chain (e : Env) (now : Nat) (s : NTCPSession) (secret : Bytes)
    (hlen : ∀ k b : Bytes, b.length = 16 → (e.aesEncryptBlock k b).length = 16)
    (hY : e.routerIdentity.publicKey.length = 256)
    (hfiller : s.m_Phase2.encrypted.filler.length = 12)
    (hshaLen : ∀ m : Bytes, (e.sha256 m).length = 32)
    (hdh : e.dhAgree e.privateKey s.m_Phase1.pubKey = some secret)
    (hsecret : secret.length = 256) :
    (SendPhase2 e now s).m_Encryption
      = some { key := aes_key_from_secret secret,
               iv := last16 (lastWritten (SendPhase2 e now s)) }
    ∧ Chained (SendPhase2 e now s) := by
  obtain ⟨h48, hmsg⟩ := SendPhase2_message e now s secret hY hfiller hshaLen hdh hsecret hlen
  have hE2 : (NTCPPhase2Encrypted.toBytes
      { hxy := e.sha256 (s.m_Phase1.pubKey ++ e.routerIdentity.publicKey),
        timestamp := htobe32 now,
        filler := s.m_Phase2.encrypted.filler }).length = 16 * (2 + 1) :=
    NTCPPhase2Encrypted_length_toBytes
      { hxy := e.sha256 (s.m_Phase1.pubKey ++ e.routerIdentity.publicKey),
        timestamp := htobe32 now,
        filler := s.m_Phase2.encrypted.filler } (hshaLen _) rfl hfiller
  obtain ⟨-, c2, c3⟩ := encryptData_chain e
    { key := aes_key_from_secret secret, iv := (e.routerIdentity.publicKey.drop 240).take 16 }
    _ 2 (hlen _) (by simp [hY]) hE2
  have henc : (SendPhase2 e now s).m_Encryption
      = some { key := aes_key_from_secret secret,
               iv := last16 (lastWritten (SendPhase2 e now s)) } := by
    rw [hmsg, last16_append _ _ (by rw [h48]; omega), ← c3,
      SendPhase2_ok e now s secret hdh hsecret]
  have htr := (SendPhase2_frame e now s).1
  have hdf : dhFailureTrace e s.m_Phase1.pubKey = [] := by
    simp only [dhFailureTrace, hdh]
  rw [hdf, List.append_nil] at htr
  have hl : lastWritten (SendPhase2 e now s) = (SendPhase2 e now s).m_Phase2.toBytes := by
    simp only [lastWritten, htr]
    exact lastWritten_snoc _ _ _
  refine ⟨henc, Chained_of_write s _ _ ((lastWritten (SendPhase2 e now s)).drop 256) _
    (aes_key_from_secret secret) htr ?_ ?_ ?_⟩
  · simp only [sentCiphertexts]
    rw [← hl]
  · rw [hmsg]
    simp [hY, h48]
  · rw [henc, hmsg]
    have hd : (e.routerIdentity.publicKey ++ (encryptData e
        (some { key := aes_key_from_secret secret,
                iv := (e.routerIdentity.publicKey.drop 240).take 16 })
        (NTCPPhase2Encrypted.toBytes
          { hxy := e.sha256 (s.m_Phase1.pubKey ++ e.routerIdentity.publicKey),
            timestamp := htobe32 now,
            filler := s.m_Phase2.encrypted.filler })).2).drop 256
        = (encryptData e
        (some { key := aes_key_from_secret secret,
                iv := (e.routerIdentity.publicKey.drop 240).take 16 })
        (NTCPPhase2Encrypted.toBytes
          { hxy := e.sha256 (s.m_Phase1.pubKey ++ e.routerIdentity.publicKey),
            timestamp := htobe32 now,
            filler := s.m_Phase2.encrypted.filler })).2 := by
      rw [← hY]
      exact List.drop_left _ _
    rw [hd, last16_append _ _ (by rw [h48]; omega)]

/-- The session `HandlePhase2Received` has when it compares the hashes, when DH agreement
succeeds: `m_Encryption` is keyed with the IV `HXxorHI[16..32]`. -/
theorem phase2Decrypted_enc (e : Env) (s : NTCPSession) (received secret : Bytes)
    (hrecv : received.length = 304)
    (hdh : e.dhAgree e.privateKey (received.take 256) = some secret)
    (hsecret : secret.length = 256) :
    (phase2Decrypted e s received).m_Encryption
      = some { key := aes_key_from_secret secret,
               iv := (s.m_Phase1.HXxorHI.drop 16).take 16 }
    ∧ (phase2Decrypted e s received).trace = s.trace
    ∧ (phase2Decrypted e s received).pending = s.pending
    ∧ (phase2Decrypted e s received).m_Phase3 = s.m_Phase3 := by
  have hp : (NTCPPhase2.ofBytes (recvInto received s.m_Phase2.toBytes)).pubKey
      = received.take 256 := by
    rw [NTCPPhase2_ofBytes_recvInto _ _ hrecv]
    rfl
  obtain ⟨hk1, hk2⟩ := CreateAESKey_ok e
    { s with m_Phase2 := NTCPPhase2.ofBytes (recvInto received s.m_Phase2.toBytes) }
    (received.take 256) e.stackAesKey secret hdh hsecret
  simp only [phase2Decrypted, SetKeyWithIV, hp, hk1, hk2]
  exact ⟨trivial, trivial, trivial, trivial⟩

theorem sentCiphertexts_parseEvents (n : Nat) (buf : Bytes) :
    sentCiphertexts (parseEvents n buf).1 = [] := by
  induction n generalizing buf with
  | zero => simp [parseEvents, sentCiphertexts]
  | succ k ih =>
    simp only [parseEvents]
    by_cases h2 : buf.length > 2
    · simp only [if_pos h2]
      by_cases hl : frameLength (be16toh buf) > buf.length
      · simp [if_pos hl, sentCiphertexts]
      · simp only [if_neg hl]
        have := ih (buf.drop (frameLength (be16toh buf)))
        by_cases hd : be16toh buf ≠ 0
        · simp [hd, sentCiphertexts, this]
        · simp [hd, sentCiphertexts, this]
    · simp [if_neg h2, sentCiphertexts]

/-- A step that leaves `m_Encryption` as it is and sends no ciphertext keeps the chain. -/
theorem Chained_of_frame (s t : NTCPSession) (ev : List Effect)
    (henc : t.m_Encryption = s.m_Encryption) (htr : t.trace = s.trace ++ ev)
    (hev : sentCiphertexts ev = []) (hc : Chained s) : Chained t := by
  obtain ⟨k, hk, hiv, hl⟩ := hc
  refine ⟨k, by rw [henc, hk], hiv, ?_⟩
  rw [htr, sentCiphertexts_append, hev, List.append_nil]
  exact hl

theorem HandleReceived_chain (e : Env) (s : NTCPSession) (received : Bytes)
    (hc : Chained s) : Chained (HandleReceived e s false received) := by
  simp only [HandleReceived, DecryptReceived_eq, Receive, m_ReceiveBufferOffset,
    Bool.false_eq_true, if_false]
  split_ifs
  · refine Chained_of_frame s _ (_ ++ [_]) rfl (List.append_assoc _ _ _) ?_ hc
    simp only [parseAll, sentCiphertexts_append, sentCiphertexts_parseEvents]
    rfl
  · refine Chained_of_frame s _ (_ ++ [_]) rfl (List.append_assoc _ _ _) ?_ hc
    simp only [parseAll, sentCiphertexts_append, sentCiphertexts_parseEvents]
    rfl
  · exact Chained_of_frame s _ _ rfl rfl rfl hc

/-! ## C13: CBC chaining -/

theorem SendPhase4_sendBuffer (e : Env) (s : NTCPSession) (tsB : Bytes) :
    (SendPhase4 e s tsB).m_SendBuffer = s.m_SendBuffer := by
  simp only [SendPhase4, async_write]

theorem SendPhase2_sendBuffer (e : Env) (now : Nat) (s : NTCPSession) :
    (SendPhase2 e now s).m_SendBuffer = s.m_SendBuffer
    ∧ (SendPhase2 e now s).m_Phase4 = s.m_Phase4 := by
  simp only [SendPhase2, async_write, CreateAESKey_fst]
  exact ⟨trivial, trivial⟩

set_option maxRecDepth 1000000 in
theorem demo_phase2_length : (lastWritten demoServer2).length = 304 := by decide

set_option maxRecDepth 1000000 in
theorem demo_phase2_check :
    (demoClientEnv.sha256 (demoClientEnv.routerIdentity.publicKey
      ++ (phase2Decrypted demoClientEnv demoClient2
            (lastWritten demoServer2)).m_Phase2.pubKey)).take 32
    = (phase2Decrypted demoClientEnv demoClient2
        (lastWritten demoServer2)).m_Phase2.encrypted.hxy.take 32 := by
  decide

set_option maxRecDepth 1000000 in
theorem demo_client_hx_length : demoClient2.m_Phase1.HXxorHI.length = 32 := by decide

set_option maxRecDepth 1000000 in
theorem phase3_has_no_preceding_ciphertext :
    sentCiphertexts demoClient2.trace = []
    ∧ lastWritten demoClient3
      = (cbcEncryptBlocks
          (demoClientEnv.aesEncryptBlock (aes_key_from_secret (List.replicate 256 200)))
          ((demoClient2.m_Phase1.HXxorHI.drop 16).take 16)
          (fullBlocks 28 (phase3Plain demoClientEnv 1000
            (phase2Decrypted demoClientEnv demoClient2 (lastWritten demoServer2))))).2
    ∧ ((sentCiphertexts demoClient2.trace).getLast?).map last16
      ≠ some ((demoClient2.m_Phase1.HXxorHI.drop 16).take 16) := by
  decide

/-- C13, as the code has it: CBC chaining. The AES block function returns 16 bytes,
signatures are 40 bytes long and SHA-256 digests 32 (`Chained s`: the running IV of
`m_Encryption` is the last 16 bytes of the last ciphertext the session has sent).

* Server: `SendPhase2`, when DH agreement succeeds, leaves the session chained.
* Phase 4 and every frame of `Send`, on a chained session: the message written is the
  CBC encryption of its plaintext under the key and the running IV of `m_Encryption`,
  that IV is the last 16 bytes of the ciphertext sent immediately before, and the
  session is chained again.
* The handlers that run between two sends (on success) keep the session chained.
* Client: Phase 3 is the first ciphertext the client sends. When DH agreement succeeds
  and the hash check passes, `HandlePhase2Received` writes Phase 3 encrypted under the
  IV `HXxorHI[16..32]`, the last 16 bytes of the Phase 1 record, and leaves the session
  chained. -/
theorem cbc_chaining (e : Env)
    (hlen : ∀ k b : Bytes, b.length = 16 → (e.aesEncryptBlock k b).length = 16)
    (hsign : ∀ m : Bytes, (e.sign m).length = 40)
    (hshaLen : ∀ m : Bytes, (e.sha256 m).length = 32) :
    (∀ (now : Nat) (s : NTCPSession) (secret : Bytes),
      e.routerIdentity.publicKey.length = 256 →
      s.m_Phase2.encrypted.filler.length = 12 →
      e.dhAgree e.privateKey s.m_Phase1.pubKey = some secret →
      secret.length = 256 →
      Chained (SendPhase2 e now s))
    ∧ (∀ (s : NTCPSession) (tsB : Bytes),
      Chained s → s.m_Phase4.padding.length = 8 →
      ∃ k : CBC, s.m_Encryption = some k
        ∧ ((sentCiphertexts s.trace).getLast?).map last16 = some k.iv
        ∧ lastWritten (SendPhase4 e s tsB)
          = (cbcEncryptBlocks (e.aesEncryptBlock k.key) k.iv
              (fullBlocks 3 (phase4Plain e s tsB))).2
        ∧ Chained (SendPhase4 e s tsB))
    ∧ (∀ (s : NTCPSession) (buf : Bytes) (len : Nat) (z : Bool),
      Chained s → len + sendPadding len + 6 ≤ s.m_SendBuffer.length → len ≤ buf.length →
      ∃ k : CBC, s.m_Encryption = some k
        ∧ ((sentCiphertexts s.trace).getLast?).map last16 = some k.iv
        ∧ lastWritten (Send e s buf len z)
          = (cbcEncryptBlocks (e.aesEncryptBlock k.key) k.iv
              (fullBlocks ((len + sendPadding len + 6) / 16)
                (plainFrame s.m_SendBuffer buf len z))).2
        ∧ Chained (Send e s buf len z))
    ∧ (∀ (s : NTCPSession) (ts received : Bytes),
      Chained s →
      Chained (HandlePhase2Sent s false ts) ∧ Chained (phase3Decrypted e s received)
      ∧ Chained (HandlePhase3Sent s false ts) ∧ Chained (HandlePhase4Sent s false)
      ∧ Chained (HandleSent s false) ∧ Chained (HandleReceived e s false received))
    ∧ (∀ (now : Nat) (s : NTCPSession) (received secret : Bytes),
      received.length = 304 →
      e.dhAgree e.privateKey (received.take 256) = some secret →
      secret.length = 256 →
      s.m_Phase1.HXxorHI.length = 32 →
      e.routerIdentity.publicKey.length = 256 →
      e.routerIdentity.signingKey.length = 128 →
      e.routerIdentity.certificate.length = 3 →
      s.m_Phase3.padding.length = 15 →
      (e.sha256 (e.routerIdentity.publicKey
          ++ (phase2Decrypted e s received).m_Phase2.pubKey)).take 32
        = (phase2Decrypted e s received).m_Phase2.encrypted.hxy.take 32 →
      (s.m_Phase1.HXxorHI.drop 16).take 16 = last16 s.m_Phase1.toBytes
      ∧ lastWritten (HandlePhase2Received e now s false received)
        = (cbcEncryptBlocks (e.aesEncryptBlock (aes_key_from_secret secret))
            ((s.m_Phase1.HXxorHI.drop 16).take 16)
            (fullBlocks 28 (phase3Plain e now (phase2Decrypted e s received)))).2
      ∧ Chained (HandlePhase2Received e now s false received)) := by
  refine ⟨?_, ?_, ?_, ?_, ?_⟩
  · intro now s secret hY hfiller hdh hsecret
    exact (SendPhase2_chain e now s secret hlen hY hfiller hshaLen hdh hsecret).2
  · intro s tsB hc hpad
    obtain ⟨k, hk, hiv, hl⟩ := hc
    obtain ⟨h1, h2⟩ := SendPhase4_chain e s tsB k (hlen _) hk hiv hsign hpad
    exact ⟨k, hk, hl, h1, h2⟩
  · intro s buf len z hc hcap hbuf
    obtain ⟨k, hk, hiv, hl⟩ := hc
    obtain ⟨h1, h2⟩ := Send_chain e s buf len z k (hlen _) hk hiv hcap hbuf
    exact ⟨k, hk, hl, h1, h2⟩
  · intro s ts received hc
    refine ⟨?_, ?_, ?_, ?_, ?_, ?_⟩
    · exact Chained_of_frame s _ [Effect.asyncRead 448 (Handler.HandlePhase3Received ts)]
        rfl rfl rfl hc
    · exact Chained_of_frame s _ [] rfl (List.append_nil _).symm rfl hc
    · exact Chained_of_frame s _ [Effect.asyncRead 48 (Handler.HandlePhase4Received ts)]
        rfl rfl rfl hc
    · exact Chained_of_frame s _
        [Effect.asyncReadSome (NTCP_MAX_MESSAGE_SIZE * 2 - 0) Handler.HandleReceived]
        rfl rfl rfl hc
    · exact hc
    · exact HandleReceived_chain e s received hc
  · intro now s received secret hrecv hdh hsecret hHX hi1 hi2 hi3 hpad hcheck
    obtain ⟨henc, -, -, hp3⟩ := phase2Decrypted_enc e s received secret hrecv hdh hsecret
    rw [HandlePhase2Received_eq, if_neg (fun h => h hcheck)]
    obtain ⟨h1, h2⟩ := SendPhase3_chain e now (phase2Decrypted e s received)
      { key := aes_key_from_secret secret, iv := (s.m_Phase1.HXxorHI.drop 16).take 16 }
      (hlen _) henc (by simp [hHX]) hi1 hi2 hi3 hsign (by rw [hp3]; exact hpad)
    refine ⟨?_, h1, h2⟩
    simp only [NTCPPhase1.toBytes]
    rw [last16_append _ _ (by omega)]
    simp only [last16, hHX]
    exact List.take_of_length_le (by simp [hHX])

theorem cbc_chaining_witness :
    Chained (SendPhase2 demoEnv 2000 { demoSession with m_Phase1 := demoClient1.m_Phase1 })
    ∧ Chained (SendPhase4 demoEnv
        (SendPhase2 demoEnv 2000 { demoSession with m_Phase1 := demoClient1.m_Phase1 })
        (htobe32 2000))
    ∧ Chained (Send demoEnv
        (SendPhase4 demoEnv
          (SendPhase2 demoEnv 2000 { demoSession with m_Phase1 := demoClient1.m_Phase1 })
          (htobe32 2000))
        [1, 2, 3] 3 false)
    ∧ Chained (HandlePhase2Received demoClientEnv 1000 demoClient2 false
        (lastWritten demoServer2)) := by
  have hs := cbc_chaining demoEnv demo_length_all demo_sign_length demo_sha_length
  have hc := cbc_chaining demoClientEnv demo_length_all demo_sign_length demo_sha_length
  have h2 := hs.1 2000 { demoSession with m_Phase1 := demoClient1.m_Phase1 }
    (List.replicate 256 200) (List.length_replicate 256 2) (List.length_replicate 12 0) rfl
    (List.length_replicate 256 200)
  have hpad4 : (SendPhase2 demoEnv 2000
      { demoSession with m_Phase1 := demoClient1.m_Phase1 }).m_Phase4.padding.length = 8 := by
    rw [(SendPhase2_sendBuffer _ _ _).2]
    exact List.length_replicate 8 0
  have hcap : 3 + sendPadding 3 + 6 ≤ (SendPhase4 demoEnv
      (SendPhase2 demoEnv 2000 { demoSession with m_Phase1 := demoClient1.m_Phase1 })
      (htobe32 2000)).m_SendBuffer.length := by
    rw [SendPhase4_sendBuffer, (SendPhase2_sendBuffer _ _ _).1]
    show 3 + sendPadding 3 + 6 ≤ (List.replicate 2048 0).length
    rw [List.length_replicate]
    decide
  obtain ⟨_, -, -, -, h4⟩ := hs.2.1 _ (htobe32 2000) h2 hpad4
  obtain ⟨_, -, -, -, h5⟩ := hs.2.2.1 _ [1, 2, 3] 3 false h4 hcap (by decide)
  have h3 := (hc.2.2.2.2 1000 demoClient2 (lastWritten demoServer2) (List.replicate 256 200)
    demo_phase2_length rfl (List.length_replicate 256 200) demo_client_hx_length
    (List.length_replicate 256 6) (List.length_replicate 128 7) rfl
    (List.length_replicate 15 0) demo_phase2_check).2.2
  exact ⟨h2, h4, h5, h3⟩

/-! ## C14: the IVs of Phase 3 and Phase 4 -/

set_option maxRecDepth 1000000 in
theorem handshake_ivs_not_from_peer :
    lastWritten demoClient3
      ≠ (cbcEncryptBlocks
          (demoClientEnv.aesEncryptBlock (aes_key_from_secret (List.replicate 256 200)))
          (last16 (lastWritten demoServer2))
          (fullBlocks 28 (phase3Plain demoClientEnv 1000
            (phase2Decrypted demoClientEnv demoClient2 (lastWritten demoServer2))))).2
    ∧ lastWritten demoClient3
      = (cbcEncryptBlocks
          (demoClientEnv.aesEncryptBlock (aes_key_from_secret (List.replicate 256 200)))
          ((demoClient2.m_Phase1.HXxorHI.drop 16).take 16)
          (fullBlocks 28 (phase3Plain demoClientEnv 1000
            (phase2Decrypted demoClientEnv demoClient2 (lastWritten demoServer2))))).2
    ∧ lastWritten demoServer4
      ≠ (cbcEncryptBlocks
          (demoEnv.aesEncryptBlock (aes_key_from_secret (List.replicate 256 200)))
          (last16 (lastWritten demoClient3))
          (fullBlocks 3 (phase4Plain demoEnv
            (phase3Decrypted demoEnv demoServer3 (lastWritten demoClient3))
            (htobe32 2000)))).2
    ∧ lastWritten demoServer4
      = (cbcEncryptBlocks
          (demoEnv.aesEncryptBlock (aes_key_from_secret (List.replicate 256 200)))
          (last16 (lastWritten demoServer2))
          (fullBlocks 3 (phase4Plain demoEnv
            (phase3Decrypted demoEnv demoServer3 (lastWritten demoClient3))
            (htobe32 2000)))).2 := by
  decide

theorem decryptData_48_iv (e : Env) (k : CBC) (c : Bytes) (hc : c.length = 48) :
    (decryptData e (some k) c).1 = some { key := k.key, iv := last16 c } := by
  have h : last16 c = (c.drop 32).take 16 := by
    simp only [last16, hc]
    exact (List.take_of_length_le (by simp [hc])).symm
  rw [h]
  simp [decryptData, hc, fullBlocks, cbcDecryptBlocks]

/-- The decryption of the client after Phase 2: its running IV is the last 16 bytes of
the Phase 2 message. -/
theorem phase2Decrypted_dec (e : Env) (s : NTCPSession) (received secret : Bytes)
    (hrecv : received.length = 304)
    (hdh : e.dhAgree e.privateKey (received.take 256) = some secret)
    (hsecret : secret.length = 256) :
    (phase2Decrypted e s received).m_Decryption
      = some { key := aes_key_from_secret secret, iv := last16 received } := by
  have hp : NTCPPhase2.ofBytes (recvInto received s.m_Phase2.toBytes)
      = { pubKey := received.take 256,
          encrypted := NTCPPhase2Encrypted.ofBytes (received.drop 256) } := by
    rw [NTCPPhase2_ofBytes_recvInto _ _ hrecv]
    rfl
  obtain ⟨hk1, hk2⟩ := CreateAESKey_ok e
    { s with m_Phase2 := NTCPPhase2.ofBytes (recvInto received s.m_Phase2.toBytes) }
    (received.take 256) e.stackAesKey secret hdh hsecret
  rw [hp] at hk1 hk2
  have hc : (received.drop 256).length = 48 := by simp [hrecv]
  simp only [phase2Decrypted, SetKeyWithIV, hp, hk1, hk2,
    NTCPPhase2Encrypted_toBytes_ofBytes _ hc]
  rw [decryptData_48_iv _ _ _ hc]
  have hl : last16 (received.drop 256) = last16 received := by
    conv_rhs => rw [← List.take_append_drop 256 received]
    exact (last16_append _ _ (by rw [hc]; omega)).symm
  rw [hl]

/-- C14, as the code has it: the IVs of Phase 3 and Phase 4. The AES block function
returns 16 bytes, signatures are 40 bytes long and SHA-256 digests 32.

* Client: when DH agreement succeeds and the hash check of `HandlePhase2Received`
  passes, Phase 3 is the CBC encryption of the Phase 3 record under the derived key
  and the IV `HXxorHI[16..32]` of the client's own Phase 1 record. The last 16 bytes
  of the Phase 2 message are the running IV of the client's decryption, not of its
  encryption.
* Server: when DH agreement succeeds in `SendPhase2` and the signature check of
  `HandlePhase3Received` passes, Phase 4 is the CBC encryption of the Phase 4 record
  under the derived key and the IV equal to the last 16 bytes of the Phase 2 message
  the server wrote. -/
theorem handshake_ivs (e : Env)
    (hlen : ∀ k b : Bytes, b.length = 16 → (e.aesEncryptBlock k b).length = 16)
    (hsign : ∀ m : Bytes, (e.sign m).length = 40)
    (hshaLen : ∀ m : Bytes, (e.sha256 m).length = 32) :
    (∀ (now : Nat) (s : NTCPSession) (received secret : Bytes),
      received.length = 304 →
      e.dhAgree e.privateKey (received.take 256) = some secret →
      secret.length = 256 →
      s.m_Phase1.HXxorHI.length = 32 →
      e.routerIdentity.publicKey.length = 256 →
      e.routerIdentity.signingKey.length = 128 →
      e.routerIdentity.certificate.length = 3 →
      s.m_Phase3.padding.length = 15 →
      (e.sha256 (e.routerIdentity.publicKey
          ++ (phase2Decrypted e s received).m_Phase2.pubKey)).take 32
        = (phase2Decrypted e s received).m_Phase2.encrypted.hxy.take 32 →
      lastWritten (HandlePhase2Received e now s false received)
        = (cbcEncryptBlocks (e.aesEncryptBlock (aes_key_from_secret secret))
            ((s.m_Phase1.HXxorHI.drop 16).take 16)
            (fullBlocks 28 (phase3Plain e now (phase2Decrypted e s received)))).2
      ∧ (phase2Decrypted e s received).m_Decryption
        = some { key := aes_key_from_secret secret, iv := last16 received })
    ∧ (∀ (tB : Nat) (s : NTCPSession) (secret received tsB ts : Bytes),
      e.routerIdentity.publicKey.length = 256 →
      s.m_Phase2.encrypted.filler.length = 12 →
      e.dhAgree e.privateKey s.m_Phase1.pubKey = some secret →
      secret.length = 256 →
      s.m_Phase4.padding.length = 8 →
      e.dsaVerify
          (phase3Decrypted e (HandlePhase2Sent (SendPhase2 e tB s) false ts)
            received).m_RemoteRouterInfo.routerIdentity.signingKey
          (SignedData.toBytes
            { x := (HandlePhase2Sent (SendPhase2 e tB s) false ts).m_Phase1.pubKey,
              y := (HandlePhase2Sent (SendPhase2 e tB s) false ts).m_Phase2.pubKey,
              ident := e.identHash,
              tsA := (phase3Decrypted e (HandlePhase2Sent (SendPhase2 e tB s) false ts)
                received).m_Phase3.timestamp,
              tsB := tsB })
          (phase3Decrypted e (HandlePhase2Sent (SendPhase2 e tB s) false ts)
            received).m_Phase3.signature = true →
      lastWritten (HandlePhase3Received e (HandlePhase2Sent (SendPhase2 e tB s) false ts)
          false received tsB)
        = (cbcEncryptBlocks (e.aesEncryptBlock (aes_key_from_secret secret))
            (last16 (lastWritten (SendPhase2 e tB s)))
            (fullBlocks 3 (phase4Plain e
              (phase3Decrypted e (HandlePhase2Sent (SendPhase2 e tB s) false ts) received)
              tsB))).2) := by
  refine ⟨?_, ?_⟩
  · intro now s received secret hrecv hdh hsecret hHX hi1 hi2 hi3 hpad hcheck
    obtain ⟨henc, -, -, hp3⟩ := phase2Decrypted_enc e s received secret hrecv hdh hsecret
    rw [HandlePhase2Received_eq, if_neg (fun h => h hcheck)]
    exact ⟨(SendPhase3_chain e now (phase2Decrypted e s received)
      { key := aes_key_from_secret secret, iv := (s.m_Phase1.HXxorHI.drop 16).take 16 }
      (hlen _) henc (by simp [hHX]) hi1 hi2 hi3 hsign (by rw [hp3]; exact hpad)).1,
      phase2Decrypted_dec e s received secret hrecv hdh hsecret⟩
  · intro tB s secret received tsB ts hY hfiller hdh hsecret hpad hverify
    obtain ⟨henc, -⟩ := SendPhase2_chain e tB s secret hlen hY hfiller hshaLen hdh hsecret
    obtain ⟨h48, hmsg⟩ := SendPhase2_message e tB s secret hY hfiller hshaLen hdh hsecret hlen
    have hl : (lastWritten (SendPhase2 e tB s)).length = 304 := by
      rw [hmsg, List.length_append, hY, h48]
    have henc3 : (phase3Decrypted e (HandlePhase2Sent (SendPhase2 e tB s) false ts)
        received).m_Encryption
        = some { key := aes_key_from_secret secret,
                 iv := last16 (lastWritten (SendPhase2 e tB s)) } := by
      rw [← henc]
      simp only [phase3Decrypted, HandlePhase2Sent, async_read, Bool.false_eq_true, if_false]
    have hpad3 : (phase3Decrypted e (HandlePhase2Sent (SendPhase2 e tB s) false ts)
        received).m_Phase4.padding.length = 8 := by
      rw [← hpad, ← (SendPhase2_sendBuffer e tB s).2]
      simp only [phase3Decrypted, HandlePhase2Sent, async_read, Bool.false_eq_true, if_false]
    rw [HandlePhase3Received_eq]
    simp only [hverify, Bool.not_true, Bool.false_eq_true, if_false]
    exact (SendPhase4_chain e _ tsB
      { key := aes_key_from_secret secret, iv := last16 (lastWritten (SendPhase2 e tB s)) }
      (hlen _) henc3 (last16_length _ (by rw [hl]; omega)) hsign hpad3).1

set_option maxRecDepth 1000000 in
theorem demo_phase3_verifies :
    demoEnv.dsaVerify
      (phase3Decrypted demoEnv (HandlePhase2Sent (SendPhase2 demoEnv 2000
          { demoSession with m_Phase1 := demoClient1.m_Phase1 }) false (htobe32 2000))
        (lastWritten demoClient3)).m_RemoteRouterInfo.routerIdentity.signingKey
      (SignedData.toBytes
        { x := (HandlePhase2Sent (SendPhase2 demoEnv 2000
            { demoSession with m_Phase1 := demoClient1.m_Phase1 }) false
            (htobe32 2000)).m_Phase1.pubKey,
          y := (HandlePhase2Sent (SendPhase2 demoEnv 2000
            { demoSession with m_Phase1 := demoClient1.m_Phase1 }) false
            (htobe32 2000)).m_Phase2.pubKey,
          ident := demoEnv.identHash,
          tsA := (phase3Decrypted demoEnv (HandlePhase2Sent (SendPhase2 demoEnv 2000
              { demoSession with m_Phase1 := demoClient1.m_Phase1 }) false (htobe32 2000))
            (lastWritten demoClient3)).m_Phase3.timestamp,
          tsB := htobe32 2000 })
      (phase3Decrypted demoEnv (HandlePhase2Sent (SendPhase2 demoEnv 2000
          { demoSession with m_Phase1 := demoClient1.m_Phase1 }) false (htobe32 2000))
        (lastWritten demoClient3)).m_Phase3.signature = true := by
  decide

theorem handshake_ivs_witness :
    lastWritten (HandlePhase2Received demoClientEnv 1000 demoClient2 false
        (lastWritten demoServer2))
      = (cbcEncryptBlocks
          (demoClientEnv.aesEncryptBlock (aes_key_from_secret (List.replicate 256 200)))
          ((demoClient2.m_Phase1.HXxorHI.drop 16).take 16)
          (fullBlocks 28 (phase3Plain demoClientEnv 1000
            (phase2Decrypted demoClientEnv demoClient2 (lastWritten demoServer2))))).2
    ∧ lastWritten (HandlePhase3Received demoEnv
        (HandlePhase2Sent (SendPhase2 demoEnv 2000
          { demoSession with m_Phase1 := demoClient1.m_Phase1 }) false (htobe32 2000))
        false (lastWritten demoClient3) (htobe32 2000))
      = (cbcEncryptBlocks
          (demoEnv.aesEncryptBlock (aes_key_from_secret (List.replicate 256 200)))
          (last16 (lastWritten (SendPhase2 demoEnv 2000
            { demoSession with m_Phase1 := demoClient1.m_Phase1 })))
          (fullBlocks 3 (phase4Plain demoEnv
            (phase3Decrypted demoEnv (HandlePhase2Sent (SendPhase2 demoEnv 2000
              { demoSession with m_Phase1 := demoClient1.m_Phase1 }) false (htobe32 2000))
              (lastWritten demoClient3))
            (htobe32 2000)))).2 :=
  ⟨((handshake_ivs demoClientEnv demo_length_all demo_sign_length demo_sha_length).1
      1000 demoClient2 (lastWritten demoServer2) (List.replicate 256 200)
      demo_phase2_length rfl (List.length_replicate 256 200) demo_client_hx_length
      (List.length_replicate 256 6) (List.length_replicate 128 7) rfl
      (List.length_replicate 15 0) demo_phase2_check).1,
    (handshake_ivs demoEnv demo_length_all demo_sign_length demo_sha_length).2
      2000 { demoSession with m_Phase1 := demoClient1.m_Phase1 } (List.replicate 256 200)
      (lastWritten demoClient3) (htobe32 2000) (htobe32 2000)
      (List.length_replicate 256 2) (List.length_replicate 12 0) rfl
      (List.length_replicate 256 200) (List.length_replicate 8 0) demo_phase3_verifies⟩

/-! ## C15 and C16: the layout of the frames Send builds -/

theorem Send_plain (e : Env) (s : NTCPSession) (buf : Bytes) (len : Nat) (z : Bool) :
    (Send e s buf len z).m_Encryption
      = (encryptData e s.m_Encryption (plainFrame s.m_SendBuffer buf len z)).1 := by
  simp only [Send, plainFrame]

theorem Send_unkeyed (e : Env) (s : NTCPSession) (buf : Bytes) (len : Nat) (z : Bool)
    (henc : s.m_Encryption = none)
    (hcap : len + sendPadding len + 6 ≤ s.m_SendBuffer.length) (hbuf : len ≤ buf.length) :
    lastWritten (Send e s buf len z) = plainFrame s.m_SendBuffer buf len z := by
  have hF := plainFrame_length s.m_SendBuffer buf len z hcap hbuf
  have hpad : sendPadding len = (if (len + 6) % 16 > 0 then 16 - (len + 6) % 16 else 0) := rfl
  have hfold : (frameBuffer s.m_SendBuffer buf len z).take (len + sendPadding len + 6)
      = plainFrame s.m_SendBuffer buf len z := by
    simp only [plainFrame, ← hpad]
  simp only [Send, ← hpad, henc, encryptData, hfold, lastWritten]
  rw [lastWritten_snoc]
  have := writeAt_zero_full (frameBuffer s.m_SendBuffer buf len z)
    (plainFrame s.m_SendBuffer buf len z)
  rw [hF] at this
  exact this

/-- C15: Send frame layout. For every payload `buf` of at least `len` bytes and flag
`zeroSize`, on a session whose send buffer can hold the frame, the plaintext frame
`Send` hands to `ProcessData` (`plainFrame`; on a session whose cipher is not keyed it is
the message written) has `len + padding + 6` bytes: bytes `[0..2]` are `0, 0` when
`zeroSize` is set and `htobe16 (len)` otherwise, bytes `[2..2+len]` are the first `len`
bytes of the payload, and its final 4 bytes, at offset `2 + len + padding`, are the
Adler-32 digest of the bytes `[0..2+len+padding]` before them. -/
theorem send_frame_layout (e : Env) (s : NTCPSession) (buf : Bytes) (len : Nat) (z : Bool)
    (hcap : len + sendPadding len + 6 ≤ s.m_SendBuffer.length) (hbuf : len ≤ buf.length) :
    (Send e s buf len z).m_Encryption
      = (encryptData e s.m_Encryption (plainFrame s.m_SendBuffer buf len z)).1
    ∧ (s.m_Encryption = none →
        lastWritten (Send e s buf len z) = plainFrame s.m_SendBuffer buf len z)
    ∧ (plainFrame s.m_SendBuffer buf len z).length = len + sendPadding len + 6
    ∧ (plainFrame s.m_SendBuffer buf len z).take 2 = (if z then [0, 0] else htobe16 len)
    ∧ ((plainFrame s.m_SendBuffer buf len z).drop 2).take len = buf.take len
    ∧ (plainFrame s.m_SendBuffer buf len z).drop (2 + len + sendPadding len)
      = adler32 ((plainFrame s.m_SendBuffer buf len z).take (2 + len + sendPadding len))
    ∧ ((plainFrame s.m_SendBuffer buf len z).drop (2 + len + sendPadding len)).length = 4 := by
  have hF := plainFrame_length s.m_SendBuffer buf len z hcap hbuf
  have heq := plainFrame_eq s.m_SendBuffer buf len z hcap hbuf
  have hhdr : (if z then [0, 0] else htobe16 len).length = 2 := by
    cases z <;> rfl
  have htake : (buf.take len).length = len := by
    rw [List.length_take]; omega
  have hpadl : ((s.m_SendBuffer.drop (len + 2)).take (sendPadding len)).length
      = sendPadding len := by
    rw [List.length_take, List.length_drop]; omega
  generalize (if z then [0, 0] else htobe16 len) = hdr at heq hhdr ⊢
  generalize buf.take len = pl at heq htake ⊢
  generalize (s.m_SendBuffer.drop (len + 2)).take (sendPadding len) = pad at heq hpadl
  have hbody : (hdr ++ pl ++ pad).length = 2 + len + sendPadding len := by
    simp only [List.length_append, hhdr, htake, hpadl]
  refine ⟨Send_plain e s buf len z, fun h => Send_unkeyed e s buf len z h hcap hbuf, hF,
    ?_, ?_, ?_, ?_⟩
  · rw [heq, List.append_assoc, List.append_assoc, ← hhdr]
    exact List.take_left _ _
  · rw [heq, List.append_assoc, List.append_assoc, ← hhdr, List.drop_left, ← htake,
      List.take_left]
  · rw [heq, ← hbody, List.drop_left, List.take_left]
  · rw [heq, ← hbody, List.drop_left, adler32_length]

theorem demoSession_capacity (n : Nat) (h : n ≤ 2048) : n ≤ demoSession.m_SendBuffer.length := by
  show n ≤ (List.replicate 2048 0).length
  rw [List.length_replicate]
  exact h

theorem send_frame_layout_witness :
    (plainFrame demoSession.m_SendBuffer [65, 66, 67] 3 false).length = 16
    ∧ (plainFrame demoSession.m_SendBuffer [65, 66, 67] 3 false).take 2 = [0, 3]
    ∧ ((plainFrame demoSession.m_SendBuffer [65, 66, 67] 3 false).drop 2).take 3
      = [65, 66, 67]
    ∧ (plainFrame demoSession.m_SendBuffer [65, 66, 67] 3 false).drop 12
      = adler32 ((plainFrame demoSession.m_SendBuffer [65, 66, 67] 3 false).take 12) :=
  ⟨(send_frame_layout demoEnv demoSession [65, 66, 67] 3 false
      (demoSession_capacity _ (by decide)) (by decide)).2.2.1,
    (send_frame_layout demoEnv demoSession [65, 66, 67] 3 false
      (demoSession_capacity _ (by decide)) (by decide)).2.2.2.1,
    (send_frame_layout demoEnv demoSession [65, 66, 67] 3 false
      (demoSession_capacity _ (by decide)) (by decide)).2.2.2.2.1,
    (send_frame_layout demoEnv demoSession [65, 66, 67] 3 false
      (demoSession_capacity _ (by decide)) (by decide)).2.2.2.2.2.1⟩

/-- The parser on a buffer of at least 16 bytes that starts with a zero size field: the
first frame is a time-sync frame of 16 bytes. -/
theorem parseAll_time_sync (buf : Bytes) (hlen : 16 ≤ buf.length)
    (h0 : buf.getD 0 0 = 0) (h1 : buf.getD 1 0 = 0) :
    parseAll buf
      = (Effect.logTimestamp :: (parseAll (buf.drop 16)).1, (parseAll (buf.drop 16)).2) := by
  have hbe : be16toh buf = 0 := by simp only [be16toh, h0, h1]
  have hfl : frameLength 0 = 16 := by decide
  rw [parseAll_step buf, if_pos (by omega), hbe, hfl, if_neg (by omega)]
  simp

/-- C16: time-sync frames. On a keyed session (running IV of 16 bytes, block function
returning 16 bytes) whose send buffer holds at least 16 bytes, the frame
`SendTimeSyncMessage` writes is exactly 16 bytes long, and it is the encryption of a
16-byte plaintext frame whose size field is zero and whose bytes `[2..6]` are the
big-endian timestamp `htobe32 (now)`. And for every decrypted buffer of at least 16
bytes whose first two bytes are zero, the parser consumes exactly 16 bytes for that
frame, records a timestamp for it and does not invoke the I2NP handler for it: the
rest of the parse is the parse of the buffer after those 16 bytes. -/
theorem time_sync_frames (e : Env) (now : Nat) (s : NTCPSession) (k : CBC) (buf : Bytes)
    (henc : s.m_Encryption = some k) (hiv : k.iv.length = 16)
    (hlenE : ∀ b : Bytes, b.length = 16 → (e.aesEncryptBlock k.key b).length = 16)
    (hcap : 16 ≤ s.m_SendBuffer.length)
    (hbuf : 16 ≤ buf.length) (h0 : buf.getD 0 0 = 0) (h1 : buf.getD 1 0 = 0) :
    (lastWritten (SendTimeSyncMessage e now s)).length = 16
    ∧ lastWritten (SendTimeSyncMessage e now s)
      = (cbcEncryptBlocks (e.aesEncryptBlock k.key) k.iv
          (fullBlocks 1 (plainFrame s.m_SendBuffer (htobe32 now) 4 true))).2
    ∧ (plainFrame s.m_SendBuffer (htobe32 now) 4 true).length = 16
    ∧ (plainFrame s.m_SendBuffer (htobe32 now) 4 true).take 2 = [0, 0]
    ∧ ((plainFrame s.m_SendBuffer (htobe32 now) 4 true).drop 2).take 4 = htobe32 now
    ∧ parseAll buf
      = (Effect.logTimestamp :: (parseAll (buf.drop 16)).1, (parseAll (buf.drop 16)).2)
    ∧ (∀ (p : Bytes) (n : Nat), Effect.handleI2NPMessage p n ∈ (parseAll buf).1 →
        Effect.handleI2NPMessage p n ∈ (parseAll (buf.drop 16)).1) := by
  have hpad : sendPadding 4 = 6 := by decide
  have hcap2 : 4 + sendPadding 4 + 6 ≤ s.m_SendBuffer.length := by rw [hpad]; omega
  have hb4 : 4 ≤ (htobe32 now).length := by simp [htobe32]
  have hF := plainFrame_length s.m_SendBuffer (htobe32 now) 4 true hcap2 hb4
  have heq := plainFrame_eq s.m_SendBuffer (htobe32 now) 4 true hcap2 hb4
  have ht4 : (htobe32 now).take 4 = htobe32 now := List.take_of_length_le (by simp [htobe32])
  simp only [if_true, ht4] at heq
  have h2 : (plainFrame s.m_SendBuffer (htobe32 now) 4 true).take 2 = [0, 0] := by
    rw [heq]; rfl
  have h3 : ((plainFrame s.m_SendBuffer (htobe32 now) 4 true).drop 2).take 4
      = htobe32 now := by
    rw [heq]; rfl
  obtain ⟨hw, -⟩ := Send_chain e s (htobe32 now) 4 true k hlenE henc hiv hcap2 hb4
  rw [hpad] at hF hw
  have hcl := (cbcEncryptBlocks_length (e.aesEncryptBlock k.key) hlenE 1 k.iv
    (plainFrame s.m_SendBuffer (htobe32 now) 4 true) hiv (by rw [hF])).1
  have hpt := parseAll_time_sync buf hbuf h0 h1
  refine ⟨?_, hw, hF, h2, h3, hpt, ?_⟩
  · show (lastWritten (Send e s (htobe32 now) 4 true)).length = 16
    rw [hw]
    exact hcl
  · intro p n hm
    rw [hpt] at hm
    simpa using hm

theorem time_sync_frames_witness :
    (lastWritten (SendTimeSyncMessage demoEnv 1000 demoKeyed)).length = 16
    ∧ ((plainFrame demoKeyed.m_SendBuffer (htobe32 1000) 4 true).drop 2).take 4
      = htobe32 1000
    ∧ parseAll [0, 0, 0, 0, 3, 232, 0, 0, 0, 0, 0, 0, 1, 2, 3, 4]
      = (Effect.logTimestamp
          :: (parseAll ([0, 0, 0, 0, 3, 232, 0, 0, 0, 0, 0, 0, 1, 2, 3, 4].drop 16)).1,
         (parseAll ([0, 0, 0, 0, 3, 232, 0, 0, 0, 0, 0, 0, 1, 2, 3, 4].drop 16)).2) :=
  ⟨(time_sync_frames demoEnv 1000 demoKeyed demoKey
      [0, 0, 0, 0, 3, 232, 0, 0, 0, 0, 0, 0, 1, 2, 3, 4] rfl (List.length_replicate 16 9)
      (demo_length_all _) (demoSession_capacity 16 (by decide)) (by decide) rfl rfl).1,
    (time_sync_frames demoEnv 1000 demoKeyed demoKey
      [0, 0, 0, 0, 3, 232, 0, 0, 0, 0, 0, 0, 1, 2, 3, 4] rfl (List.length_replicate 16 9)
      (demo_length_all _) (demoSession_capacity 16 (by decide)) (by decide) rfl rfl).2.2.2.2.1,
    (time_sync_frames demoEnv 1000 demoKeyed demoKey
      [0, 0, 0, 0, 3, 232, 0, 0, 0, 0, 0, 0, 1, 2, 3, 4] rfl (List.length_replicate 16 9)
      (demo_length_all _) (demoSession_capacity 16 (by decide)) (by decide)
      rfl rfl).2.2.2.2.2.1⟩

/-! ## C17 and C18: the receive buffer; DH failure -/

/-- `HandleReceived` on a successful read, in one piece: the whole 16-byte blocks of the
receive buffer go to `DecryptReceived`, the bytes after them stay. -/
theorem HandleReceived_eq (e : Env) (s : NTCPSession) (received : Bytes) :
    HandleReceived e s false received =
      if (s.m_ReceiveBuffer ++ received).length / 16 ≠ 0 then
        Receive
          { DecryptReceived e { s with m_ReceiveBuffer := s.m_ReceiveBuffer ++ received }
              ((s.m_ReceiveBuffer ++ received).take
                ((s.m_ReceiveBuffer ++ received).length / 16 * 16)) with
            m_ReceiveBuffer := (s.m_ReceiveBuffer ++ received).drop
              ((s.m_ReceiveBuffer ++ received).length / 16 * 16) }
      else Receive { s with m_ReceiveBuffer := s.m_ReceiveBuffer ++ received } := by
  simp only [HandleReceived, m_ReceiveBufferOffset, Bool.false_eq_true, if_false,
    DecryptReceived_eq]
  by_cases hq : (s.m_ReceiveBuffer ++ received).length / 16 ≠ 0
  · simp only [if_pos hq]
    have hdrop : ((s.m_ReceiveBuffer ++ received).drop
        ((s.m_ReceiveBuffer ++ received).length / 16 * 16)).take
          ((s.m_ReceiveBuffer ++ received).length % 16)
        = (s.m_ReceiveBuffer ++ received).drop
            ((s.m_ReceiveBuffer ++ received).length / 16 * 16) := by
      apply List.take_of_length_le
      simp only [List.length_drop]
      omega
    by_cases hr : (s.m_ReceiveBuffer ++ received).length % 16 ≠ 0
    · simp only [if_pos hr, hdrop]
    · simp only [if_neg hr]
      have hnil : (s.m_ReceiveBuffer ++ received).drop
          ((s.m_ReceiveBuffer ++ received).length / 16 * 16) = [] := by
        apply List.drop_of_length_le
        omega
      rw [hnil]
  · simp only [if_neg hq]

/-- C17: the cipher buffer invariant. After a successful `HandleReceived` of `n` bytes
(whatever the old offset is, so also when it is below 16), `m_ReceiveBufferOffset` is
`(old offset + n) mod 16`, below 16; the first `floor ((old offset + n) / 16) * 16`
bytes of the receive buffer (the old bytes followed by the new ones, in arrival order)
are handed to `DecryptReceived` in one call, and to nothing when that number is zero;
and the receive buffer holds the trailing `(old offset + n) mod 16` bytes, moved to its
front. -/
theorem receive_buffer_invariant (e : Env) (s : NTCPSession) (received : Bytes) :
    (HandleReceived e s false received).m_ReceiveBufferOffset
        = (s.m_ReceiveBufferOffset + received.length) % 16
    ∧ (HandleReceived e s false received).m_ReceiveBufferOffset < 16
    ∧ (HandleReceived e s false received).m_ReceiveBuffer
        = (s.m_ReceiveBuffer ++ received).drop
            ((s.m_ReceiveBufferOffset + received.length) / 16 * 16)
    ∧ ((s.m_ReceiveBuffer ++ received).take
          ((s.m_ReceiveBufferOffset + received.length) / 16 * 16)).length
        = (s.m_ReceiveBufferOffset + received.length) / 16 * 16
    ∧ ((s.m_ReceiveBufferOffset + received.length) / 16 ≠ 0 →
        HandleReceived e s false received =
          Receive
            { DecryptReceived e { s with m_ReceiveBuffer := s.m_ReceiveBuffer ++ received }
                ((s.m_ReceiveBuffer ++ received).take
                  ((s.m_ReceiveBufferOffset + received.length) / 16 * 16)) with
              m_ReceiveBuffer := (s.m_ReceiveBuffer ++ received).drop
                ((s.m_ReceiveBufferOffset + received.length) / 16 * 16) })
    ∧ ((s.m_ReceiveBufferOffset + received.length) / 16 = 0 →
        HandleReceived e s false received
          = Receive { s with m_ReceiveBuffer := s.m_ReceiveBuffer ++ received }) := by
  have hlen : (s.m_ReceiveBuffer ++ received).length
      = s.m_ReceiveBufferOffset + received.length := by
    simp only [m_ReceiveBufferOffset, List.length_append]
  have heq := HandleReceived_eq e s received
  rw [hlen] at heq
  have hbuf : (HandleReceived e s false received).m_ReceiveBuffer
      = (s.m_ReceiveBuffer ++ received).drop
          ((s.m_ReceiveBufferOffset + received.length) / 16 * 16) := by
    rw [heq]
    by_cases hq : (s.m_ReceiveBufferOffset + received.length) / 16 ≠ 0
    · rw [if_pos hq]
      rfl
    · rw [if_neg hq]
      have h0 : (s.m_ReceiveBufferOffset + received.length) / 16 = 0 := by omega
      rw [h0]
      rfl
  have hoff : (HandleReceived e s false received).m_ReceiveBufferOffset
      = (s.m_ReceiveBufferOffset + received.length) % 16 := by
    show (HandleReceived e s false received).m_ReceiveBuffer.length = _
    rw [hbuf, List.length_drop, hlen]
    omega
  refine ⟨hoff, by rw [hoff]; omega, hbuf, ?_, ?_, ?_⟩
  · rw [List.length_take, hlen]
    omega
  · intro hq
    rw [heq, if_pos hq]
  · intro hq
    rw [heq, if_neg (by omega)]

theorem receive_buffer_invariant_witness :
    (HandleReceived demoEnv { demoKeyed with m_ReceiveBuffer := [1, 2, 3, 4, 5] } false
        (List.range 30)).m_ReceiveBufferOffset
      = (5 + 30) % 16
    ∧ (HandleReceived demoEnv { demoKeyed with m_ReceiveBuffer := [1, 2, 3, 4, 5] } false
        (List.range 30)).m_ReceiveBuffer
      = ([1, 2, 3, 4, 5] ++ List.range 30).drop ((5 + 30) / 16 * 16) :=
  ⟨(receive_buffer_invariant demoEnv { demoKeyed with m_ReceiveBuffer := [1, 2, 3, 4, 5] }
      (List.range 30)).1,
    (receive_buffer_invariant demoEnv { demoKeyed with m_ReceiveBuffer := [1, 2, 3, 4, 5] }
      (List.range 30)).2.2.1⟩

theorem socketCloses_dhFailureTrace (e : Env) (pk : Bytes)
    (h : e.dhAgree e.privateKey pk = none) : socketCloses (dhFailureTrace e pk) = 1 := by
  simp only [dhFailureTrace, h]
  rfl

/-- The session `HandlePhase2Received` has when it compares the hashes, when DH agreement
fails: `Terminate` has been called and the ciphers are keyed from the array `aesKey`
that `CreateAESKey` left unwritten. -/
theorem phase2Decrypted_fail (e : Env) (s : NTCPSession) (received : Bytes)
    (hdh : e.dhAgree e.privateKey
      (NTCPPhase2.ofBytes (recvInto received s.m_Phase2.toBytes)).pubKey = none) :
    (phase2Decrypted e s received).trace
      = s.trace ++ [Effect.socketClose, Effect.removeNTCPSession]
    ∧ (phase2Decrypted e s received).m_Encryption
      = SetKeyWithIV e.stackAesKey (s.m_Phase1.HXxorHI.drop 16)
    ∧ (phase2Decrypted e s received).pending = s.pending := by
  have hf := CreateAESKey_fail e
    { s with m_Phase2 := NTCPPhase2.ofBytes (recvInto received s.m_Phase2.toBytes) }
    (NTCPPhase2.ofBytes (recvInto received s.m_Phase2.toBytes)).pubKey e.stackAesKey hdh
  simp only [phase2Decrypted, hf, Terminate, emit, List.append_assoc, List.singleton_append]
  exact ⟨trivial, trivial, trivial⟩

/-- C18, what the code does: DH failure does not stop the handler. When DH agreement
fails inside `CreateAESKey`, `Terminate` is called there and the caller goes on.
Server: `SendPhase2` keys both ciphers from the array `aesKey` that was never written
and writes Phase 2. Client: `HandlePhase2Received` keys both ciphers from the unwritten
array and decrypts; if the hashes differ it calls `Terminate` a second time, and if
they agree it writes Phase 3. -/
theorem dh_failure_continues (e : Env) (now : Nat) (s : NTCPSession) (received : Bytes) :
    (e.dhAgree e.privateKey s.m_Phase1.pubKey = none →
      socketCloses (SendPhase2 e now s).trace = socketCloses s.trace + 1
      ∧ (∃ msg : Bytes, written (SendPhase2 e now s).trace = written s.trace ++ [msg])
      ∧ (SendPhase2 e now s).pending = s.pending ++ [Handler.HandlePhase2Sent (htobe32 now)]
      ∧ (SendPhase2 e now s).m_Decryption
        = SetKeyWithIV e.stackAesKey (s.m_Phase1.HXxorHI.drop 16)
      ∧ (SendPhase2 e now s).m_Encryption
        = (encryptData e (SetKeyWithIV e.stackAesKey (e.routerIdentity.publicKey.drop 240))
            (NTCPPhase2Encrypted.toBytes
              { hxy := e.sha256 (s.m_Phase1.pubKey ++ e.routerIdentity.publicKey),
                timestamp := htobe32 now,
                filler := s.m_Phase2.encrypted.filler })).1)
    ∧ (e.dhAgree e.privateKey
          (NTCPPhase2.ofBytes (recvInto received s.m_Phase2.toBytes)).pubKey = none →
      (phase2Decrypted e s received).m_Encryption
        = SetKeyWithIV e.stackAesKey (s.m_Phase1.HXxorHI.drop 16)
      ∧ ((e.sha256 (e.routerIdentity.publicKey
              ++ (phase2Decrypted e s received).m_Phase2.pubKey)).take 32
            ≠ (phase2Decrypted e s received).m_Phase2.encrypted.hxy.take 32 →
          socketCloses (HandlePhase2Received e now s false received).trace
            = socketCloses s.trace + 2)
      ∧ ((e.sha256 (e.routerIdentity.publicKey
              ++ (phase2Decrypted e s received).m_Phase2.pubKey)).take 32
            = (phase2Decrypted e s received).m_Phase2.encrypted.hxy.take 32 →
          socketCloses (HandlePhase2Received e now s false received).trace
            = socketCloses s.trace + 1
          ∧ ∃ msg : Bytes, written (HandlePhase2Received e now s false received).trace
            = written s.trace ++ [msg])) := by
  refine ⟨?_, ?_⟩
  · intro hdh
    obtain ⟨htr, hpe, -⟩ := SendPhase2_frame e now s
    have hf := CreateAESKey_fail e
      { s with m_Phase2 :=
        { pubKey := e.routerIdentity.publicKey,
          encrypted := { hxy := e.sha256 (s.m_Phase1.pubKey ++ e.routerIdentity.publicKey),
                         timestamp := htobe32 now,
                         filler := s.m_Phase2.encrypted.filler } } }
      s.m_Phase1.pubKey e.stackAesKey hdh
    refine ⟨?_, ⟨_, SendPhase2_written e now s⟩, hpe, ?_, ?_⟩
    · rw [htr, socketCloses_snoc_other _ _ (by simp), socketCloses_append,
        socketCloses_dhFailureTrace e _ hdh]
    · simp only [SendPhase2, hf, async_write]
      rfl
    · simp only [SendPhase2, hf, async_write]
      rfl
  · intro hdh
    obtain ⟨htr, henc, -⟩ := phase2Decrypted_fail e s received hdh
    refine ⟨henc, ?_, ?_⟩
    · intro hne
      rw [HandlePhase2Received_eq, if_pos hne, (Terminate_frame _).2.1, htr,
        socketCloses_append]
      rfl
    · intro heq
      rw [HandlePhase2Received_eq, if_neg (fun h => h heq)]
      refine ⟨?_, (SendPhase3 e now (phase2Decrypted e s received)).m_Phase3.toBytes, ?_⟩
      · rw [(SendPhase3_frame e now _).1, socketCloses_snoc_other _ _ (by simp), htr,
          socketCloses_append]
        rfl
      · rw [SendPhase3_written, htr, written_append]
        simp only [written, List.append_nil]

set_option maxRecDepth 1000000 in
theorem dh_failure_continues_witness :
    (socketCloses (SendPhase2 { demoEnv with dhAgree := fun _ _ => none } 2000
        { demoSession with m_Phase1 := demoClient1.m_Phase1 }).trace
      = socketCloses demoSession.trace + 1
    ∧ ∃ msg : Bytes, written (SendPhase2 { demoEnv with dhAgree := fun _ _ => none } 2000
        { demoSession with m_Phase1 := demoClient1.m_Phase1 }).trace
      = written demoSession.trace ++ [msg])
    ∧ socketCloses (HandlePhase2Received { demoClientEnv with dhAgree := fun _ _ => none }
        1000 demoClient2 false (lastWritten demoServer2)).trace
      = socketCloses demoClient2.trace + 2 :=
  ⟨⟨((dh_failure_continues { demoEnv with dhAgree := fun _ _ => none } 2000
        { demoSession with m_Phase1 := demoClient1.m_Phase1 } []).1 rfl).1,
    ((dh_failure_continues { demoEnv with dhAgree := fun _ _ => none } 2000
        { demoSession with m_Phase1 := demoClient1.m_Phase1 } []).1 rfl).2.1⟩,
    ((dh_failure_continues { demoClientEnv with dhAgree := fun _ _ => none } 1000
        demoClient2 (lastWritten demoServer2)).2 rfl).2.1 (by decide)⟩

/-! ## C19: the cipher states of the two sides agree -/

/-- The decryption of the client when `HandlePhase2Received` compares the hashes, when
DH agreement succeeds: keyed with the derived key and the IV `Y[240..256]`, then run
over the encrypted part of the message. -/
theorem phase2Decrypted_dec_init (e : Env) (s : NTCPSession) (received secret : Bytes)
    (hrecv : received.length = 304)
    (hdh : e.dhAgree e.privateKey (received.take 256) = some secret)
    (hsecret : secret.length = 256) :
    (phase2Decrypted e s received).m_Decryption
      = (decryptData e
          (some { key := aes_key_from_secret secret,
                  iv := ((received.take 256).drop 240).take 16 })
          (received.drop 256)).1 := by
  have hp : NTCPPhase2.ofBytes (recvInto received s.m_Phase2.toBytes)
      = { pubKey := received.take 256,
          encrypted := NTCPPhase2Encrypted.ofBytes (received.drop 256) } := by
    rw [NTCPPhase2_ofBytes_recvInto _ _ hrecv]
    rfl
  obtain ⟨hk1, hk2⟩ := CreateAESKey_ok e
    { s with m_Phase2 := NTCPPhase2.ofBytes (recvInto received s.m_Phase2.toBytes) }
    (received.take 256) e.stackAesKey secret hdh hsecret
  rw [hp] at hk1 hk2
  have hc : (received.drop 256).length = 48 := by simp [hrecv]
  simp only [phase2Decrypted, SetKeyWithIV, hp, hk1, hk2,
    NTCPPhase2Encrypted_toBytes_ofBytes _ hc]

theorem HandlePhase2Received_dec (e : Env) (now : Nat) (s : NTCPSession) (received : Bytes) :
    (HandlePhase2Received e now s false received).m_Decryption
      = (phase2Decrypted e s received).m_Decryption := by
  rw [HandlePhase2Received_eq]
  split_ifs
  · rfl
  · exact (SendPhase3_frame e now _).2.2.2.1

/-- C19: cipher state agreement. The server holds the Phase 1 record the client sent
and runs `SendPhase2`; the client runs `HandlePhase2Received` on the Phase 2 message
the server wrote; DH agreement yields the same secret on both sides. Then the server's
encryption and the client's decryption are the cipher keyed with the derived key and
the IV `Y[240..256]`, run over the encrypted part of Phase 2 (its plaintext on the
server, its ciphertext on the client), and they hold the same key and running IV
afterwards; the server's decryption and the client's encryption (when the client
compares the hashes, before it encrypts Phase 3) are keyed with the derived key and
the IV `HXxorHI[16..32]`. -/
theorem cipher_state_agreement (ec es : Env) (now tB : Nat) (c srv : NTCPSession)
    (secret : Bytes)
    (hP1 : srv.m_Phase1 = c.m_Phase1)
    (hY : es.routerIdentity.publicKey.length = 256)
    (hfiller : srv.m_Phase2.encrypted.filler.length = 12)
    (hshaLen : ∀ m : Bytes, (es.sha256 m).length = 32)
    (hdhS : es.dhAgree es.privateKey srv.m_Phase1.pubKey = some secret)
    (hdhC : ec.dhAgree ec.privateKey es.routerIdentity.publicKey = some secret)
    (hsecret : secret.length = 256)
    (hlenE : ∀ k b : Bytes, b.length = 16 → (es.aesEncryptBlock k b).length = 16) :
    (SendPhase2 es tB srv).m_Encryption
      = (encryptData es
          (some { key := aes_key_from_secret secret,
                  iv := (es.routerIdentity.publicKey.drop 240).take 16 })
          (NTCPPhase2Encrypted.toBytes
            { hxy := es.sha256 (srv.m_Phase1.pubKey ++ es.routerIdentity.publicKey),
              timestamp := htobe32 tB,
              filler := srv.m_Phase2.encrypted.filler })).1
    ∧ (HandlePhase2Received ec now c false (lastWritten (SendPhase2 es tB srv))).m_Decryption
      = (decryptData ec
          (some { key := aes_key_from_secret secret,
                  iv := (es.routerIdentity.publicKey.drop 240).take 16 })
          ((lastWritten (SendPhase2 es tB srv)).drop 256)).1
    ∧ (SendPhase2 es tB srv).m_Encryption
      = (HandlePhase2Received ec now c false (lastWritten (SendPhase2 es tB srv))).m_Decryption
    ∧ (SendPhase2 es tB srv).m_Decryption
      = some { key := aes_key_from_secret secret,
               iv := (c.m_Phase1.HXxorHI.drop 16).take 16 }
    ∧ (phase2Decrypted ec c (lastWritten (SendPhase2 es tB srv))).m_Encryption
      = some { key := aes_key_from_secret secret,
               iv := (c.m_Phase1.HXxorHI.drop 16).take 16 } := by
  obtain ⟨h48, hmsg⟩ := SendPhase2_message es tB srv secret hY hfiller hshaLen hdhS hsecret hlenE
  have hl : (lastWritten (SendPhase2 es tB srv)).length = 304 := by
    rw [hmsg, List.length_append, hY, h48]
  have htake : (lastWritten (SendPhase2 es tB srv)).take 256 = es.routerIdentity.publicKey := by
    rw [hmsg, ← hY]
    exact List.take_left _ _
  have hdhC2 : ec.dhAgree ec.privateKey ((lastWritten (SendPhase2 es tB srv)).take 256)
      = some secret := by rw [htake]; exact hdhC
  have hdec0 := phase2Decrypted_dec_init ec c _ secret hl hdhC2 hsecret
  have hdec1 := phase2Decrypted_dec ec c _ secret hl hdhC2 hsecret
  obtain ⟨henc, -⟩ := SendPhase2_chain es tB srv secret hlenE hY hfiller hshaLen hdhS hsecret
  obtain ⟨hce, -⟩ := phase2Decrypted_enc ec c _ secret hl hdhC2 hsecret
  rw [htake] at hdec0
  refine ⟨?_, ?_, ?_, ?_, hce⟩
  · rw [SendPhase2_ok es tB srv secret hdhS hsecret]
  · rw [HandlePhase2Received_dec, hdec0]
  · rw [HandlePhase2Received_dec, hdec1, henc]
  · rw [SendPhase2_ok es tB srv secret hdhS hsecret, hP1]

set_option maxRecDepth 1000000 in
theorem cipher_state_agreement_witness :
    (SendPhase2 demoEnv 2000 { demoSession with m_Phase1 := demoClient1.m_Phase1 }).m_Encryption
      = (HandlePhase2Received demoClientEnv 1000 demoClient2 false
          (lastWritten (SendPhase2 demoEnv 2000
            { demoSession with m_Phase1 := demoClient1.m_Phase1 }))).m_Decryption
    ∧ (SendPhase2 demoEnv 2000
        { demoSession with m_Phase1 := demoClient1.m_Phase1 }).m_Decryption
      = (phase2Decrypted demoClientEnv demoClient2
          (lastWritten (SendPhase2 demoEnv 2000
            { demoSession with m_Phase1 := demoClient1.m_Phase1 }))).m_Encryption :=
  ⟨(cipher_state_agreement demoClientEnv demoEnv 1000 2000 demoClient2
      { demoSession with m_Phase1 := demoClient1.m_Phase1 } (List.replicate 256 200)
      (by decide) (List.length_replicate 256 2) (List.length_replicate 12 0) demo_sha_length
      rfl rfl (List.length_replicate 256 200) demo_length_all).2.2.1,
    ((cipher_state_agreement demoClientEnv demoEnv 1000 2000 demoClient2
      { demoSession with m_Phase1 := demoClient1.m_Phase1 } (List.replicate 256 200)
      (by decide) (List.length_replicate 256 2) (List.length_replicate 12 0) demo_sha_length
      rfl rfl (List.length_replicate 256 200) demo_length_all).2.2.2.1).trans
    ((cipher_state_agreement demoClientEnv demoEnv 1000 2000 demoClient2
      { demoSession with m_Phase1 := demoClient1.m_Phase1 } (List.replicate 256 200)
      (by decide) (List.length_replicate 256 2) (List.length_replicate 12 0) demo_sha_length
      rfl rfl (List.length_replicate 256 200) demo_length_all).2.2.2.2).symm⟩

/-! ## C20: alignment and progress of the parser -/

theorem frameLength_mod (n : Nat) : frameLength n % 16 = 0 := by
  by_cases h : n = 0
  · rw [h]; decide
  · rw [frameLength_round n h]; exact round_up_16_mod _

/-- The parse loop and the frame lengths it consumes: the unparsed rest is the region
after the consumed frames, every frame length is a positive multiple of 16, and one
event is recorded per frame. -/
theorem frameLengths_spec (fuel : Nat) (buf : Bytes) :
    (parseEvents fuel buf).2 = buf.drop (frameLengths fuel buf).sum
    ∧ (frameLengths fuel buf).sum ≤ buf.length
    ∧ (∀ l ∈ frameLengths fuel buf, 0 < l ∧ l % 16 = 0)
    ∧ (parseEvents fuel buf).1.length = (frameLengths fuel buf).length := by
  induction fuel generalizing buf with
  | zero => simp [parseEvents, frameLengths]
  | succ k ih =>
    simp only [parseEvents, frameLengths]
    by_cases h2 : buf.length > 2
    · simp only [if_pos h2]
      by_cases hl : frameLength (be16toh buf) > buf.length
      · simp [if_pos hl]
      · simp only [if_neg hl]
        obtain ⟨i1, i2, i3, i4⟩ := ih (buf.drop (frameLength (be16toh buf)))
        have hge := frameLength_ge (be16toh buf)
        refine ⟨?_, ?_, ?_, ?_⟩
        · rw [i1, List.drop_drop, List.sum_cons, Nat.add_comm]
        · rw [List.sum_cons]
          rw [List.length_drop] at i2
          omega
        · intro l hm
          rw [List.mem_cons] at hm
          rcases hm with rfl | hm
          · exact ⟨by omega, frameLength_mod _⟩
          · exact i3 l hm
        · rw [List.length_append, i4, List.length_cons]
          split_ifs <;> simp <;> omega
    · simp [if_neg h2]

/-- With as many iterations as the region has bytes, the parse loop stops by its own
exit test: fewer than three bytes are left, or the next frame is not complete. -/
theorem parseEvents_exit (fuel : Nat) (buf : Bytes) (h : buf.length ≤ fuel) :
    (parseEvents fuel buf).2.length ≤ 2
    ∨ frameLength (be16toh (parseEvents fuel buf).2) > (parseEvents fuel buf).2.length := by
  induction fuel generalizing buf with
  | zero =>
    left
    simp only [parseEvents]
    omega
  | succ k ih =>
    simp only [parseEvents]
    by_cases h2 : buf.length > 2
    · simp only [if_pos h2]
      by_cases hl : frameLength (be16toh buf) > buf.length
      · simp only [if_pos hl]
        exact Or.inr hl
      · simp only [if_neg hl]
        have hge := frameLength_ge (be16toh buf)
        exact ih (buf.drop (frameLength (be16toh buf))) (by rw [List.length_drop]; omega)
    · simp only [if_neg h2]
      left
      omega

theorem cbcDecryptBlocks_length (D : Bytes → Bytes)
    (hlen : ∀ b : Bytes, b.length = 16 → (D b).length = 16)
    (n : Nat) (iv data : Bytes) (hiv : iv.length = 16) (hdata : data.length = 16 * n) :
    (cbcDecryptBlocks D iv (fullBlocks n data)).2.length = 16 * n := by
  induction n generalizing iv data with
  | zero => simp [fullBlocks, cbcDecryptBlocks]
  | succ k ih =>
    have hb : (data.take 16).length = 16 := by simp; omega
    have hx : (xorBytes (D (data.take 16)) iv).length = 16 := by
      rw [xorBytes_length _ _ (by rw [hlen _ hb, hiv]), hlen _ hb]
    have h1 := ih (data.take 16) (data.drop 16) hb (by simp; omega)
    simp only [fullBlocks, cbcDecryptBlocks, List.length_append, hx, h1]
    omega

/-- `ProcessData` of the decryption returns as many bytes as it is given, for a length
that is a multiple of 16. -/
theorem decryptData_length (e : Env) (st : Option CBC) (enc : Bytes)
    (hlen : enc.length % 16 = 0)
    (hdec : ∀ k : CBC, st = some k → k.iv.length = 16
      ∧ ∀ b : Bytes, b.length = 16 → (e.aesDecryptBlock k.key b).length = 16) :
    (decryptData e st enc).2.length = enc.length := by
  cases st with
  | none => rfl
  | some k =>
    obtain ⟨hiv, hD⟩ := hdec k rfl
    simp only [decryptData]
    rw [cbcDecryptBlocks_length _ hD (enc.length / 16) k.iv enc hiv (by omega)]
    omega

/-- C20: parser alignment and progress. If `m_DecryptedBufferOffset` is a multiple of 16
and `DecryptReceived` is called with `len` a multiple of 16 (`ProcessData` returning
`len` bytes), then: the decrypted bytes are appended to the buffer; the parse loop
stops by its own exit test (fewer than three bytes are left or the next frame is
incomplete) within as many iterations as the region has bytes, and more iterations
change nothing; every frame length it consumes is a positive multiple of 16, one
`HandleNextMessage` per frame; on return `m_DecryptedBuffer` holds exactly the bytes
after the last consumed frame and `m_DecryptedBufferOffset` is again a multiple
of 16. -/
theorem parser_alignment (e : Env) (s : NTCPSession) (enc : Bytes)
    (halign : s.m_DecryptedBufferOffset % 16 = 0) (hlen : enc.length % 16 = 0)
    (hdec : ∀ k : CBC, s.m_Decryption = some k → k.iv.length = 16
      ∧ ∀ b : Bytes, b.length = 16 → (e.aesDecryptBlock k.key b).length = 16) :
    (s.m_DecryptedBuffer ++ (decryptData e s.m_Decryption enc).2).length
      = s.m_DecryptedBufferOffset + enc.length
    ∧ ((DecryptReceived e s enc).m_DecryptedBuffer.length ≤ 2
      ∨ frameLength (be16toh (DecryptReceived e s enc).m_DecryptedBuffer)
          > (DecryptReceived e s enc).m_DecryptedBuffer.length)
    ∧ (∀ (t : NTCPSession) (fuel : Nat),
        (s.m_DecryptedBuffer ++ (decryptData e s.m_Decryption enc).2).length ≤ fuel →
        parseLoop fuel t (s.m_DecryptedBuffer ++ (decryptData e s.m_Decryption enc).2)
          = parseLoop (s.m_DecryptedBuffer ++ (decryptData e s.m_Decryption enc).2).length t
              (s.m_DecryptedBuffer ++ (decryptData e s.m_Decryption enc).2))
    ∧ (∀ l ∈ consumedFrames (s.m_DecryptedBuffer ++ (decryptData e s.m_Decryption enc).2),
        0 < l ∧ l % 16 = 0)
    ∧ (∃ events : List Effect,
        (DecryptReceived e s enc).trace = s.trace ++ events
        ∧ events.length
          = (consumedFrames
              (s.m_DecryptedBuffer ++ (decryptData e s.m_Decryption enc).2)).length)
    ∧ (DecryptReceived e s enc).m_DecryptedBuffer
      = (s.m_DecryptedBuffer ++ (decryptData e s.m_Decryption enc).2).drop
          (consumedFrames (s.m_DecryptedBuffer ++ (decryptData e s.m_Decryption enc).2)).sum
    ∧ (DecryptReceived e s enc).m_DecryptedBufferOffset % 16 = 0 := by
  have hdl := decryptData_length e s.m_Decryption enc hlen hdec
  have htot : (s.m_DecryptedBuffer ++ (decryptData e s.m_Decryption enc).2).length
      = s.m_DecryptedBufferOffset + enc.length := by
    rw [List.length_append, hdl]
    rfl
  generalize hb : s.m_DecryptedBuffer ++ (decryptData e s.m_Decryption enc).2 = buf at htot ⊢
  have hD : DecryptReceived e s enc =
      { s with
        m_Decryption := (decryptData e s.m_Decryption enc).1,
        m_DecryptedBuffer := (parseAll buf).2,
        trace := s.trace ++ (parseAll buf).1 } := by
    rw [DecryptReceived_eq, hb]
  obtain ⟨f1, f2, f3, f4⟩ := frameLengths_spec buf.length buf
  have hbuf : (DecryptReceived e s enc).m_DecryptedBuffer
      = buf.drop (consumedFrames buf).sum := by
    rw [hD]
    exact f1
  have hsum : (consumedFrames buf).sum % 16 = 0 := by
    have : ∀ (l : List Nat), (∀ x ∈ l, 0 < x ∧ x % 16 = 0) → l.sum % 16 = 0 := by
      intro l
      induction l with
      | nil => intro _; rfl
      | cons a as ih =>
        intro h
        have ha := (h a (List.mem_cons_self a as)).2
        have has := ih (fun x hx => h x (List.mem_cons_of_mem a hx))
        rw [List.sum_cons]
        omega
    exact this _ f3
  refine ⟨htot, ?_, ?_, f3, ⟨(parseAll buf).1, by rw [hD], f4⟩, hbuf, ?_⟩
  · rw [hD]
    exact parseEvents_exit buf.length buf (le_refl _)
  · intro t fuel hf
    rw [parseLoop_eq, parseLoop_eq, parseEvents_fuel fuel buf.length buf hf (le_refl _)]
  · show (DecryptReceived e s enc).m_DecryptedBuffer.length % 16 = 0
    rw [hbuf, List.length_drop, htot]
    have h2 : (consumedFrames buf).sum ≤ s.m_DecryptedBufferOffset + enc.length := by
      rw [← htot]; exact f2
    omega

theorem parser_alignment_witness :
    (DecryptReceived demoEnv demoKeyed badChecksumCipher).m_DecryptedBufferOffset % 16 = 0
    ∧ (DecryptReceived demoEnv demoKeyed badChecksumCipher).m_DecryptedBuffer
      = (demoKeyed.m_DecryptedBuffer
          ++ (decryptData demoEnv demoKeyed.m_Decryption badChecksumCipher).2).drop
          (consumedFrames (demoKeyed.m_DecryptedBuffer
            ++ (decryptData demoEnv demoKeyed.m_Decryption badChecksumCipher).2)).sum
    ∧ consumedFrames (demoKeyed.m_DecryptedBuffer
        ++ (decryptData demoEnv demoKeyed.m_Decryption badChecksumCipher).2) = [16] :=
  ⟨(parser_alignment demoEnv demoKeyed badChecksumCipher (by decide) (by decide)
      (fun k hk => by
        have hk2 : demoKey = k := Option.some.inj hk
        rw [← hk2]
        exact ⟨List.length_replicate 16 9, demo_length_all _⟩)).2.2.2.2.2.2,
    (parser_alignment demoEnv demoKeyed badChecksumCipher (by decide) (by decide)
      (fun k hk => by
        have hk2 : demoKey = k := Option.some.inj hk
        rw [← hk2]
        exact ⟨List.length_replicate 16 9, demo_length_all _⟩)).2.2.2.2.2.1,
    by decide⟩

end ntcp
